import Mathlib

/-!
Verification model of `SlpFileWriter` (slippi-desktop-app).

This file shallowly embeds the stream-reassembly / dispatch / persistence /
relay / status engine of `SlpFileWriter`:

* bytes are `Nat`s in `List Nat`; `Buffer.concat`/`slice` become `++`,
  `List.take`, `List.drop`;
* the pieces of mutable state (`this.currentFile`, `this.statusOutput`,
  `this.clients`, ...) become the `Writer` structure, threaded explicitly;
* external effects are recorded observationally: bytes written to the
  stream accumulate in `written`, OBS `SetSceneItemProperties` calls
  accumulate in `toggles`, socket writes accumulate in each client's
  `received`, `onFileStateChange` invocations are counted in `notifies`;
* the asynchronous finalize chain of `endGame` (write footer → end stream →
  reopen → patch the length placeholder → close) is collapsed into one
  synchronous ordered sequence, as the chain is strictly ordered;
* the wall-clock timestamp produced by `moment()` is abstracted as the
  ambient byte string `nowStr` carried by the `Writer`;
* the parse loop of `handleData` is written with an explicit fuel argument
  (the loop consumes at least one byte per iteration, so fuel
  `data.length` is always enough); `handleData` supplies that fuel.

JS object maps (`payloadSizes`, `players`, `characterUsage`) are modeled as
association lists: assignment updates in place or appends, `_.get(..) || 0`
becomes a lookup defaulting to `0`.
-/

namespace Slp

/-- Association-list lookup defaulting to `0`, modelling `_.get(obj, key) || 0`
on a JS object with numeric values (absent key and stored `0` both give `0`). -/
def lookupD : List (Nat × Nat) → Nat → Nat
  | [], _ => 0
  | (a, b) :: t, k => if a = k then b else lookupD t k

/-- Association-list assignment `obj[key] = v`: replace in place, else append. -/
def setAssoc : List (Nat × Nat) → Nat → Nat → List (Nat × Nat)
  | [], k, v => [(k, v)]
  | (a, b) :: t, k, v => if a = k then (k, v) :: t else (a, b) :: setAssoc t k v

/-- Nested lookup for `players[p].characterUsage[c]`, defaulting to `0`. -/
def lookupD2 : List (Nat × List (Nat × Nat)) → Nat → Nat → Nat
  | [], _, _ => 0
  | (a, m) :: t, p, c => if a = p then lookupD m c else lookupD2 t p c

/-- Outer association-list lookup for the players map, defaulting to `[]`
(modelling `_.get(..) || {}`). -/
def lookupP : List (Nat × List (Nat × Nat)) → Nat → List (Nat × Nat)
  | [], _ => []
  | (a, m) :: t, p => if a = p then m else lookupP t p

/-- Outer association-list assignment for the players map. -/
def setP : List (Nat × List (Nat × Nat)) → Nat → List (Nat × Nat) →
    List (Nat × List (Nat × Nat))
  | [], k, v => [(k, v)]
  | (a, m) :: t, k, v => if a = k then (k, v) :: t else (a, m) :: setP t k v

/-- Big-endian `DataView.getUint16`. -/
def getU16 (v : List Nat) (i : Nat) : Nat :=
  v.getD i 0 * 256 + v.getD (i + 1) 0

/-- Big-endian `DataView.getInt32`: four bytes, two's complement. -/
def getI32 (v : List Nat) (i : Nat) : Int :=
  let n := v.getD i 0 * 16777216 + v.getD (i + 1) 0 * 65536 +
    v.getD (i + 2) 0 * 256 + v.getD (i + 3) 0
  if n < 2147483648 then (n : Int) else (n : Int) - 4294967296

/-- `createUInt32Buffer`: 4-byte big-endian encoding of the low 32 bits. -/
def createUInt32Buffer (n : Nat) : List Nat :=
  [n / 16777216 % 256, n / 65536 % 256, n / 256 % 256, n % 256]

/-- Big-endian decoding of the 4 bytes at offset `i`. -/
def readU32 (l : List Nat) (i : Nat) : Nat :=
  l.getD i 0 * 16777216 + l.getD (i + 1) 0 * 65536 +
    l.getD (i + 2) 0 * 256 + l.getD (i + 3) 0

/-- `createInt32Buffer`: 4-byte big-endian two's-complement encoding. -/
def createInt32Buffer (n : Int) : List Nat :=
  createUInt32Buffer (n.emod 4294967296).toNat

/-- `fs.writeSync(fd, bytes, 0, "binary", off)` on file contents: overwrite
the bytes at offsets `[off, off + bytes.length)`. -/
def patchAt (l : List Nat) (off : Nat) (bytes : List Nat) : List Nat :=
  l.take off ++ bytes ++ l.drop (off + bytes.length)

/-- One relay client: its forward cursor `readPos` plus the bytes its socket
has been sent so far (observational record of `socket.write`). -/
structure Client where
  readPos : Nat
  received : List Nat
  deriving DecidableEq, Repr

/-- The `this.currentFile` object.  `written` records every byte passed to
`writeStream.write` (header, frames, footer); `frameLens` records the
`payloadLen` of each frame handed to `writeCommand` while the stream was
open (observational instrumentation used to state trailer correctness). -/
structure CurrentFile where
  payloadSizes : List (Nat × Nat)
  previousBuffer : List Nat
  fullBuffer : List Nat
  streamOpen : Bool
  written : List Nat
  frameLens : List Nat
  bytesWritten : Nat
  startAt : List Nat
  lastFrame : Int
  players : List (Nat × List (Nat × Nat))
  deriving DecidableEq, Repr

/-- A finished recording: the file's final byte contents (after the
placeholder patch) together with the `bytesWritten` value that was patched
in and the recorded per-frame payload lengths. -/
structure FinishedFile where
  contents : List Nat
  bytesWritten : Nat
  frameLens : List Nat
  deriving DecidableEq, Repr

/-- The whole `SlpFileWriter` state. -/
structure Writer where
  currentFile : CurrentFile
  statusOn : Bool
  statusTimer : Option Nat
  toggles : List Bool
  clients : List Client
  files : List FinishedFile
  notifies : Nat
  consoleNick : List Nat
  nowStr : List Nat
  deriving DecidableEq, Repr

/-- An emitted frame: command byte, the advance length returned by
`processCommand`/`processReceiveCommands`, and the payload bytes
(`payloadPtr.slice(0, payloadLen)`). -/
structure Frame where
  cmd : Nat
  plen : Nat
  payload : List Nat
  deriving DecidableEq, Repr

/-- `getClearedCurrentFile()`. -/
def getClearedCurrentFile : CurrentFile :=
  { payloadSizes := []
    previousBuffer := []
    fullBuffer := []
    streamOpen := false
    written := []
    frameLens := []
    bytesWritten := 0
    startAt := []
    lastFrame := -124
    players := [] }

/-- The constructor's initial state (`statusOutput = {status: false,
timeout: null}`, no clients, `currentFile = getClearedCurrentFile()`). -/
def initWriter : Writer :=
  { currentFile := getClearedCurrentFile
    statusOn := false
    statusTimer := none
    toggles := []
    clients := []
    files := []
    notifies := 0
    consoleNick := []
    nowStr := [] }

/-- `setStatus(value)`: store the flag and issue the OBS visibility toggle
(recorded in `toggles`). -/
def setStatus (s : Writer) (v : Bool) : Writer :=
  { s with statusOn := v, toggles := s.toggles ++ [v] }

/-- `handleStatusOutput(timeoutLength = 200)`. -/
def handleStatusOutput (s : Writer) (timeoutLength : Nat) : Writer :=
  if s.currentFile.lastFrame < -60 then
    -- Only show the source in the later portion of the game loading stage
    s
  else if s.statusOn then
    { s with statusTimer := some timeoutLength }
  else
    let s1 := setStatus s true
    { s1 with statusTimer := some timeoutLength }

/-- `writeCommand(command, payloadPtr, payloadLen)`. -/
def writeCommand (s : Writer) (command : Nat) (payloadPtr : List Nat)
    (payloadLen : Nat) : Writer :=
  if s.currentFile.streamOpen then
    { s with currentFile :=
      { s.currentFile with
        bytesWritten := s.currentFile.bytesWritten + (payloadLen + 1)
        written := s.currentFile.written ++ (command :: payloadPtr.take payloadLen)
        frameLens := s.currentFile.frameLens ++ [payloadLen] } }
  else
    s

/-- The 15-byte header written by `initializeNewGame`:
`"{U" ++ [3] ++ "raw[$U#l" ++ [0,0,0,0]` — the 4-byte raw-length placeholder
sits at offsets 11..14. -/
def slpHeader : List Nat :=
  [123, 85, 3, 114, 97, 119, 91, 36, 85, 35, 108, 0, 0, 0, 0]

/-- `initializeNewGame()`: fresh `currentFile` with an open stream and the
start timestamp, all relay cursors back to 0, header written. -/
def initializeNewGame (s : Writer) : Writer :=
  { s with
    currentFile :=
      { getClearedCurrentFile with
        streamOpen := true
        startAt := s.nowStr
        written := slpHeader }
    clients := s.clients.map fun c => { c with readPos := 0 } }

/-- Indices `1, 4, 7, ...` strictly below `plen`: the triplet starts of the
`for (let i = 1; i < payloadLen; i += 3)` loop in `processReceiveCommands`. -/
def triIdx (plen : Nat) : List Nat :=
  (List.range ((plen + 1) / 3)).map fun k => 1 + 3 * k

/-- The payload-size table built by `processReceiveCommands` from the
handshake payload view: entry `view[i] ↦ getUint16(i+1)` per triplet. -/
def rcBuild (tbl : List (Nat × Nat)) (view : List Nat) (plen : Nat) :
    List (Nat × Nat) :=
  (triIdx plen).foldl (fun t i => setAssoc t (view.getD i 0) (getU16 view (i + 1))) tbl

/-- `processReceiveCommands(dataView)`: returns the declared payload length
(first payload byte) and installs every declared triplet in the table. -/
def processReceiveCommands (s : Writer) (view : List Nat) : Nat × Writer :=
  let payloadLen := view.getD 0 0
  (payloadLen,
    { s with currentFile :=
      { s.currentFile with
        payloadSizes := rcBuild s.currentFile.payloadSizes view payloadLen } })

/-- Bump `players[playerIndex].characterUsage[charId]` by one. -/
def bumpUsage (players : List (Nat × List (Nat × Nat))) (p c : Nat) :
    List (Nat × List (Nat × Nat)) :=
  setP players p (setAssoc (lookupP players p) c (lookupD (lookupP players p) c + 1))

/-- `processCommand(command, dataView)`: returns the table's payload size
(0 when absent) and applies the frame-update / game-end side effects. -/
def processCommand (s : Writer) (command : Nat) (view : List Nat) : Nat × Writer :=
  let payloadSize := lookupD s.currentFile.payloadSizes command
  if payloadSize = 0 then
    (0, s)
  else if command = 0x38 then
    -- CMD_RECEIVE_POST_FRAME_UPDATE
    let frameIndex := getI32 view 0
    let playerIndex := view.getD 4 0
    let isFollower := view.getD 5 0
    let internalCharacterId := view.getD 6 0
    if isFollower ≠ 0 then
      (payloadSize, s)
    else
      (payloadSize,
        { s with currentFile :=
          { s.currentFile with
            lastFrame := frameIndex
            players := bumpUsage s.currentFile.players playerIndex internalCharacterId } })
  else if command = 0x39 then
    -- CMD_RECEIVE_GAME_END
    let endMethod := view.getD 0 0
    if endMethod ≠ 7 then (payloadSize, handleStatusOutput s 700)
    else (payloadSize, s)
  else
    (payloadSize, s)

/-- Decimal-digit bytes of a numeric key, as `Buffer.from(`${n}`)` gives. -/
def decBytes (n : Nat) : List Nat :=
  (Nat.toDigits 10 n).map Char.toNat

/-- The metadata footer for one player entry. -/
def playerFooter (p : Nat × List (Nat × Nat)) : List Nat :=
  -- "U" [keyLen] "<idx>{"  then  "U" [10] "characters{"
  [85, (decBytes p.1).length] ++ decBytes p.1 ++ [123] ++
    [85, 10, 99, 104, 97, 114, 97, 99, 116, 101, 114, 115, 123] ++
    (p.2.foldl (fun acc e =>
      acc ++ [85, (decBytes e.1).length] ++ decBytes e.1 ++ [108] ++
        createUInt32Buffer e.2) []) ++
    [125, 125]

/-- The binary metadata trailer composed by `endGame`. -/
def footerBytes (nick : List Nat) (f : CurrentFile) : List Nat :=
  -- "U" [8] "metadata{"
  [85, 8, 109, 101, 116, 97, 100, 97, 116, 97, 123] ++
  -- "U" [7] "startAtSU" [len] startAt
  [85, 7, 115, 116, 97, 114, 116, 65, 116, 83, 85, f.startAt.length] ++ f.startAt ++
  -- "U" [9] "lastFramel" int32
  [85, 9, 108, 97, 115, 116, 70, 114, 97, 109, 101, 108] ++
    createInt32Buffer f.lastFrame ++
  -- "U" [11] "consoleNickSU" [len] nick
  [85, 11, 99, 111, 110, 115, 111, 108, 101, 78, 105, 99, 107, 83, 85,
    nick.length] ++ nick ++
  -- "U" [7] "players{"
  [85, 7, 112, 108, 97, 121, 101, 114, 115, 123] ++
  (f.players.foldl (fun acc p => acc ++ playerFooter p) []) ++
  -- "}" then "U" [8] "playedOnSU" [7] "network" then "}}"
  [125] ++
  [85, 8, 112, 108, 97, 121, 101, 100, 79, 110, 83, 85, 7,
    110, 101, 116, 119, 111, 114, 107] ++
  [125, 125]

/-- `endGame()`.  Without an open stream it only clears the in-memory state.
With one, it writes the footer, then (collapsing the strictly ordered
asynchronous chain: end → reopen → patch offset 11 → close → clear →
notify) patches the length placeholder with `bytesWritten`, records the
finished file, clears the state and fires the file-state-change callback. -/
def endGame (s : Writer) : Writer :=
  if s.currentFile.streamOpen then
    let contents := s.currentFile.written ++ footerBytes s.consoleNick s.currentFile
    let patched := patchAt contents 11 (createUInt32Buffer s.currentFile.bytesWritten)
    { s with
      currentFile := getClearedCurrentFile
      files := s.files ++
        [{ contents := patched
           bytesWritten := s.currentFile.bytesWritten
           frameLens := s.currentFile.frameLens }]
      notifies := s.notifies + 1 }
  else
    { s with currentFile := getClearedCurrentFile }

/-- The `"HELO\0"` keep-alive token. -/
def heloToken : List Nat := [72, 69, 76, 79, 0]

/-- Result of the `while (index < data.length)` parse loop of `handleData`:
final state, emitted frames, the list of byte offsets at which loop
iterations started (`marks`, used to state chunk alignment; the final
resting offset is included), and a well-formedness flag `wf` that is
cleared when a processed frame reads outside its own extent (a handshake
whose declared length is not `≡ 1 (mod 3)` or is below the table's current
entry for `0x35`, or a frame-update whose table size is below 7). -/
structure LoopOut where
  st : Writer
  evs : List Frame
  marks : List Nat
  wf : Bool
  deriving DecidableEq, Repr

/-- The parse loop of `handleData`, processing the concatenated buffer from
offset 0; `fuel ≥ data.length` suffices since every iteration consumes at
least one byte.  Each iteration: skip a full `"HELO\0"` token; otherwise
read the command byte, look up its payload size, stall (retaining the tail
in `previousBuffer`) when fewer than `payloadSize + 1` bytes remain, and
otherwise dispatch exactly as the `switch` in `handleData` does. -/
def loopGo : Nat → Writer → List Nat → LoopOut
  | 0, s, _ => { st := s, evs := [], marks := [0], wf := true }
  | fuel + 1, s, data =>
    if data = [] then
      { st := s, evs := [], marks := [0], wf := true }
    else if data.take 5 = heloToken then
      let r := loopGo fuel s (data.drop 5)
      { r with marks := 0 :: r.marks.map (· + 5) }
    else
      let command := data.headD 0
      let payloadSize := lookupD s.currentFile.payloadSizes command
      if data.length < payloadSize + 1 then
        { st := { s with currentFile := { s.currentFile with previousBuffer := data } }
          evs := [], marks := [0], wf := true }
      else
        let s0 := { s with currentFile := { s.currentFile with previousBuffer := [] } }
        let view := data.drop 1
        if command = 0x35 then
          -- CMD_RECEIVE_COMMANDS
          let s1 := initializeNewGame s0
          let pr := processReceiveCommands s1 view
          let s2 := writeCommand pr.2 command view pr.1
          let s3 := { s2 with notifies := s2.notifies + 1 }
          let stepWf := decide (pr.1 % 3 = 1 ∧ payloadSize ≤ pr.1)
          let r := loopGo fuel s3 (data.drop (1 + pr.1))
          { r with
            evs := { cmd := command, plen := pr.1, payload := view.take pr.1 } :: r.evs
            marks := 0 :: r.marks.map (· + (1 + pr.1))
            wf := stepWf && r.wf }
        else if command = 0x39 then
          -- CMD_RECEIVE_GAME_END
          let pc := processCommand s0 command view
          let s2 := writeCommand pc.2 command view pc.1
          let s3 := endGame s2
          let r := loopGo fuel s3 (data.drop (1 + pc.1))
          { r with
            evs := { cmd := command, plen := pc.1, payload := view.take pc.1 } :: r.evs
            marks := 0 :: r.marks.map (· + (1 + pc.1))
            wf := r.wf }
        else if command = 0x36 then
          -- CMD_GAME_START
          let pc := processCommand s0 command view
          let s2 := writeCommand pc.2 command view pc.1
          let r := loopGo fuel s2 (data.drop (1 + pc.1))
          { r with
            evs := { cmd := command, plen := pc.1, payload := view.take pc.1 } :: r.evs
            marks := 0 :: r.marks.map (· + (1 + pc.1))
            wf := r.wf }
        else
          let pc := processCommand s0 command view
          let s2 := writeCommand pc.2 command view pc.1
          let s3 := handleStatusOutput s2 200
          let stepWf := decide (command ≠ 0x38 ∨ payloadSize = 0 ∨ 7 ≤ payloadSize)
          let r := loopGo fuel s3 (data.drop (1 + pc.1))
          { r with
            evs := { cmd := command, plen := pc.1, payload := view.take pc.1 } :: r.evs
            marks := 0 :: r.marks.map (· + (1 + pc.1))
            wf := stepWf && r.wf }

/-- `handleData(newData)`: prepend the retained tail, run the parse loop,
append the delivery to the relay buffer, and push each client's backlog
(`buf.slice(client.readPos)`), advancing its cursor to the buffer's end.
Returns the emitted frames. -/
def handleData (s : Writer) (newData : List Nat) : Writer × List Frame :=
  let data := s.currentFile.previousBuffer ++ newData
  let r := loopGo data.length s data
  let s1 := { r.st with currentFile :=
    { r.st.currentFile with fullBuffer := r.st.currentFile.fullBuffer ++ newData } }
  let buf := s1.currentFile.fullBuffer
  let s2 := { s1 with clients := s1.clients.map fun c =>
    { readPos := buf.length, received := c.received ++ buf.drop c.readPos } }
  (s2, r.evs)

/-- Feed a list of sub-deliveries through `handleData` sequentially,
collecting all emitted frames. -/
def runChunks (s : Writer) (chunks : List (List Nat)) : Writer × List Frame :=
  chunks.foldl (fun p c =>
    let r := handleData p.1 c
    (r.1, p.2 ++ r.2)) (s, [])

/-- Concatenation of the sub-deliveries. -/
def concatChunks (chunks : List (List Nat)) : List Nat :=
  chunks.foldr (· ++ ·) []

/-- The internal chunk boundaries: the cumulative byte offsets at which one
sub-delivery ends and the next begins (the final total length excluded). -/
def innerBounds (chunks : List (List Nat)) : List Nat :=
  match chunks with
  | [] => []
  | _ :: [] => []
  | c :: rest => c.length :: (innerBounds rest).map (· + c.length)

/-! ## Basic lemmas about the helpers -/

theorem loopGo_nil (f : Nat) (s : Writer) : loopGo f s [] = ⟨s, [], [0], true⟩ := by
  cases f <;> rfl

theorem getD_take (l : List Nat) (i n d : Nat) (h : i < n) :
    (l.take n).getD i d = l.getD i d := by
  simp [List.getD, List.getElem?_take, h]

theorem headD_take (l : List Nat) (n d : Nat) (h : 0 < n) :
    (l.take n).headD d = l.headD d := by
  cases l with
  | nil => simp
  | cons a t => cases n with
    | zero => omega
    | succ m => simp [List.take]

theorem take5_ne_helo_of_short (l : List Nat) (h : l.length < 5) :
    l.take 5 ≠ heloToken := by
  intro he
  have : (l.take 5).length = 5 := by rw [he]; rfl
  simp [List.length_take] at this
  omega

theorem length_ge5_of_helo (l : List Nat) (h : l.take 5 = heloToken) :
    5 ≤ l.length := by
  by_contra hlt
  exact take5_ne_helo_of_short l (by omega) h

theorem sumLens_append (a b : List Nat) :
    ((a ++ b).map (· + 1)).sum = (a.map (· + 1)).sum + (b.map (· + 1)).sum := by
  simp

/-- Sum of `1 + payloadLength` over the recorded frames. -/
def sumLens (l : List Nat) : Nat := (l.map (· + 1)).sum

theorem sumLens_snoc (a : List Nat) (p : Nat) :
    sumLens (a ++ [p]) = sumLens a + (p + 1) := by
  simp [sumLens]

theorem readU32_createUInt32Buffer (pre post : List Nat) (n : Nat)
    (hpre : pre.length = 11) :
    readU32 (pre ++ createUInt32Buffer n ++ post) 11 = n % 4294967296 := by
  have hget : ∀ k : Nat, (pre ++ (createUInt32Buffer n ++ post)).getD (11 + k) 0 =
      (createUInt32Buffer n ++ post).getD k 0 := by
    intro k
    rw [List.getD_append_right pre _ 0 (11 + k) (by omega), hpre]
    congr 1
    omega
  have e0 := hget 0
  have e1 := hget 1
  have e2 := hget 2
  have e3 := hget 3
  rw [List.append_assoc, readU32]
  norm_num at e0 e1 e2 e3 ⊢
  rw [e0, e1, e2, e3]
  simp [createUInt32Buffer, List.getD]
  omega

theorem readU32_patchAt (l : List Nat) (n : Nat) (h : 11 ≤ l.length) :
    readU32 (patchAt l 11 (createUInt32Buffer n)) 11 = n % 4294967296 := by
  have : patchAt l 11 (createUInt32Buffer n) =
      l.take 11 ++ createUInt32Buffer n ++ l.drop (11 + (createUInt32Buffer n).length) :=
    rfl
  rw [this, readU32_createUInt32Buffer]
  simp [List.length_take]
  omega

/-! ## C7: status pulse suppression below the threshold -/

/-- Helper: the pulse is a complete no-op while `lastFrame` is below `-60`. -/
theorem handleStatusOutput_suppressed (s : Writer) (hold : Nat)
    (h : s.currentFile.lastFrame < -60) : handleStatusOutput s hold = s := by
  simp [handleStatusOutput, h]

/-- C7: whenever `handleStatusOutput` is invoked while `lastFrame` is below
the `-60` threshold, the pulse is ignored entirely: the state is unchanged,
so visibility is not shown, no auto-hide timer is armed, and no external
visibility-toggle invocation is recorded. -/
theorem C7_pulse_suppressed_below_threshold (s : Writer) (hold : Nat)
    (h : s.currentFile.lastFrame < -60) :
    handleStatusOutput s hold = s ∧
    (handleStatusOutput s hold).toggles = s.toggles ∧
    (handleStatusOutput s hold).statusOn = s.statusOn ∧
    (handleStatusOutput s hold).statusTimer = s.statusTimer := by
  have he := handleStatusOutput_suppressed s hold h
  exact ⟨he, by rw [he], by rw [he], by rw [he]⟩

/-- A state sitting at `lastFrame = -100`, as in the spec's Scenario C. -/
def stateAtNeg100 : Writer :=
  { initWriter with currentFile := { getClearedCurrentFile with lastFrame := -100 } }

/-- C7 witness: a pulse at `lastFrame = -100` (threshold `-60`) is a no-op. -/
theorem C7_witness :
    stateAtNeg100.currentFile.lastFrame < -60 ∧
    handleStatusOutput stateAtNeg100 200 = stateAtNeg100 := by
  refine ⟨by decide, ?_⟩
  exact (C7_pulse_suppressed_below_threshold stateAtNeg100 200 (by decide)).1

/-! ## C9: finalize / write with no open output resource -/

/-- C9: with no open output resource, `writeCommand` is a silent no-op
(`bytesWritten` unchanged, nothing written) and `endGame` performs no write,
no trailer composition and no placeholder patch: it only replaces the
in-memory recording state with the cleared one. -/
theorem C9_no_stream_noop (s : Writer) (command : Nat) (payloadPtr : List Nat)
    (payloadLen : Nat) (h : s.currentFile.streamOpen = false) :
    writeCommand s command payloadPtr payloadLen = s ∧
    endGame s = { s with currentFile := getClearedCurrentFile } ∧
    (endGame s).files = s.files ∧
    (endGame s).notifies = s.notifies := by
  refine ⟨by simp [writeCommand, h], by simp [endGame, h], ?_, ?_⟩ <;>
    simp [endGame, h]

/-- C9 witness: at the initial state (no stream), a write then a finalize
leave everything but the cleared in-memory file untouched. -/
theorem C9_witness :
    initWriter.currentFile.streamOpen = false ∧
    writeCommand initWriter 0x36 [1, 2] 2 = initWriter ∧
    endGame initWriter = { initWriter with currentFile := getClearedCurrentFile } := by
  refine ⟨by decide, ?_, ?_⟩
  · exact (C9_no_stream_noop initWriter 0x36 [1, 2] 2 (by decide)).1
  · exact (C9_no_stream_noop initWriter 0x36 [1, 2] 2 (by decide)).2.1

/-! ## C3: session reset on handshake -/

theorem take5_ne_helo_of_headD (l : List Nat) (h : l.headD 0 ≠ 72) :
    l.take 5 ≠ heloToken := by
  cases l with
  | nil => intro he; exact absurd (congrArg List.length he) (by decide)
  | cons a t =>
    intro he
    have : a = 72 := by
      have := congrArg (fun x => x.headD 0) he
      simpa [heloToken] using this
    exact h (by simpa using this)

/-- C3: a handshake resets the whole per-session state.  First part: the
state produced by `initializeNewGame` — which the handshake branch applies
before the handshake payload is processed — has an empty payload-size
table, an empty relay buffer, a zero bytes-written counter, empty player
stats, initial `lastFrame`, and every relay client's cursor at 0, whatever
state it started from.  Second part: a delivery consisting of exactly one
handshake frame, arriving in an arbitrary state, leaves a state whose
payload table holds exactly the entries declared by this handshake (none of
the old ones), whose bytes-written counter counts only the handshake frame,
whose stats are fresh, and whose relay clients were rewound to 0 before the
new session's bytes were pushed (so each received this delivery from
offset 0). -/
theorem C3_session_reset_on_handshake :
    (∀ s : Writer,
      (initializeNewGame s).currentFile.payloadSizes = [] ∧
      (initializeNewGame s).currentFile.fullBuffer = [] ∧
      (initializeNewGame s).currentFile.bytesWritten = 0 ∧
      (initializeNewGame s).currentFile.players = [] ∧
      (initializeNewGame s).currentFile.lastFrame = -124 ∧
      ∀ c ∈ (initializeNewGame s).clients, c.readPos = 0) ∧
    (∀ (s : Writer) (d : List Nat),
      s.currentFile.previousBuffer = [] →
      d.headD 0 = 0x35 →
      d ≠ [] →
      lookupD s.currentFile.payloadSizes 0x35 + 1 ≤ d.length →
      d.length = 1 + (d.drop 1).getD 0 0 →
      (handleData s d).1.currentFile.payloadSizes
          = rcBuild [] (d.drop 1) ((d.drop 1).getD 0 0) ∧
      (handleData s d).1.currentFile.bytesWritten = (d.drop 1).getD 0 0 + 1 ∧
      (handleData s d).1.currentFile.players = [] ∧
      (handleData s d).1.currentFile.lastFrame = -124 ∧
      (handleData s d).1.currentFile.fullBuffer = d ∧
      (handleData s d).1.clients = s.clients.map fun c =>
        { readPos := d.length, received := c.received ++ d }) := by
  constructor
  · intro s
    refine ⟨rfl, rfl, rfl, rfl, rfl, ?_⟩
    intro c hc
    simp only [initializeNewGame, List.mem_map] at hc
    obtain ⟨a, _, rfl⟩ := hc
    rfl
  · intro s d hprev hhead hne hsz hlen
    have hfuel : d.length = (d.drop 1).getD 0 0 + 1 := by omega
    have hdata : s.currentFile.previousBuffer ++ d = d := by rw [hprev]; rfl
    have hhelo : d.take 5 ≠ heloToken :=
      take5_ne_helo_of_headD d (by rw [hhead]; decide)
    have hdrop : d.drop (1 + (d.drop 1).getD 0 0) = [] :=
      List.drop_of_length_le (by omega)
    rw [handleData]
    simp only [hdata, hfuel, loopGo, if_neg hne, if_neg hhelo, hhead]
    rw [if_neg (by omega), if_pos trivial]
    simp only [processReceiveCommands, initializeNewGame, getClearedCurrentFile,
      writeCommand, hdrop, loopGo_nil]
    simp [List.map_map, Function.comp, hfuel]

/-- The spec's Scenario-A handshake: declares `0x35 ↦ 10`, `0x38 ↦ 10`,
`0x39 ↦ 1` (declared payload length 10). -/
def scenarioHandshake : List Nat :=
  [0x35, 10, 0x35, 0, 10, 0x38, 0, 10, 0x39, 0, 1]

/-- C3 witness: the single-handshake delivery at the initial state. -/
theorem C3_witness :
    (handleData initWriter scenarioHandshake).1.currentFile.payloadSizes
        = rcBuild [] (scenarioHandshake.drop 1) 10 ∧
    (handleData initWriter scenarioHandshake).1.currentFile.bytesWritten = 11 ∧
    (handleData initWriter scenarioHandshake).1.currentFile.players = [] ∧
    (handleData initWriter scenarioHandshake).1.currentFile.lastFrame = -124 := by
  have h := C3_session_reset_on_handshake.2 initWriter scenarioHandshake
    (by decide) (by decide) (by decide) (by decide) (by decide)
  exact ⟨h.1, h.2.1, h.2.2.1, h.2.2.2.1⟩

/-! ## Field-preservation lemmas for the state operations -/

@[simp] theorem hso_currentFile (s : Writer) (t : Nat) :
    (handleStatusOutput s t).currentFile = s.currentFile := by
  simp only [handleStatusOutput, setStatus]
  split_ifs <;> rfl

@[simp] theorem hso_clients (s : Writer) (t : Nat) :
    (handleStatusOutput s t).clients = s.clients := by
  simp only [handleStatusOutput, setStatus]
  split_ifs <;> rfl

@[simp] theorem hso_files (s : Writer) (t : Nat) :
    (handleStatusOutput s t).files = s.files := by
  simp only [handleStatusOutput, setStatus]
  split_ifs <;> rfl

@[simp] theorem hso_notifies (s : Writer) (t : Nat) :
    (handleStatusOutput s t).notifies = s.notifies := by
  simp only [handleStatusOutput, setStatus]
  split_ifs <;> rfl

@[simp] theorem hso_consoleNick (s : Writer) (t : Nat) :
    (handleStatusOutput s t).consoleNick = s.consoleNick := by
  simp only [handleStatusOutput, setStatus]
  split_ifs <;> rfl

@[simp] theorem hso_nowStr (s : Writer) (t : Nat) :
    (handleStatusOutput s t).nowStr = s.nowStr := by
  simp only [handleStatusOutput, setStatus]
  split_ifs <;> rfl

@[simp] theorem processCommand_fst (s : Writer) (command : Nat) (view : List Nat) :
    (processCommand s command view).1 = lookupD s.currentFile.payloadSizes command := by
  simp only [processCommand]
  split_ifs <;> simp_all

theorem processCommand_cf_of_ne38 (s : Writer) (command : Nat) (view : List Nat)
    (h : command ≠ 0x38) :
    (processCommand s command view).2.currentFile = s.currentFile := by
  simp only [processCommand]
  split_ifs <;> simp_all

@[simp] theorem processCommand_clients (s : Writer) (command : Nat) (view : List Nat) :
    (processCommand s command view).2.clients = s.clients := by
  simp only [processCommand]
  split_ifs <;> simp_all

@[simp] theorem processCommand_files (s : Writer) (command : Nat) (view : List Nat) :
    (processCommand s command view).2.files = s.files := by
  simp only [processCommand]
  split_ifs <;> simp_all

@[simp] theorem processCommand_notifies (s : Writer) (command : Nat) (view : List Nat) :
    (processCommand s command view).2.notifies = s.notifies := by
  simp only [processCommand]
  split_ifs <;> simp_all

@[simp] theorem processCommand_consoleNick (s : Writer) (command : Nat) (view : List Nat) :
    (processCommand s command view).2.consoleNick = s.consoleNick := by
  simp only [processCommand]
  split_ifs <;> simp_all

@[simp] theorem processCommand_nowStr (s : Writer) (command : Nat) (view : List Nat) :
    (processCommand s command view).2.nowStr = s.nowStr := by
  simp only [processCommand]
  split_ifs <;> simp_all

@[simp] theorem processCommand_payloadSizes (s : Writer) (command : Nat) (view : List Nat) :
    (processCommand s command view).2.currentFile.payloadSizes
      = s.currentFile.payloadSizes := by
  simp only [processCommand]
  split_ifs <;> simp_all

@[simp] theorem processCommand_previousBuffer (s : Writer) (command : Nat) (view : List Nat) :
    (processCommand s command view).2.currentFile.previousBuffer
      = s.currentFile.previousBuffer := by
  simp only [processCommand]
  split_ifs <;> simp_all

@[simp] theorem processCommand_fullBuffer (s : Writer) (command : Nat) (view : List Nat) :
    (processCommand s command view).2.currentFile.fullBuffer
      = s.currentFile.fullBuffer := by
  simp only [processCommand]
  split_ifs <;> simp_all

@[simp] theorem processCommand_streamOpen (s : Writer) (command : Nat) (view : List Nat) :
    (processCommand s command view).2.currentFile.streamOpen
      = s.currentFile.streamOpen := by
  simp only [processCommand]
  split_ifs <;> simp_all

@[simp] theorem processCommand_written (s : Writer) (command : Nat) (view : List Nat) :
    (processCommand s command view).2.currentFile.written = s.currentFile.written := by
  simp only [processCommand]
  split_ifs <;> simp_all

@[simp] theorem processCommand_frameLens (s : Writer) (command : Nat) (view : List Nat) :
    (processCommand s command view).2.currentFile.frameLens
      = s.currentFile.frameLens := by
  simp only [processCommand]
  split_ifs <;> simp_all

@[simp] theorem processCommand_bytesWritten (s : Writer) (command : Nat) (view : List Nat) :
    (processCommand s command view).2.currentFile.bytesWritten
      = s.currentFile.bytesWritten := by
  simp only [processCommand]
  split_ifs <;> simp_all

@[simp] theorem processCommand_startAt (s : Writer) (command : Nat) (view : List Nat) :
    (processCommand s command view).2.currentFile.startAt = s.currentFile.startAt := by
  simp only [processCommand]
  split_ifs <;> simp_all

@[simp] theorem writeCommand_statusOn (s : Writer) (c : Nat) (v : List Nat) (n : Nat) :
    (writeCommand s c v n).statusOn = s.statusOn := by
  unfold writeCommand; split <;> rfl

@[simp] theorem writeCommand_statusTimer (s : Writer) (c : Nat) (v : List Nat) (n : Nat) :
    (writeCommand s c v n).statusTimer = s.statusTimer := by
  unfold writeCommand; split <;> rfl

@[simp] theorem writeCommand_toggles (s : Writer) (c : Nat) (v : List Nat) (n : Nat) :
    (writeCommand s c v n).toggles = s.toggles := by
  unfold writeCommand; split <;> rfl

@[simp] theorem writeCommand_clients (s : Writer) (c : Nat) (v : List Nat) (n : Nat) :
    (writeCommand s c v n).clients = s.clients := by
  unfold writeCommand; split <;> rfl

@[simp] theorem writeCommand_files (s : Writer) (c : Nat) (v : List Nat) (n : Nat) :
    (writeCommand s c v n).files = s.files := by
  unfold writeCommand; split <;> rfl

@[simp] theorem writeCommand_notifies (s : Writer) (c : Nat) (v : List Nat) (n : Nat) :
    (writeCommand s c v n).notifies = s.notifies := by
  unfold writeCommand; split <;> rfl

@[simp] theorem writeCommand_consoleNick (s : Writer) (c : Nat) (v : List Nat) (n : Nat) :
    (writeCommand s c v n).consoleNick = s.consoleNick := by
  unfold writeCommand; split <;> rfl

@[simp] theorem writeCommand_nowStr (s : Writer) (c : Nat) (v : List Nat) (n : Nat) :
    (writeCommand s c v n).nowStr = s.nowStr := by
  unfold writeCommand; split <;> rfl

@[simp] theorem writeCommand_payloadSizes (s : Writer) (c : Nat) (v : List Nat) (n : Nat) :
    (writeCommand s c v n).currentFile.payloadSizes = s.currentFile.payloadSizes := by
  unfold writeCommand; split <;> rfl

@[simp] theorem writeCommand_previousBuffer (s : Writer) (c : Nat) (v : List Nat) (n : Nat) :
    (writeCommand s c v n).currentFile.previousBuffer
      = s.currentFile.previousBuffer := by
  unfold writeCommand; split <;> rfl

@[simp] theorem writeCommand_fullBuffer (s : Writer) (c : Nat) (v : List Nat) (n : Nat) :
    (writeCommand s c v n).currentFile.fullBuffer = s.currentFile.fullBuffer := by
  unfold writeCommand; split <;> rfl

@[simp] theorem writeCommand_streamOpen (s : Writer) (c : Nat) (v : List Nat) (n : Nat) :
    (writeCommand s c v n).currentFile.streamOpen = s.currentFile.streamOpen := by
  unfold writeCommand; split <;> rfl

@[simp] theorem writeCommand_lastFrame (s : Writer) (c : Nat) (v : List Nat) (n : Nat) :
    (writeCommand s c v n).currentFile.lastFrame = s.currentFile.lastFrame := by
  unfold writeCommand; split <;> rfl

@[simp] theorem writeCommand_players (s : Writer) (c : Nat) (v : List Nat) (n : Nat) :
    (writeCommand s c v n).currentFile.players = s.currentFile.players := by
  unfold writeCommand; split <;> rfl

@[simp] theorem writeCommand_startAt (s : Writer) (c : Nat) (v : List Nat) (n : Nat) :
    (writeCommand s c v n).currentFile.startAt = s.currentFile.startAt := by
  unfold writeCommand; split <;> rfl

@[simp] theorem endGame_currentFile (s : Writer) :
    (endGame s).currentFile = getClearedCurrentFile := by
  unfold endGame; split <;> rfl

@[simp] theorem endGame_statusOn (s : Writer) : (endGame s).statusOn = s.statusOn := by
  unfold endGame; split <;> rfl

@[simp] theorem endGame_statusTimer (s : Writer) :
    (endGame s).statusTimer = s.statusTimer := by
  unfold endGame; split <;> rfl

@[simp] theorem endGame_toggles (s : Writer) : (endGame s).toggles = s.toggles := by
  unfold endGame; split <;> rfl

@[simp] theorem endGame_clients (s : Writer) : (endGame s).clients = s.clients := by
  unfold endGame; split <;> rfl

@[simp] theorem endGame_consoleNick (s : Writer) :
    (endGame s).consoleNick = s.consoleNick := by
  unfold endGame; split <;> rfl

@[simp] theorem endGame_nowStr (s : Writer) : (endGame s).nowStr = s.nowStr := by
  unfold endGame; split <;> rfl

/-! ## C8: game-end handling -/

/-- C8: a delivery consisting of exactly one game-end frame (code `0x39`
present in the table, stream open).  The end-method byte is payload offset
0; the extended status pulse `handleStatusOutput 700` is invoked if and
only if it differs from the sentinel `7`; the frame is persisted verbatim
and the recording is finalized: the in-memory state is cleared and a
finished file is appended whose contents are the previously written bytes
followed by this frame's bytes and a trailer, with the length placeholder
at offset 11 patched to the final bytes-written count.  With end-method 7
no toggle is ever issued by this delivery. -/
theorem C8_game_end (s : Writer) (d : List Nat)
    (hprev : s.currentFile.previousBuffer = [])
    (hhead : d.headD 0 = 0x39)
    (hne : d ≠ [])
    (hpsize : lookupD s.currentFile.payloadSizes 0x39 ≠ 0)
    (hlen : d.length = 1 + lookupD s.currentFile.payloadSizes 0x39)
    (hopen : s.currentFile.streamOpen = true) :
    (handleData s d).2 = [⟨0x39, lookupD s.currentFile.payloadSizes 0x39,
      (d.drop 1).take (lookupD s.currentFile.payloadSizes 0x39)⟩] ∧
    ((d.drop 1).getD 0 0 ≠ 7 →
      (processCommand { s with currentFile :=
          { s.currentFile with previousBuffer := [] } } 0x39 (d.drop 1)).2
        = handleStatusOutput { s with currentFile :=
            { s.currentFile with previousBuffer := [] } } 700) ∧
    ((d.drop 1).getD 0 0 = 7 →
      (processCommand { s with currentFile :=
          { s.currentFile with previousBuffer := [] } } 0x39 (d.drop 1)).2
        = { s with currentFile := { s.currentFile with previousBuffer := [] } }) ∧
    (handleData s d).1.currentFile = { getClearedCurrentFile with fullBuffer := d } ∧
    ((d.drop 1).getD 0 0 = 7 → (handleData s d).1.toggles = s.toggles) ∧
    (∃ foot : List Nat,
      (handleData s d).1.files = s.files ++
        [{ contents := patchAt
              (s.currentFile.written ++
                (0x39 :: (d.drop 1).take (lookupD s.currentFile.payloadSizes 0x39)) ++
                foot) 11
              (createUInt32Buffer (s.currentFile.bytesWritten +
                (lookupD s.currentFile.payloadSizes 0x39 + 1)))
           bytesWritten := s.currentFile.bytesWritten +
              (lookupD s.currentFile.payloadSizes 0x39 + 1)
           frameLens := s.currentFile.frameLens ++
              [lookupD s.currentFile.payloadSizes 0x39] }]) := by
  set psize := lookupD s.currentFile.payloadSizes 0x39 with hps
  set s0 : Writer := { s with currentFile :=
    { s.currentFile with previousBuffer := [] } } with hs0
  have hps0 : lookupD s0.currentFile.payloadSizes 0x39 = psize := rfl
  have hpc : ∀ view : List Nat, processCommand s0 0x39 view =
      (psize, if view.getD 0 0 ≠ 7 then handleStatusOutput s0 700 else s0) := by
    intro view
    simp only [processCommand, hps0]
    rw [if_neg hpsize, if_neg (by decide : (0x39 : Nat) ≠ 0x38), if_pos trivial]
    split_ifs with h7
    · simp [h7]
    · simp [h7]
  have hfuel : d.length = psize + 1 := by omega
  have hdata : s.currentFile.previousBuffer ++ d = d := by rw [hprev]; rfl
  have hhelo : d.take 5 ≠ heloToken :=
    take5_ne_helo_of_headD d (by rw [hhead]; decide)
  have hdrop : d.drop (1 + psize) = [] := List.drop_of_length_le (by omega)
  have hmain : handleData s d =
      (let r3 := endGame (writeCommand (processCommand s0 0x39 (d.drop 1)).2
        0x39 (d.drop 1) psize)
       ({ r3 with
          currentFile :=
            { r3.currentFile with fullBuffer := r3.currentFile.fullBuffer ++ d }
          clients := r3.clients.map fun c =>
            { readPos := (r3.currentFile.fullBuffer ++ d).length
              received := c.received ++
                (r3.currentFile.fullBuffer ++ d).drop c.readPos } },
       [{ cmd := 0x39, plen := psize, payload := (d.drop 1).take psize }])) := by
    rw [handleData]
    simp only [hdata]
    rw [hfuel]
    simp only [loopGo, if_neg hne, if_neg hhelo, hhead]
    rw [if_neg (show ¬(d.length < psize + 1) by omega),
      if_neg (by decide : (0x39 : Nat) ≠ 0x35), if_pos trivial]
    simp only [processCommand_fst, hps0, hdrop, loopGo_nil]
  refine ⟨?_, ?_, ?_, ?_, ?_, ?_⟩
  · rw [hmain]
  · intro h7; rw [hpc]; exact if_pos h7
  · intro h7; rw [hpc]; exact if_neg (fun hc => hc h7)
  · rw [hmain]
    simp [endGame_currentFile, getClearedCurrentFile]
  · intro h7
    have h7x : d[1]?.getD 0 = 7 := by
      simpa [List.getD, List.getElem?_drop] using h7
    rw [hmain]
    simp only [endGame_toggles, writeCommand_toggles]
    rw [hpc]
    simp [h7x]
  · rw [hmain]
    refine ⟨footerBytes
      (writeCommand (processCommand s0 0x39 (d.drop 1)).2 0x39 (d.drop 1) psize).consoleNick
      (writeCommand (processCommand s0 0x39 (d.drop 1)).2 0x39 (d.drop 1) psize).currentFile,
      ?_⟩
    have hopen2 : (processCommand s0 0x39 (d.drop 1)).2.currentFile.streamOpen = true := by
      rw [processCommand_streamOpen]; exact hopen
    rw [endGame, writeCommand]
    rw [if_pos hopen2]
    simp only [if_pos (show ((processCommand s0 0x39 (d.drop 1)).2.currentFile.streamOpen)
      = true from hopen2)]
    simp [writeCommand, if_pos hopen2, processCommand_files, processCommand_written,
      processCommand_bytesWritten, processCommand_frameLens]

/-- A mid-session state: the table knows `0x39 ↦ 1`, the stream is open and
holds the header. -/
def gameEndState : Writer :=
  { initWriter with currentFile :=
    { getClearedCurrentFile with
      payloadSizes := [(0x39, 1)]
      streamOpen := true
      written := slpHeader } }

/-- C8 witness: a single game-end frame with end-method 7 (Scenario A's
no-contest sentinel) is emitted and persisted, no toggle is issued, and the
recording state is cleared. -/
theorem C8_witness :
    (handleData gameEndState [0x39, 7]).2 = [⟨0x39, 1, [7]⟩] ∧
    (handleData gameEndState [0x39, 7]).1.toggles = [] ∧
    (handleData gameEndState [0x39, 7]).1.currentFile
      = { getClearedCurrentFile with fullBuffer := [0x39, 7] } := by
  have h := C8_game_end gameEndState [0x39, 7] (by decide) (by decide) (by decide)
    (by decide) (by decide) (by decide)
  refine ⟨?_, ?_, h.2.2.2.1⟩
  · rw [h.1]; decide
  · rw [h.2.2.2.2.1 (by decide)]; decide

/-! ## Branch equations for the parse loop -/

theorem loopGo_helo (fuel : Nat) (s : Writer) (d : List Nat)
    (hne : d ≠ []) (hh : d.take 5 = heloToken) :
    loopGo (fuel + 1) s d =
      (let r := loopGo fuel s (d.drop 5)
       { r with marks := 0 :: r.marks.map (· + 5) }) := by
  rw [loopGo]
  simp only [if_neg hne, if_pos hh]

theorem loopGo_stall (fuel : Nat) (s : Writer) (d : List Nat)
    (hne : d ≠ []) (hh : d.take 5 ≠ heloToken)
    (hst : d.length < lookupD s.currentFile.payloadSizes (d.headD 0) + 1) :
    loopGo (fuel + 1) s d =
      { st := { s with currentFile := { s.currentFile with previousBuffer := d } }
        evs := [], marks := [0], wf := true } := by
  rw [loopGo]
  simp only [if_neg hne, if_neg hh, if_pos hst]

theorem loopGo_s35 (fuel : Nat) (s : Writer) (d : List Nat)
    (hne : d ≠ []) (hh : d.take 5 ≠ heloToken)
    (hc : d.headD 0 = 0x35)
    (hst : ¬ (d.length < lookupD s.currentFile.payloadSizes 0x35 + 1)) :
    loopGo (fuel + 1) s d =
      (let s0 : Writer :=
        { s with currentFile := { s.currentFile with previousBuffer := [] } }
       let pr := processReceiveCommands (initializeNewGame s0) (d.drop 1)
       let s2 := writeCommand pr.2 0x35 (d.drop 1) pr.1
       let s3 := { s2 with notifies := s2.notifies + 1 }
       let r := loopGo fuel s3 (d.drop (1 + pr.1))
       { st := r.st
         evs := ⟨0x35, pr.1, (d.drop 1).take pr.1⟩ :: r.evs
         marks := 0 :: r.marks.map (· + (1 + pr.1))
         wf := decide (pr.1 % 3 = 1 ∧
           lookupD s.currentFile.payloadSizes 0x35 ≤ pr.1) && r.wf }) := by
  rw [loopGo]
  simp only [hc, if_neg hne, if_neg hh]
  rw [if_neg hst, if_pos trivial]

theorem loopGo_s39 (fuel : Nat) (s : Writer) (d : List Nat)
    (hne : d ≠ []) (hh : d.take 5 ≠ heloToken)
    (hc : d.headD 0 = 0x39)
    (hst : ¬ (d.length < lookupD s.currentFile.payloadSizes 0x39 + 1)) :
    loopGo (fuel + 1) s d =
      (let s0 : Writer :=
        { s with currentFile := { s.currentFile with previousBuffer := [] } }
       let pc := processCommand s0 0x39 (d.drop 1)
       let s3 := endGame (writeCommand pc.2 0x39 (d.drop 1) pc.1)
       let r := loopGo fuel s3 (d.drop (1 + pc.1))
       { st := r.st
         evs := ⟨0x39, pc.1, (d.drop 1).take pc.1⟩ :: r.evs
         marks := 0 :: r.marks.map (· + (1 + pc.1))
         wf := r.wf }) := by
  rw [loopGo]
  simp only [hc, if_neg hne, if_neg hh]
  rw [if_neg hst, if_neg (by decide : ¬ (0x39 : Nat) = 0x35), if_pos trivial]

theorem loopGo_s36 (fuel : Nat) (s : Writer) (d : List Nat)
    (hne : d ≠ []) (hh : d.take 5 ≠ heloToken)
    (hc : d.headD 0 = 0x36)
    (hst : ¬ (d.length < lookupD s.currentFile.payloadSizes 0x36 + 1)) :
    loopGo (fuel + 1) s d =
      (let s0 : Writer :=
        { s with currentFile := { s.currentFile with previousBuffer := [] } }
       let pc := processCommand s0 0x36 (d.drop 1)
       let s2 := writeCommand pc.2 0x36 (d.drop 1) pc.1
       let r := loopGo fuel s2 (d.drop (1 + pc.1))
       { st := r.st
         evs := ⟨0x36, pc.1, (d.drop 1).take pc.1⟩ :: r.evs
         marks := 0 :: r.marks.map (· + (1 + pc.1))
         wf := r.wf }) := by
  rw [loopGo]
  simp only [hc, if_neg hne, if_neg hh]
  rw [if_neg hst, if_neg (by decide : ¬ (0x36 : Nat) = 0x35),
    if_neg (by decide : ¬ (0x36 : Nat) = 0x39), if_pos trivial]

theorem loopGo_sdef (fuel : Nat) (s : Writer) (d : List Nat)
    (hne : d ≠ []) (hh : d.take 5 ≠ heloToken)
    (h35 : d.headD 0 ≠ 0x35) (h39 : d.headD 0 ≠ 0x39) (h36 : d.headD 0 ≠ 0x36)
    (hst : ¬ (d.length < lookupD s.currentFile.payloadSizes (d.headD 0) + 1)) :
    loopGo (fuel + 1) s d =
      (let s0 : Writer :=
        { s with currentFile := { s.currentFile with previousBuffer := [] } }
       let pc := processCommand s0 (d.headD 0) (d.drop 1)
       let s3 := handleStatusOutput (writeCommand pc.2 (d.headD 0) (d.drop 1) pc.1) 200
       let r := loopGo fuel s3 (d.drop (1 + pc.1))
       { st := r.st
         evs := ⟨d.headD 0, pc.1, (d.drop 1).take pc.1⟩ :: r.evs
         marks := 0 :: r.marks.map (· + (1 + pc.1))
         wf := decide (d.headD 0 ≠ 0x38 ∨
           lookupD s.currentFile.payloadSizes (d.headD 0) = 0 ∨
           7 ≤ lookupD s.currentFile.payloadSizes (d.headD 0)) && r.wf }) := by
  rw [loopGo]
  simp only [if_neg hne, if_neg hh]
  rw [if_neg hst, if_neg h35, if_neg h39, if_neg h36]

/-! ## C6: relay full-backlog delivery -/

/-- Helper: a parse pass that dispatches neither a handshake nor a game-end
frame touches neither the accumulated relay buffer nor the client list. -/
theorem loopGo_relay_frozen : ∀ (fuel : Nat) (s : Writer) (d : List Nat),
    (∀ e ∈ (loopGo fuel s d).evs, e.cmd ≠ 0x35 ∧ e.cmd ≠ 0x39) →
    (loopGo fuel s d).st.currentFile.fullBuffer = s.currentFile.fullBuffer ∧
    (loopGo fuel s d).st.clients = s.clients := by
  intro fuel
  induction fuel with
  | zero => intro s d _; exact ⟨rfl, rfl⟩
  | succ fuel ih =>
    intro s d hev
    by_cases hne : d = []
    · subst hne; rw [loopGo_nil]; exact ⟨rfl, rfl⟩
    by_cases hh : d.take 5 = heloToken
    · rw [loopGo_helo fuel s d hne hh] at hev ⊢
      exact ih s (d.drop 5) hev
    by_cases hst : d.length < lookupD s.currentFile.payloadSizes (d.headD 0) + 1
    · rw [loopGo_stall fuel s d hne hh hst]
      exact ⟨rfl, rfl⟩
    by_cases h35 : d.headD 0 = 0x35
    · exfalso
      rw [loopGo_s35 fuel s d hne hh h35 (by rwa [h35] at hst)] at hev
      simp only [] at hev
      exact (hev _ (List.mem_cons_self _ _)).1 rfl
    by_cases h39 : d.headD 0 = 0x39
    · exfalso
      rw [loopGo_s39 fuel s d hne hh h39 (by rwa [h39] at hst)] at hev
      simp only [] at hev
      exact (hev _ (List.mem_cons_self _ _)).2 rfl
    by_cases h36 : d.headD 0 = 0x36
    · rw [loopGo_s36 fuel s d hne hh h36 (by rwa [h36] at hst)] at hev ⊢
      simp only [] at hev ⊢
      have hrest := ih _ _ (fun e he => hev e (List.mem_cons_of_mem _ he))
      rw [hrest.1, hrest.2]
      simp
    · rw [loopGo_sdef fuel s d hne hh h35 h39 h36 hst] at hev ⊢
      simp only [] at hev ⊢
      have hrest := ih _ _ (fun e he => hev e (List.mem_cons_of_mem _ he))
      rw [hrest.1, hrest.2]
      simp

/-- C6: relay full-backlog delivery.  Unconditionally, after any delivery
every registered client's cursor equals the current buffer length.  And for
a delivery whose dispatch starts no new recording and finalizes none, the
delivery is appended to the accumulated session buffer and every client's
socket receives exactly the buffer bytes from its own cursor to the
buffer's end — in particular a client whose cursor is 0 receives the whole
accumulated backlog, not only this delivery. -/
theorem C6_relay_backlog :
    (∀ (s : Writer) (newData : List Nat), ∀ c ∈ (handleData s newData).1.clients,
      c.readPos = (handleData s newData).1.currentFile.fullBuffer.length) ∧
    (∀ (s : Writer) (newData : List Nat),
      (∀ e ∈ (handleData s newData).2, e.cmd ≠ 0x35 ∧ e.cmd ≠ 0x39) →
      (handleData s newData).1.currentFile.fullBuffer
          = s.currentFile.fullBuffer ++ newData ∧
      (handleData s newData).1.clients = s.clients.map fun c =>
        { readPos := (s.currentFile.fullBuffer ++ newData).length
          received := c.received ++
            (s.currentFile.fullBuffer ++ newData).drop c.readPos }) := by
  constructor
  · intro s newData c hc
    rw [handleData] at hc ⊢
    simp only [] at hc ⊢
    simp only [List.mem_map] at hc
    obtain ⟨a, _, rfl⟩ := hc
    rfl
  · intro s newData hev
    have hfr := loopGo_relay_frozen
      ((s.currentFile.previousBuffer ++ newData).length) s
      (s.currentFile.previousBuffer ++ newData) (by rw [handleData] at hev; exact hev)
    rw [handleData]
    simp only []
    rw [hfr.1, hfr.2]
    exact ⟨rfl, rfl⟩

/-- A mid-session state for Scenario B: 5 bytes already accumulated (standing
for the 500), one client that connected late (cursor 0, nothing received),
and a table declaring the game-start command's size. -/
def lateJoinState : Writer :=
  { initWriter with
    currentFile := { getClearedCurrentFile with
      fullBuffer := [1, 2, 3, 4, 5]
      payloadSizes := [(0x36, 2)] }
    clients := [{ readPos := 0, received := [] }] }

/-- C6 witness: on the next inbound batch (one game-start frame), the late
joiner receives the entire backlog from offset 0 plus the new batch, and
its cursor lands at the buffer's end. -/
theorem C6_witness :
    (handleData lateJoinState [0x36, 9, 9]).1.clients
      = [{ readPos := 8, received := [1, 2, 3, 4, 5, 0x36, 9, 9] }] ∧
    (handleData lateJoinState [0x36, 9, 9]).1.currentFile.fullBuffer
      = [1, 2, 3, 4, 5, 0x36, 9, 9] := by
  have h := C6_relay_backlog.2 lateJoinState [0x36, 9, 9] (by decide)
  refine ⟨?_, h.1⟩
  rw [h.2]
  decide

/-! ## C2: trailer length correctness -/

@[simp] theorem prc_snd_files (s : Writer) (v : List Nat) :
    (processReceiveCommands s v).2.files = s.files := rfl

@[simp] theorem prc_snd_bytesWritten (s : Writer) (v : List Nat) :
    (processReceiveCommands s v).2.currentFile.bytesWritten
      = s.currentFile.bytesWritten := rfl

@[simp] theorem prc_snd_frameLens (s : Writer) (v : List Nat) :
    (processReceiveCommands s v).2.currentFile.frameLens
      = s.currentFile.frameLens := rfl

@[simp] theorem prc_snd_streamOpen (s : Writer) (v : List Nat) :
    (processReceiveCommands s v).2.currentFile.streamOpen
      = s.currentFile.streamOpen := rfl

@[simp] theorem prc_snd_written (s : Writer) (v : List Nat) :
    (processReceiveCommands s v).2.currentFile.written
      = s.currentFile.written := rfl

/-- The per-run bookkeeping invariant behind trailer correctness: the live
counter always equals the sum of `1 + payloadLength` over the frames
written to the open resource, and every finished file's patched placeholder
decodes to exactly that sum for its own frames. -/
def WInv (s : Writer) : Prop :=
  s.currentFile.bytesWritten = sumLens s.currentFile.frameLens ∧
  ∀ f ∈ s.files, f.bytesWritten = sumLens f.frameLens ∧
    readU32 f.contents 11 = sumLens f.frameLens % 4294967296

theorem footer_len (nick : List Nat) (cf : CurrentFile) :
    11 ≤ (footerBytes nick cf).length := by
  simp [footerBytes]

theorem writeCommand_winv (s : Writer) (c : Nat) (v : List Nat) (n : Nat)
    (h : WInv s) : WInv (writeCommand s c v n) := by
  unfold writeCommand
  split_ifs with ho
  · exact ⟨by simp [sumLens_snoc, h.1], fun f hf => h.2 f hf⟩
  · exact h

theorem endGame_winv (s : Writer) (h : WInv s) : WInv (endGame s) := by
  unfold endGame
  split_ifs with ho
  · refine ⟨by simp [getClearedCurrentFile, sumLens], ?_⟩
    intro f hf
    simp only [List.mem_append, List.mem_singleton] at hf
    rcases hf with hf | hf
    · exact h.2 f hf
    · subst hf
      refine ⟨h.1, ?_⟩
      simp only []
      rw [readU32_patchAt _ _ (by
        simp only [List.length_append]
        have := footer_len s.consoleNick s.currentFile
        omega)]
      rw [h.1]
  · exact ⟨by simp [getClearedCurrentFile, sumLens], h.2⟩

theorem processCommand_winv (s : Writer) (c : Nat) (v : List Nat)
    (h : WInv s) : WInv (processCommand s c v).2 := by
  constructor
  · rw [processCommand_bytesWritten, processCommand_frameLens]
    exact h.1
  · intro f hf
    rw [processCommand_files] at hf
    exact h.2 f hf

theorem initializeNewGame_winv (s : Writer) (h : WInv s) :
    WInv (initializeNewGame s) := by
  exact ⟨by simp [initializeNewGame, getClearedCurrentFile, sumLens], h.2⟩

theorem hso_winv (s : Writer) (t : Nat) (h : WInv s) :
    WInv (handleStatusOutput s t) := by
  constructor
  · rw [hso_currentFile]; exact h.1
  · intro f hf
    rw [hso_files] at hf
    exact h.2 f hf

theorem loopGo_winv : ∀ (fuel : Nat) (s : Writer) (d : List Nat),
    WInv s → WInv (loopGo fuel s d).st := by
  intro fuel
  induction fuel with
  | zero => intro s d h; exact h
  | succ fuel ih =>
    intro s d h
    by_cases hne : d = []
    · subst hne; rw [loopGo_nil]; exact h
    by_cases hh : d.take 5 = heloToken
    · rw [loopGo_helo fuel s d hne hh]
      exact ih s (d.drop 5) h
    by_cases hst : d.length < lookupD s.currentFile.payloadSizes (d.headD 0) + 1
    · rw [loopGo_stall fuel s d hne hh hst]
      exact ⟨h.1, h.2⟩
    have h0 : WInv { s with currentFile :=
        { s.currentFile with previousBuffer := [] } } := ⟨h.1, h.2⟩
    by_cases h35 : d.headD 0 = 0x35
    · rw [loopGo_s35 fuel s d hne hh h35 (by rwa [h35] at hst)]
      simp only []
      have hw := writeCommand_winv _ 0x35 (d.drop 1)
        (processReceiveCommands (initializeNewGame { s with currentFile :=
          { s.currentFile with previousBuffer := [] } }) (d.drop 1)).1
        ⟨(initializeNewGame_winv _ h0).1, (initializeNewGame_winv _ h0).2⟩
      exact ih _ _ ⟨hw.1, hw.2⟩
    by_cases h39 : d.headD 0 = 0x39
    · rw [loopGo_s39 fuel s d hne hh h39 (by rwa [h39] at hst)]
      simp only []
      exact ih _ _ (endGame_winv _ (writeCommand_winv _ _ _ _
        (processCommand_winv _ _ _ h0)))
    by_cases h36 : d.headD 0 = 0x36
    · rw [loopGo_s36 fuel s d hne hh h36 (by rwa [h36] at hst)]
      simp only []
      exact ih _ _ (writeCommand_winv _ _ _ _ (processCommand_winv _ _ _ h0))
    · rw [loopGo_sdef fuel s d hne hh h35 h39 h36 hst]
      simp only []
      exact ih _ _ (hso_winv _ _ (writeCommand_winv _ _ _ _
        (processCommand_winv _ _ _ h0)))

/-- C2: trailer length correctness.  The invariant holds initially and is
preserved by every delivery: `bytesWritten` is bumped by `payloadLength + 1`
exactly on each frame written to an open resource, and when a recording
completes, the 4-byte value patched into the length placeholder (offset 11)
decodes to the sum of `1 + payloadLength` over every frame written to that
recording — the handshake frame included, since it is written through the
same path. -/
theorem C2_trailer_length_correct :
    WInv initWriter ∧
    ∀ (s : Writer) (newData : List Nat), WInv s → WInv (handleData s newData).1 := by
  constructor
  · exact ⟨rfl, by intro f hf; exact absurd hf (List.not_mem_nil f)⟩
  · intro s newData h
    rw [handleData]
    simp only []
    have hl := loopGo_winv (s.currentFile.previousBuffer ++ newData).length s
      (s.currentFile.previousBuffer ++ newData) h
    exact ⟨hl.1, fun f hf => hl.2 f hf⟩

/-- The spec's Scenario-A frame-update: index `-100`, player 0, non-follower,
internal character 18, inside a 10-byte payload. -/
def scenarioFrameUpdate : List Nat :=
  [0x38, 255, 255, 255, 156, 0, 0, 18, 0, 0, 0]

/-- Scenario A's full delivery: handshake, one frame-update, game end with
end-method 7. -/
def scenarioDelivery : List Nat :=
  scenarioHandshake ++ scenarioFrameUpdate ++ [0x39, 7]

/-- C2 witness: the invariant after running Scenario A from the initial
state; concretely the single finished file's placeholder decodes to
`24 = (1+10) + (1+10) + (1+1)`. -/
theorem C2_witness :
    WInv (handleData initWriter scenarioDelivery).1 ∧
    (handleData initWriter scenarioDelivery).1.files.map
      (fun f => readU32 f.contents 11) = [24] := by
  refine ⟨C2_trailer_length_correct.2 initWriter scenarioDelivery
    C2_trailer_length_correct.1, ?_⟩
  decide

/-! ## C4: dispatch side effects of follower / generic frames -/

/-- A mid-session state whose table knows the frame-update command and whose
`lastFrame` has passed the status threshold. -/
def followerPulseState : Writer :=
  { initWriter with currentFile :=
    { getClearedCurrentFile with
      payloadSizes := [(0x38, 10)]
      lastFrame := 0 } }

/-- A frame-update frame whose is-follower byte (payload offset 5) is 1. -/
def followerFrame : List Nat := [0x38, 0, 0, 0, 5, 0, 1, 18, 0, 0, 0]

/-- C4 counterexample: the claim says a follower frame-update is ignored
entirely — in particular "no status pulse".  Here a follower frame-update
leaves `lastFrame` and the players map untouched, yet the dispatch issues a
status pulse: a visibility toggle is sent and the auto-hide timer is armed,
because `handleData`'s default branch pulses for every such command. -/
theorem C4_counterexample :
    (handleData followerPulseState followerFrame).2
      = [⟨0x38, 10, [0, 0, 0, 5, 0, 1, 18, 0, 0, 0]⟩] ∧
    (handleData followerPulseState followerFrame).1.currentFile.lastFrame = 0 ∧
    (handleData followerPulseState followerFrame).1.currentFile.players = [] ∧
    (handleData followerPulseState followerFrame).1.toggles = [true] ∧
    (handleData followerPulseState followerFrame).1.statusTimer = some 200 := by
  decide

/-- C4 amended: a single-frame delivery of a recognized command that is not
handshake, game-start or game-end — including a follower frame-update — has
no dispatch side effect on the metadata (`processCommand` returns the state
unchanged, so no `lastFrame` update and no character-usage update), and the
frame is persisted verbatim when a stream is open; but contrary to the
original claim the dispatch still issues a status pulse
(`handleStatusOutput` with the default 200 ms hold). -/
theorem C4_amended_no_metadata_but_pulse (s : Writer) (d : List Nat)
    (hprev : s.currentFile.previousBuffer = [])
    (hne : d ≠ [])
    (hh : d.take 5 ≠ heloToken)
    (h35 : d.headD 0 ≠ 0x35) (h36 : d.headD 0 ≠ 0x36) (h39 : d.headD 0 ≠ 0x39)
    (hfol : d.headD 0 = 0x38 →
      lookupD s.currentFile.payloadSizes 0x38 ≠ 0 → (d.drop 1).getD 5 0 ≠ 0)
    (hlen : d.length = 1 + lookupD s.currentFile.payloadSizes (d.headD 0)) :
    (handleData s d).2 = [⟨d.headD 0, lookupD s.currentFile.payloadSizes (d.headD 0),
      (d.drop 1).take (lookupD s.currentFile.payloadSizes (d.headD 0))⟩] ∧
    (processCommand { s with currentFile :=
        { s.currentFile with previousBuffer := [] } } (d.headD 0) (d.drop 1)).2
      = { s with currentFile := { s.currentFile with previousBuffer := [] } } ∧
    (handleData s d).1.currentFile.lastFrame = s.currentFile.lastFrame ∧
    (handleData s d).1.currentFile.players = s.currentFile.players ∧
    (handleData s d).1.toggles = (handleStatusOutput (writeCommand
      { s with currentFile := { s.currentFile with previousBuffer := [] } }
      (d.headD 0) (d.drop 1)
      (lookupD s.currentFile.payloadSizes (d.headD 0))) 200).toggles ∧
    (s.currentFile.streamOpen = true →
      (handleData s d).1.currentFile.written = s.currentFile.written ++
        (d.headD 0 :: (d.drop 1).take (lookupD s.currentFile.payloadSizes (d.headD 0)))) := by
  set psize := lookupD s.currentFile.payloadSizes (d.headD 0) with hps
  set s0 : Writer := { s with currentFile :=
    { s.currentFile with previousBuffer := [] } } with hs0
  have hps0 : lookupD s0.currentFile.payloadSizes (d.headD 0) = psize := rfl
  have hpc : processCommand s0 (d.headD 0) (d.drop 1) = (psize, s0) := by
    unfold processCommand
    rw [hps0]
    by_cases hz : psize = 0
    · rw [if_pos hz, hz]
    · rw [if_neg hz]
      by_cases h38 : d.headD 0 = 0x38
      · rw [if_pos h38]
        rw [if_pos (hfol h38 (by rw [hps, h38] at hz; exact hz))]
      · rw [if_neg h38, if_neg h39]
  have hfuel : d.length = psize + 1 := by omega
  have hdata : s.currentFile.previousBuffer ++ d = d := by rw [hprev]; rfl
  have hdrop : d.drop (1 + psize) = [] := List.drop_of_length_le (by omega)
  have hmain : loopGo d.length s d =
      (let s3 := handleStatusOutput (writeCommand s0 (d.headD 0) (d.drop 1) psize) 200
       { st := s3
         evs := [⟨d.headD 0, psize, (d.drop 1).take psize⟩]
         marks := 0 :: ([0].map (· + (1 + psize)))
         wf := decide (d.headD 0 ≠ 0x38 ∨ psize = 0 ∨ 7 ≤ psize) && true }) := by
    rw [hfuel]
    rw [loopGo_sdef psize s d hne hh h35 h39 h36 (by omega)]
    simp only [hpc, hdrop, loopGo_nil]
  have hhd : handleData s d =
      (let s3 := handleStatusOutput (writeCommand s0 (d.headD 0) (d.drop 1) psize) 200
       ({ s3 with
          currentFile :=
            { s3.currentFile with fullBuffer := s3.currentFile.fullBuffer ++ d }
          clients := s3.clients.map fun c =>
            { readPos := (s3.currentFile.fullBuffer ++ d).length
              received := c.received ++
                (s3.currentFile.fullBuffer ++ d).drop c.readPos } },
        [⟨d.headD 0, psize, (d.drop 1).take psize⟩])) := by
    rw [handleData]
    simp only [hdata, hmain]
  rw [hhd]
  refine ⟨rfl, hpc ▸ rfl, ?_, ?_, rfl, ?_⟩
  · simp only [hso_currentFile, writeCommand_lastFrame]
  · simp only [hso_currentFile, writeCommand_players]
  · intro hopen
    simp only [hso_currentFile]
    rw [writeCommand]
    rw [if_pos (show s0.currentFile.streamOpen = true from hopen)]

/-- A state whose table declares an unrelated command `0x3A ↦ 2`, with
`lastFrame` past the threshold. -/
def otherCmdState : Writer :=
  { initWriter with currentFile :=
    { getClearedCurrentFile with
      payloadSizes := [(0x3A, 2)]
      lastFrame := 0 } }

/-- C4 witness: a generic recognized command is emitted with its payload,
changes no metadata, and still pulses (one visibility toggle here). -/
theorem C4_witness :
    (handleData otherCmdState [0x3A, 8, 9]).2 = [⟨0x3A, 2, [8, 9]⟩] ∧
    (handleData otherCmdState [0x3A, 8, 9]).1.currentFile.players = [] ∧
    (handleData otherCmdState [0x3A, 8, 9]).1.toggles = [true] := by
  have h := C4_amended_no_metadata_but_pulse otherCmdState [0x3A, 8, 9]
    (by decide) (by decide) (by decide) (by decide) (by decide) (by decide)
    (by intro hx; exact absurd hx (by decide)) (by decide)
  refine ⟨?_, ?_, ?_⟩
  · rw [h.1]; decide
  · rw [h.2.2.2.1]; decide
  · rw [h.2.2.2.2.1]; decide

/-! ## C5: character usage accuracy -/

theorem lookupD_setAssoc (m : List (Nat × Nat)) (k v c : Nat) :
    lookupD (setAssoc m k v) c = if k = c then v else lookupD m c := by
  induction m with
  | nil => simp [setAssoc, lookupD]
  | cons h t ih =>
    obtain ⟨a, b⟩ := h
    by_cases hak : a = k
    · subst hak
      rw [setAssoc, if_pos rfl]
      simp only [lookupD]
      by_cases hac : a = c <;> simp [hac]
    · rw [setAssoc, if_neg hak]
      simp only [lookupD]
      rw [ih]
      by_cases hac : a = c
      · subst hac
        have hkc : k ≠ a := fun hk => hak hk.symm
        simp [hkc]
      · simp [hac]

theorem lookupP_setP (pl : List (Nat × List (Nat × Nat))) (k : Nat)
    (m : List (Nat × Nat)) (p : Nat) :
    lookupP (setP pl k m) p = if k = p then m else lookupP pl p := by
  induction pl with
  | nil => simp [setP, lookupP]
  | cons h t ih =>
    obtain ⟨a, b⟩ := h
    by_cases hak : a = k
    · subst hak
      rw [setP, if_pos rfl]
      simp only [lookupP]
      by_cases hac : a = p <;> simp [hac]
    · rw [setP, if_neg hak]
      simp only [lookupP]
      rw [ih]
      by_cases hac : a = p
      · subst hac
        have hkp : k ≠ a := fun hk => hak hk.symm
        simp [hkp]
      · simp [hac]

theorem lookupD2_eq (pl : List (Nat × List (Nat × Nat))) (p c : Nat) :
    lookupD2 pl p c = lookupD (lookupP pl p) c := by
  induction pl with
  | nil => simp [lookupD2, lookupP, lookupD]
  | cons h t ih =>
    obtain ⟨a, m⟩ := h
    simp only [lookupD2, lookupP]
    by_cases hap : a = p <;> simp [hap, ih]

theorem usage_bump (pl : List (Nat × List (Nat × Nat))) (a b p c : Nat) :
    lookupD2 (bumpUsage pl a b) p c
      = lookupD2 pl p c + (if a = p ∧ b = c then 1 else 0) := by
  rw [lookupD2_eq, lookupD2_eq, bumpUsage, lookupP_setP]
  by_cases hap : a = p
  · rw [if_pos hap, lookupD_setAssoc]
    by_cases hbc : b = c
    · subst hap; subst hbc
      simp
    · rw [if_neg hbc, if_neg (fun hand => hbc hand.2)]
      subst hap
      simp
  · rw [if_neg hap, if_neg (fun hand => hap hand.1)]
    simp

/-- Qualifying frame for the usage counter of `(p, c)`: a non-follower
frame-update Frame carrying player `p` and internal character `c`. -/
def usageHit (p c : Nat) (e : Frame) : Bool :=
  decide (e.cmd = 0x38 ∧ e.plen ≠ 0 ∧ e.payload.getD 5 0 = 0 ∧
    e.payload.getD 4 0 = p ∧ e.payload.getD 6 0 = c)

theorem loopGo_usage : ∀ (fuel : Nat) (s : Writer) (d : List Nat) (p c : Nat),
    (∀ e ∈ (loopGo fuel s d).evs, e.cmd ≠ 0x35 ∧ e.cmd ≠ 0x39) →
    (∀ e ∈ (loopGo fuel s d).evs, e.cmd = 0x38 → e.plen = 0 ∨ 7 ≤ e.plen) →
    lookupD2 (loopGo fuel s d).st.currentFile.players p c
      = lookupD2 s.currentFile.players p c
        + ((loopGo fuel s d).evs.countP (usageHit p c)) := by
  intro fuel
  induction fuel with
  | zero => intro s d p c _ _; simp [loopGo]
  | succ fuel ih =>
    intro s d p c hses h38
    by_cases hne : d = []
    · subst hne; rw [loopGo_nil]; simp
    by_cases hh : d.take 5 = heloToken
    · rw [loopGo_helo fuel s d hne hh] at hses h38 ⊢
      exact ih s (d.drop 5) p c hses h38
    by_cases hst : d.length < lookupD s.currentFile.payloadSizes (d.headD 0) + 1
    · rw [loopGo_stall fuel s d hne hh hst]
      simp
    by_cases h35 : d.headD 0 = 0x35
    · exfalso
      rw [loopGo_s35 fuel s d hne hh h35 (by rwa [h35] at hst)] at hses
      simp only [] at hses
      exact (hses _ (List.mem_cons_self _ _)).1 rfl
    by_cases h39 : d.headD 0 = 0x39
    · exfalso
      rw [loopGo_s39 fuel s d hne hh h39 (by rwa [h39] at hst)] at hses
      simp only [] at hses
      exact (hses _ (List.mem_cons_self _ _)).2 rfl
    by_cases h36 : d.headD 0 = 0x36
    · rw [loopGo_s36 fuel s d hne hh h36 (by rwa [h36] at hst)] at hses h38 ⊢
      try simp only [] at hses
      try simp only [] at h38
      try simp only []
      rw [ih _ _ p c (fun e he => hses e (List.mem_cons_of_mem _ he))
        (fun e he => h38 e (List.mem_cons_of_mem _ he))]
      rw [List.countP_cons]
      simp only [writeCommand_players,
        processCommand_cf_of_ne38 _ _ _ (by decide : (0x36 : Nat) ≠ 0x38)]
      have hhit : ∀ pl pay, usageHit p c ⟨0x36, pl, pay⟩ = false := by
        intro pl pay
        simp only [usageHit]
        apply decide_eq_false
        rintro ⟨hx, -⟩
        exact absurd hx (by decide)
      rw [hhit]
      simp
    · rw [loopGo_sdef fuel s d hne hh h35 h39 h36 hst] at hses h38 ⊢
      try simp only [] at hses
      try simp only [] at h38
      try simp only []
      rw [ih _ _ p c (fun e he => hses e (List.mem_cons_of_mem _ he))
        (fun e he => h38 e (List.mem_cons_of_mem _ he))]
      rw [List.countP_cons]
      simp only [hso_currentFile, writeCommand_players]
      by_cases h38c : d.headD 0 = 0x38
      · -- frame-update: the only players-map mutator
        have hplen := h38 _ (List.mem_cons_self _ _) h38c
        rw [processCommand_fst] at hplen
        by_cases hz : lookupD s.currentFile.payloadSizes (d.headD 0) = 0
        · -- degraded: table size 0, no metadata update, event not counted
          have hpc : processCommand { s with currentFile :=
              { s.currentFile with previousBuffer := [] } } (d.headD 0) (d.drop 1)
              = (0, { s with currentFile :=
                { s.currentFile with previousBuffer := [] } }) := by
            unfold processCommand
            rw [if_pos hz]
          rw [hpc]
          have hhit : usageHit p c ⟨d.headD 0, (0 : Nat), (d.drop 1).take 0⟩ = false := by
            simp only [usageHit]
            apply decide_eq_false
            rintro ⟨-, hx, -⟩
            exact hx rfl
          rw [hhit]
          simp
        · have h7 : 7 ≤ lookupD s.currentFile.payloadSizes (d.headD 0) := by
            rcases hplen with h | h
            · exact absurd h hz
            · exact h
          set psize := lookupD s.currentFile.payloadSizes (d.headD 0) with hpsz
          have hget : ∀ k : Nat, k < 7 →
              ((d.drop 1).take psize).getD k 0 = (d.drop 1).getD k 0 := by
            intro k hk
            exact getD_take _ _ _ _ (by omega)
          by_cases hfol : (d.drop 1).getD 5 0 = 0
          · -- non-follower: one bump, one counted event
            have hpc : processCommand { s with currentFile :=
                { s.currentFile with previousBuffer := [] } } (d.headD 0) (d.drop 1)
                = (psize, { s with currentFile :=
                  { s.currentFile with
                    previousBuffer := []
                    lastFrame := getI32 (d.drop 1) 0
                    players := bumpUsage s.currentFile.players
                      ((d.drop 1).getD 4 0) ((d.drop 1).getD 6 0) } }) := by
              unfold processCommand
              rw [if_neg (by rw [← hpsz]; exact hz), if_pos h38c]
              rw [if_neg (by simpa using hfol)]
            rw [hpc]
            simp only []
            rw [usage_bump]
            have hcond : usageHit p c ⟨d.headD 0, psize, (d.drop 1).take psize⟩
                = decide ((d.drop 1).getD 4 0 = p ∧ (d.drop 1).getD 6 0 = c) := by
              simp only [usageHit]
              rw [decide_eq_decide]
              constructor
              · rintro ⟨-, -, -, h4, h6⟩
                rw [hget 4 (by omega)] at h4
                rw [hget 6 (by omega)] at h6
                exact ⟨h4, h6⟩
              · rintro ⟨h4, h6⟩
                refine ⟨h38c, hz, ?_, ?_, ?_⟩
                · rw [hget 5 (by omega)]
                  exact hfol
                · rw [hget 4 (by omega)]
                  exact h4
                · rw [hget 6 (by omega)]
                  exact h6
            rw [hcond]
            by_cases hq : (d.drop 1).getD 4 0 = p ∧ (d.drop 1).getD 6 0 = c
            · simp only [if_pos hq, decide_eq_true_eq, hq]
              simp
              omega
            · simp only [if_neg hq]
              rw [decide_eq_false hq]
              simp
          · -- follower: no metadata change, event not counted
            have hpc : processCommand { s with currentFile :=
                { s.currentFile with previousBuffer := [] } } (d.headD 0) (d.drop 1)
                = (psize, { s with currentFile :=
                  { s.currentFile with previousBuffer := [] } }) := by
              unfold processCommand
              rw [if_neg (by rw [← hpsz]; exact hz), if_pos h38c]
              rw [if_pos (by simpa using hfol)]
            rw [hpc]
            have hhit : usageHit p c ⟨d.headD 0, psize, (d.drop 1).take psize⟩
                = false := by
              simp only [usageHit]
              apply decide_eq_false
              rintro ⟨-, -, h5, -⟩
              rw [hget 5 (by omega)] at h5
              exact hfol h5
            rw [hhit]
            simp
      · -- any other recognized command: no players change, not counted
        rw [processCommand_cf_of_ne38 _ _ _ h38c]
        have hhit : ∀ pl pay, usageHit p c ⟨d.headD 0, pl, pay⟩ = false := by
          intro pl pay
          simp only [usageHit]
          apply decide_eq_false
          rintro ⟨hx, -⟩
          exact h38c hx
        rw [hhit]
        simp

/-- C5: character usage accuracy.  Over any delivery whose dispatch stays
inside one session (no handshake, no game-end — those rebuild or clear the
stats) and whose frame-update table entry is well-sized (`≥ 7`, so the
header fields live inside the payload), the per-(player, character) usage
counter advances by exactly the number of emitted non-follower frame-update
Frames carrying that player and character. -/
theorem C5_character_usage (s : Writer) (newData : List Nat) (p c : Nat)
    (hses : ∀ e ∈ (handleData s newData).2, e.cmd ≠ 0x35 ∧ e.cmd ≠ 0x39)
    (h38 : ∀ e ∈ (handleData s newData).2, e.cmd = 0x38 → e.plen = 0 ∨ 7 ≤ e.plen) :
    lookupD2 (handleData s newData).1.currentFile.players p c
      = lookupD2 s.currentFile.players p c
        + ((handleData s newData).2.countP (usageHit p c)) := by
  rw [handleData] at hses h38 ⊢
  simp only [] at hses h38 ⊢
  exact loopGo_usage _ s _ p c hses h38

/-- A non-follower Scenario-A style frame-update (player 0, character 18). -/
def nfFrame : List Nat := [0x38, 0, 0, 0, 5, 0, 0, 18, 0, 0, 0]

/-- C5 witness: one qualifying frame-update plus one follower frame-update:
the (0, 18) counter advances by exactly one. -/
theorem C5_witness :
    lookupD2 (handleData followerPulseState (nfFrame ++ followerFrame)).1.currentFile.players
        0 18 = 1 ∧
    ((handleData followerPulseState (nfFrame ++ followerFrame)).2.countP (usageHit 0 18)) = 1 := by
  have h := C5_character_usage followerPulseState (nfFrame ++ followerFrame) 0 18
    (by decide) (by decide)
  constructor
  · rw [h]; decide
  · decide

/-! ## C10: initial lastFrame sits below the suppression threshold -/

@[simp] theorem prc_snd_lastFrame (s : Writer) (v : List Nat) :
    (processReceiveCommands s v).2.currentFile.lastFrame
      = s.currentFile.lastFrame := rfl

@[simp] theorem prc_snd_statusOn (s : Writer) (v : List Nat) :
    (processReceiveCommands s v).2.statusOn = s.statusOn := rfl

@[simp] theorem prc_snd_statusTimer (s : Writer) (v : List Nat) :
    (processReceiveCommands s v).2.statusTimer = s.statusTimer := rfl

@[simp] theorem prc_snd_toggles (s : Writer) (v : List Nat) :
    (processReceiveCommands s v).2.toggles = s.toggles := rfl

@[simp] theorem ing_lastFrame (s : Writer) :
    (initializeNewGame s).currentFile.lastFrame = -124 := rfl

@[simp] theorem ing_statusOn (s : Writer) :
    (initializeNewGame s).statusOn = s.statusOn := rfl

@[simp] theorem ing_statusTimer (s : Writer) :
    (initializeNewGame s).statusTimer = s.statusTimer := rfl

@[simp] theorem ing_toggles (s : Writer) :
    (initializeNewGame s).toggles = s.toggles := rfl

/-- Helper: below the threshold, every non-frame-update dispatch leaves the
state untouched (the game-end branch's extended pulse is suppressed). -/
theorem processCommand_ne38_quiet (s : Writer) (command : Nat) (view : List Nat)
    (h38 : command ≠ 0x38) (hlf : s.currentFile.lastFrame < -60) :
    (processCommand s command view).2 = s := by
  unfold processCommand
  by_cases hz : lookupD s.currentFile.payloadSizes command = 0
  · rw [if_pos hz]
  · rw [if_neg hz, if_neg h38]
    by_cases hc39 : command = 0x39
    · rw [if_pos hc39]
      by_cases hem : view.getD 0 0 ≠ 7
      · rw [if_pos hem]
        exact handleStatusOutput_suppressed s 700 hlf
      · rw [if_neg hem]
    · rw [if_neg hc39]

theorem getI32_take (view : List Nat) (n : Nat) (h : 4 ≤ n) :
    getI32 (view.take n) 0 = getI32 view 0 := by
  unfold getI32
  rw [getD_take _ _ _ _ (by omega), getD_take _ _ _ _ (by omega),
    getD_take _ _ _ _ (by omega), getD_take _ _ _ _ (by omega)]

/-- Helper: a run from a sub-threshold, hidden state stays sub-threshold and
silent, provided every dispatched non-follower frame-update also carries a
sub-threshold frame index. -/
theorem loopGo_quiet : ∀ (fuel : Nat) (s : Writer) (d : List Nat),
    s.currentFile.lastFrame < -60 → s.statusOn = false →
    (∀ e ∈ (loopGo fuel s d).evs, e.cmd = 0x38 → e.plen = 0 ∨
      (7 ≤ e.plen ∧ (e.payload.getD 5 0 ≠ 0 ∨ getI32 e.payload 0 < -60))) →
    (loopGo fuel s d).st.currentFile.lastFrame < -60 ∧
    (loopGo fuel s d).st.statusOn = false ∧
    (loopGo fuel s d).st.toggles = s.toggles ∧
    (loopGo fuel s d).st.statusTimer = s.statusTimer := by
  intro fuel
  induction fuel with
  | zero => intro s d hlf hon _; exact ⟨hlf, hon, rfl, rfl⟩
  | succ fuel ih =>
    intro s d hlf hon hev
    by_cases hne : d = []
    · subst hne; rw [loopGo_nil]; exact ⟨hlf, hon, rfl, rfl⟩
    by_cases hh : d.take 5 = heloToken
    · rw [loopGo_helo fuel s d hne hh] at hev ⊢
      exact ih s (d.drop 5) hlf hon hev
    by_cases hst : d.length < lookupD s.currentFile.payloadSizes (d.headD 0) + 1
    · rw [loopGo_stall fuel s d hne hh hst]
      exact ⟨hlf, hon, rfl, rfl⟩
    by_cases h35 : d.headD 0 = 0x35
    · rw [loopGo_s35 fuel s d hne hh h35 (by rwa [h35] at hst)] at hev ⊢
      try simp only [] at hev
      try simp only []
      have hrec := ih _ _ (by simp) (by simp [hon])
        (fun e he => hev e (List.mem_cons_of_mem _ he))
      refine ⟨hrec.1, hrec.2.1, ?_, ?_⟩
      · rw [hrec.2.2.1]; simp
      · rw [hrec.2.2.2]; simp
    by_cases h39 : d.headD 0 = 0x39
    · rw [loopGo_s39 fuel s d hne hh h39 (by rwa [h39] at hst)] at hev ⊢
      try simp only [] at hev
      try simp only []
      rw [processCommand_ne38_quiet _ 0x39 _ (by decide)
        (show ({ s with currentFile := { s.currentFile with previousBuffer := [] }
          } : Writer).currentFile.lastFrame < -60 from hlf)] at hev ⊢
      have hrec := ih _ _ (by simp [endGame_currentFile, getClearedCurrentFile])
        (by simp [hon]) (fun e he => hev e (List.mem_cons_of_mem _ he))
      refine ⟨hrec.1, hrec.2.1, ?_, ?_⟩
      · rw [hrec.2.2.1]; simp
      · rw [hrec.2.2.2]; simp
    by_cases h36 : d.headD 0 = 0x36
    · rw [loopGo_s36 fuel s d hne hh h36 (by rwa [h36] at hst)] at hev ⊢
      try simp only [] at hev
      try simp only []
      rw [processCommand_ne38_quiet _ 0x36 _ (by decide)
        (show ({ s with currentFile := { s.currentFile with previousBuffer := [] }
          } : Writer).currentFile.lastFrame < -60 from hlf)] at hev ⊢
      have hrec := ih _ _ (by simp [hlf]) (by simp [hon])
        (fun e he => hev e (List.mem_cons_of_mem _ he))
      refine ⟨hrec.1, hrec.2.1, ?_, ?_⟩
      · rw [hrec.2.2.1]; simp
      · rw [hrec.2.2.2]; simp
    · rw [loopGo_sdef fuel s d hne hh h35 h39 h36 hst] at hev ⊢
      try simp only [] at hev
      try simp only []
      set s0 : Writer := { s with currentFile :=
        { s.currentFile with previousBuffer := [] } } with hs0
      have hlf0 : s0.currentFile.lastFrame < -60 := hlf
      have hq : (processCommand s0 (d.headD 0) (d.drop 1)).2.currentFile.lastFrame < -60 ∧
          (processCommand s0 (d.headD 0) (d.drop 1)).2.statusOn = s.statusOn ∧
          (processCommand s0 (d.headD 0) (d.drop 1)).2.toggles = s.toggles ∧
          (processCommand s0 (d.headD 0) (d.drop 1)).2.statusTimer = s.statusTimer := by
        by_cases h38c : d.headD 0 = 0x38
        · have hplen := hev _ (List.mem_cons_self _ _) h38c
          rw [processCommand_fst] at hplen
          by_cases hz : lookupD s0.currentFile.payloadSizes (d.headD 0) = 0
          · have hpc : processCommand s0 (d.headD 0) (d.drop 1) = (0, s0) := by
              unfold processCommand
              rw [if_pos hz]
            rw [hpc]
            exact ⟨hlf, rfl, rfl, rfl⟩
          · have hps7 : 7 ≤ lookupD s0.currentFile.payloadSizes (d.headD 0) ∧
                (((d.drop 1).take (lookupD s0.currentFile.payloadSizes
                  (d.headD 0))).getD 5 0 ≠ 0 ∨
                 getI32 ((d.drop 1).take (lookupD s0.currentFile.payloadSizes
                  (d.headD 0))) 0 < -60) := by
              rcases hplen with h | h
              · exact absurd h hz
              · exact h
            by_cases hfol : (d.drop 1).getD 5 0 = 0
            · have hpc : processCommand s0 (d.headD 0) (d.drop 1)
                  = (lookupD s0.currentFile.payloadSizes (d.headD 0),
                    { s0 with currentFile :=
                      { s0.currentFile with
                        lastFrame := getI32 (d.drop 1) 0
                        players := bumpUsage s0.currentFile.players
                          ((d.drop 1).getD 4 0) ((d.drop 1).getD 6 0) } }) := by
                unfold processCommand
                rw [if_neg hz, if_pos h38c]
                rw [if_neg (by simpa using hfol)]
              rw [hpc]
              refine ⟨?_, rfl, rfl, rfl⟩
              simp only []
              rcases hps7.2 with hx | hx
              · exfalso
                rw [getD_take _ _ _ _ (by omega)] at hx
                exact hx hfol
              · rwa [getI32_take _ _ (by omega)] at hx
            · have hpc : processCommand s0 (d.headD 0) (d.drop 1)
                  = (lookupD s0.currentFile.payloadSizes (d.headD 0), s0) := by
                unfold processCommand
                rw [if_neg hz, if_pos h38c]
                rw [if_pos (by simpa using hfol)]
              rw [hpc]
              exact ⟨hlf, rfl, rfl, rfl⟩
        · rw [processCommand_ne38_quiet _ _ _ h38c hlf0]
          exact ⟨hlf, rfl, rfl, rfl⟩
      have hwq : (writeCommand (processCommand s0 (d.headD 0) (d.drop 1)).2
          (d.headD 0) (d.drop 1)
          (processCommand s0 (d.headD 0) (d.drop 1)).1).currentFile.lastFrame < -60 := by
        rw [writeCommand_lastFrame]
        exact hq.1
      rw [handleStatusOutput_suppressed _ 200 hwq] at hev ⊢
      have hrec := ih _ _ hwq (by rw [writeCommand_statusOn, hq.2.1]; exact hon)
        (fun e he => hev e (List.mem_cons_of_mem _ he))
      refine ⟨hrec.1, hrec.2.1, ?_, ?_⟩
      · rw [hrec.2.2.1, writeCommand_toggles, hq.2.2.1]
      · rw [hrec.2.2.2, writeCommand_statusTimer, hq.2.2.2]

/-- C10: the cleared recording state initializes `lastFrame` to `-124`,
below the `-60` suppression threshold, so a pulse in that state is a
complete no-op; and over any delivery from a sub-threshold hidden state in
which no dispatched non-follower frame-update reaches index `-60`, no
visibility toggle is ever issued and the state stays sub-threshold and
hidden. -/
theorem C10_initial_below_threshold :
    getClearedCurrentFile.lastFrame = -124 ∧
    ((-124 : Int) < -60) ∧
    (∀ (s : Writer) (hold : Nat), s.currentFile.lastFrame < -60 →
      handleStatusOutput s hold = s) ∧
    (∀ (s : Writer) (newData : List Nat),
      s.currentFile.lastFrame < -60 → s.statusOn = false →
      (∀ e ∈ (handleData s newData).2, e.cmd = 0x38 → e.plen = 0 ∨
        (7 ≤ e.plen ∧ (e.payload.getD 5 0 ≠ 0 ∨ getI32 e.payload 0 < -60))) →
      (handleData s newData).1.toggles = s.toggles ∧
      (handleData s newData).1.statusOn = false ∧
      (handleData s newData).1.currentFile.lastFrame < -60) := by
  refine ⟨rfl, by decide, handleStatusOutput_suppressed, ?_⟩
  intro s newData hlf hon hev
  rw [handleData] at hev ⊢
  simp only [] at hev ⊢
  have h := loopGo_quiet _ s _ hlf hon hev
  exact ⟨h.2.2.1, h.2.1, h.1⟩

/-- C10 witness: Scenario A's handshake plus a frame-update at index `-100`
(below `-60`): no toggle is issued, the indicator stays hidden. -/
theorem C10_witness :
    (handleData initWriter (scenarioHandshake ++ scenarioFrameUpdate)).1.toggles = [] ∧
    (handleData initWriter (scenarioHandshake ++ scenarioFrameUpdate)).1.statusOn = false := by
  have h := C10_initial_below_threshold.2.2.2 initWriter
    (scenarioHandshake ++ scenarioFrameUpdate) (by decide) (by decide) (by decide)
  exact ⟨h.1, h.2.1⟩

/-! ## C1: chunk-boundary invariance -/

/-- C1 counterexample: the keep-alive token `"HELO\0"` delivered whole is
elided and emits no Frame, but split as `"HE"` + `"LO\0"` its bytes are
parsed as five spurious zero-payload frames (the truncated token cannot
match, and the unknown command bytes degrade to zero-length payloads), so
the emitted Frame sequences differ. -/
theorem C1_counterexample :
    (handleData initWriter [72, 69, 76, 79, 0]).2 = [] ∧
    (runChunks initWriter [[72, 69], [76, 79, 0]]).2
      = [⟨72, 0, []⟩, ⟨69, 0, []⟩, ⟨76, 0, []⟩, ⟨79, 0, []⟩, ⟨0, 0, []⟩] ∧
    concatChunks [[72, 69], [76, 79, 0]] = [72, 69, 76, 79, 0] ∧
    (runChunks initWriter [[72, 69], [76, 79, 0]]).2
      ≠ (handleData initWriter (concatChunks [[72, 69], [76, 79, 0]])).2 := by
  refine ⟨by decide, by decide, by decide, by decide⟩

theorem take5_take_ne (d : List Nat) (q : Nat) (hh : d.take 5 ≠ heloToken)
    (hq : q ≤ d.length) : (d.take q).take 5 ≠ heloToken := by
  by_cases h5 : 5 ≤ q
  · rw [List.take_take, Nat.min_eq_left h5]
    exact hh
  · intro he
    have hlen : ((d.take q).take 5).length = 5 := by rw [he]; rfl
    simp [List.length_take] at hlen
    omega

theorem triIdx_mem_lt (plen : Nat) (h3 : plen % 3 = 1) :
    ∀ i ∈ triIdx plen, i + 2 < plen := by
  intro i hi
  simp only [triIdx, List.mem_map, List.mem_range] at hi
  obtain ⟨k, hk, rfl⟩ := hi
  omega

theorem rcBuild_aux (view : List Nat) (plen m : Nat) (hm : plen ≤ m) :
    ∀ (L : List Nat) (tbl : List (Nat × Nat)), (∀ i ∈ L, i + 2 < plen) →
    L.foldl (fun t i =>
        setAssoc t ((view.take m).getD i 0) (getU16 (view.take m) (i + 1))) tbl
      = L.foldl (fun t i => setAssoc t (view.getD i 0) (getU16 view (i + 1))) tbl := by
  intro L
  induction L with
  | nil => intro tbl _; rfl
  | cons i L ih =>
    intro tbl hb
    have hi := hb i (List.mem_cons_self _ _)
    simp only [List.foldl_cons]
    rw [getD_take _ _ _ _ (by omega)]
    unfold getU16
    rw [getD_take _ _ _ _ (by omega), getD_take _ _ _ _ (by omega)]
    exact ih _ (fun j hj => hb j (List.mem_cons_of_mem _ hj))

theorem rcBuild_take (tbl : List (Nat × Nat)) (view : List Nat) (plen m : Nat)
    (hm : plen ≤ m) (h3 : plen % 3 = 1) :
    rcBuild tbl (view.take m) plen = rcBuild tbl view plen :=
  rcBuild_aux view plen m hm (triIdx plen) tbl (triIdx_mem_lt plen h3)

/-- Truncating the view beyond the table size does not change
`processCommand`, provided the frame-update table entry (when consulted) is
at least 7 so that all header reads stay inside the payload. -/
theorem processCommand_take (s : Writer) (command : Nat) (view : List Nat) (m : Nat)
    (hm : lookupD s.currentFile.payloadSizes command ≤ m)
    (h38 : command = 0x38 → lookupD s.currentFile.payloadSizes command = 0 ∨
      7 ≤ lookupD s.currentFile.payloadSizes command) :
    processCommand s command (view.take m) = processCommand s command view := by
  unfold processCommand
  by_cases hz : lookupD s.currentFile.payloadSizes command = 0
  · rw [if_pos hz, if_pos hz]
  · rw [if_neg hz, if_neg hz]
    by_cases hc38 : command = 0x38
    · rw [if_pos hc38, if_pos hc38]
      have h7 : 7 ≤ lookupD s.currentFile.payloadSizes command := by
        rcases h38 hc38 with h | h
        · exact absurd h hz
        · exact h
      rw [getD_take _ _ _ _ (by omega), getD_take _ _ _ _ (by omega),
        getD_take _ _ _ _ (by omega), getI32_take _ _ (by omega)]
    · rw [if_neg hc38, if_neg hc38]
      by_cases hc39 : command = 0x39
      · rw [if_pos hc39, if_pos hc39]
        rw [getD_take _ _ _ _ (by omega)]
      · rw [if_neg hc39, if_neg hc39]

/-- The loop result does not depend on the fuel, as long as the fuel covers
the data length. -/
theorem loopGo_fuel_irrel : ∀ (f1 f2 : Nat) (s : Writer) (d : List Nat),
    d.length ≤ f1 → d.length ≤ f2 → loopGo f1 s d = loopGo f2 s d := by
  intro f1
  induction f1 with
  | zero =>
    intro f2 s d h1 _
    have : d = [] := List.eq_nil_of_length_eq_zero (by omega)
    subst this
    rw [loopGo_nil, loopGo_nil]
  | succ f1 ih =>
    intro f2 s d h1 h2
    by_cases hne : d = []
    · subst hne; rw [loopGo_nil, loopGo_nil]
    cases f2 with
    | zero =>
      exact absurd (List.eq_nil_of_length_eq_zero (by omega)) hne
    | succ f2 =>
      have hd1 : 1 ≤ d.length := by
        cases d with
        | nil => exact absurd rfl hne
        | cons a t => simp
      have ihx : ∀ (w : Writer) (k : Nat), 1 ≤ k →
          loopGo f1 w (d.drop k) = loopGo f2 w (d.drop k) := by
        intro w k hk
        apply ih <;> simp <;> omega
      by_cases hh : d.take 5 = heloToken
      · have h5 := length_ge5_of_helo d hh
        rw [loopGo_helo f1 s d hne hh, loopGo_helo f2 s d hne hh]
        rw [ihx _ 5 (by omega)]
      by_cases hst : d.length < lookupD s.currentFile.payloadSizes (d.headD 0) + 1
      · rw [loopGo_stall f1 s d hne hh hst, loopGo_stall f2 s d hne hh hst]
      by_cases h35 : d.headD 0 = 0x35
      · rw [loopGo_s35 f1 s d hne hh h35 (by rwa [h35] at hst),
          loopGo_s35 f2 s d hne hh h35 (by rwa [h35] at hst)]
        simp only []
        rw [ihx]
        omega
      by_cases h39 : d.headD 0 = 0x39
      · rw [loopGo_s39 f1 s d hne hh h39 (by rwa [h39] at hst),
          loopGo_s39 f2 s d hne hh h39 (by rwa [h39] at hst)]
        simp only []
        rw [ihx]
        omega
      by_cases h36 : d.headD 0 = 0x36
      · rw [loopGo_s36 f1 s d hne hh h36 (by rwa [h36] at hst),
          loopGo_s36 f2 s d hne hh h36 (by rwa [h36] at hst)]
        simp only []
        rw [ihx]
        omega
      · rw [loopGo_sdef f1 s d hne hh h35 h39 h36 hst,
          loopGo_sdef f2 s d hne hh h35 h39 h36 hst]
        simp only []
        rw [ihx]
        omega

/-- Forget the relay-only state (accumulated buffer and client list): the
parse loop never reads these, so runs agreeing modulo `stripped` emit the
same frames. -/
def stripped (s : Writer) : Writer :=
  { s with
    currentFile := { s.currentFile with fullBuffer := [] }
    clients := [] }

theorem setStatus_stripped (s : Writer) (v : Bool) :
    stripped (setStatus s v) = setStatus (stripped s) v := rfl

theorem hso_stripped (s : Writer) (hold : Nat) :
    stripped (handleStatusOutput s hold) = handleStatusOutput (stripped s) hold := by
  unfold handleStatusOutput setStatus
  by_cases h1 : s.currentFile.lastFrame < -60
  · rw [if_pos h1, if_pos (show (stripped s).currentFile.lastFrame < -60 from h1)]
  · rw [if_neg h1, if_neg (show ¬(stripped s).currentFile.lastFrame < -60 from h1)]
    by_cases h2 : s.statusOn = true
    · rw [if_pos h2, if_pos (show (stripped s).statusOn = true from h2)]
      rfl
    · rw [if_neg h2, if_neg (show ¬(stripped s).statusOn = true from h2)]
      rfl

theorem writeCommand_stripped (s : Writer) (c : Nat) (v : List Nat) (n : Nat) :
    stripped (writeCommand s c v n) = writeCommand (stripped s) c v n := by
  unfold writeCommand
  by_cases ho : s.currentFile.streamOpen = true
  · rw [if_pos ho, if_pos (show (stripped s).currentFile.streamOpen = true from ho)]
    rfl
  · rw [if_neg ho, if_neg (show ¬(stripped s).currentFile.streamOpen = true from ho)]

theorem prc_stripped (s : Writer) (v : List Nat) :
    (processReceiveCommands (stripped s) v).1 = (processReceiveCommands s v).1 ∧
    (processReceiveCommands (stripped s) v).2 = stripped (processReceiveCommands s v).2 :=
  ⟨rfl, rfl⟩

theorem ing_stripped (s : Writer) :
    initializeNewGame (stripped s) = stripped (initializeNewGame s) := rfl

theorem processCommand_stripped (s : Writer) (c : Nat) (v : List Nat) :
    (processCommand (stripped s) c v).1 = (processCommand s c v).1 ∧
    (processCommand (stripped s) c v).2 = stripped (processCommand s c v).2 := by
  unfold processCommand
  by_cases hz : lookupD s.currentFile.payloadSizes c = 0
  · rw [if_pos hz, if_pos (show lookupD (stripped s).currentFile.payloadSizes c = 0 from hz)]
    exact ⟨rfl, rfl⟩
  · rw [if_neg hz,
      if_neg (show ¬lookupD (stripped s).currentFile.payloadSizes c = 0 from hz)]
    by_cases h38 : c = 0x38
    · rw [if_pos h38, if_pos h38]
      by_cases hfol : v.getD 5 0 ≠ 0
      · rw [if_pos hfol, if_pos hfol]
        exact ⟨rfl, rfl⟩
      · rw [if_neg hfol, if_neg hfol]
        exact ⟨rfl, rfl⟩
    · rw [if_neg h38, if_neg h38]
      by_cases h39 : c = 0x39
      · rw [if_pos h39, if_pos h39]
        by_cases hem : v.getD 0 0 ≠ 7
        · rw [if_pos hem, if_pos hem]
          exact ⟨rfl, (hso_stripped s 700).symm⟩
        · rw [if_neg hem, if_neg hem]
          exact ⟨rfl, rfl⟩
      · rw [if_neg h39, if_neg h39]
        exact ⟨rfl, rfl⟩

theorem endGame_stripped (s : Writer) :
    stripped (endGame s) = endGame (stripped s) := by
  unfold endGame
  by_cases ho : s.currentFile.streamOpen = true
  · rw [if_pos ho, if_pos (show (stripped s).currentFile.streamOpen = true from ho)]
    rfl
  · rw [if_neg ho, if_neg (show ¬(stripped s).currentFile.streamOpen = true from ho)]
    rfl

/-- The loop commutes with forgetting the relay-only state: the emitted
frames, marks and well-formedness flag are unchanged, and the final states
agree modulo `stripped`. -/
theorem loopGo_stripped : ∀ (fuel : Nat) (s : Writer) (d : List Nat),
    (loopGo fuel (stripped s) d).evs = (loopGo fuel s d).evs ∧
    (loopGo fuel (stripped s) d).marks = (loopGo fuel s d).marks ∧
    (loopGo fuel (stripped s) d).wf = (loopGo fuel s d).wf ∧
    (loopGo fuel (stripped s) d).st = stripped (loopGo fuel s d).st := by
  intro fuel
  induction fuel with
  | zero => intro s d; exact ⟨rfl, rfl, rfl, rfl⟩
  | succ fuel ih =>
    intro s d
    by_cases hne : d = []
    · subst hne; rw [loopGo_nil, loopGo_nil]; exact ⟨rfl, rfl, rfl, rfl⟩
    by_cases hh : d.take 5 = heloToken
    · rw [loopGo_helo fuel (stripped s) d hne hh, loopGo_helo fuel s d hne hh]
      simp only []
      obtain ⟨e1, e2, e3, e4⟩ := ih s (d.drop 5)
      exact ⟨e1, by rw [e2], e3, e4⟩
    by_cases hst : d.length < lookupD s.currentFile.payloadSizes (d.headD 0) + 1
    · rw [loopGo_stall fuel s d hne hh hst,
        loopGo_stall fuel (stripped s) d hne hh
          (show d.length < lookupD (stripped s).currentFile.payloadSizes
            (d.headD 0) + 1 from hst)]
      exact ⟨rfl, rfl, rfl, rfl⟩
    by_cases h35 : d.headD 0 = 0x35
    · rw [loopGo_s35 fuel s d hne hh h35 (by rwa [h35] at hst),
        loopGo_s35 fuel (stripped s) d hne hh h35
          (show ¬(d.length < lookupD (stripped s).currentFile.payloadSizes 0x35 + 1)
            from by rwa [h35] at hst)]
      simp only []
      have h0 : ({ stripped s with currentFile :=
          { (stripped s).currentFile with previousBuffer := [] } } : Writer)
          = stripped { s with currentFile :=
            { s.currentFile with previousBuffer := [] } } := rfl
      rw [h0, ing_stripped,
        (prc_stripped (initializeNewGame { s with currentFile :=
          { s.currentFile with previousBuffer := [] } }) (d.drop 1)).1,
        (prc_stripped (initializeNewGame { s with currentFile :=
          { s.currentFile with previousBuffer := [] } }) (d.drop 1)).2,
        ← writeCommand_stripped]
      have h1 : ({ stripped (writeCommand (processReceiveCommands (initializeNewGame
          { s with currentFile := { s.currentFile with previousBuffer := [] } })
          (d.drop 1)).2 0x35 (d.drop 1) (processReceiveCommands (initializeNewGame
          { s with currentFile := { s.currentFile with previousBuffer := [] } })
          (d.drop 1)).1) with
          notifies := (stripped (writeCommand (processReceiveCommands (initializeNewGame
          { s with currentFile := { s.currentFile with previousBuffer := [] } })
          (d.drop 1)).2 0x35 (d.drop 1) (processReceiveCommands (initializeNewGame
          { s with currentFile := { s.currentFile with previousBuffer := [] } })
          (d.drop 1)).1)).notifies + 1 } : Writer)
          = stripped { writeCommand (processReceiveCommands (initializeNewGame
          { s with currentFile := { s.currentFile with previousBuffer := [] } })
          (d.drop 1)).2 0x35 (d.drop 1) (processReceiveCommands (initializeNewGame
          { s with currentFile := { s.currentFile with previousBuffer := [] } })
          (d.drop 1)).1 with
          notifies := (writeCommand (processReceiveCommands (initializeNewGame
          { s with currentFile := { s.currentFile with previousBuffer := [] } })
          (d.drop 1)).2 0x35 (d.drop 1) (processReceiveCommands (initializeNewGame
          { s with currentFile := { s.currentFile with previousBuffer := [] } })
          (d.drop 1)).1).notifies + 1 } := by
        rfl
      rw [h1]
      obtain ⟨e1, e2, e3, e4⟩ := ih _ (d.drop (1 + (processReceiveCommands
        (initializeNewGame { s with currentFile :=
          { s.currentFile with previousBuffer := [] } }) (d.drop 1)).1))
      refine ⟨by rw [e1], by rw [e2], ?_, e4⟩
      rw [e3]
      have hps : lookupD (stripped s).currentFile.payloadSizes 0x35
          = lookupD s.currentFile.payloadSizes 0x35 := rfl
      rw [hps]
    by_cases h39 : d.headD 0 = 0x39
    · rw [loopGo_s39 fuel s d hne hh h39 (by rwa [h39] at hst),
        loopGo_s39 fuel (stripped s) d hne hh h39
          (show ¬(d.length < lookupD (stripped s).currentFile.payloadSizes 0x39 + 1)
            from by rwa [h39] at hst)]
      simp only []
      have h0 : ({ stripped s with currentFile :=
          { (stripped s).currentFile with previousBuffer := [] } } : Writer)
          = stripped { s with currentFile :=
            { s.currentFile with previousBuffer := [] } } := rfl
      rw [h0,
        (processCommand_stripped { s with currentFile :=
          { s.currentFile with previousBuffer := [] } } 0x39 (d.drop 1)).1,
        (processCommand_stripped { s with currentFile :=
          { s.currentFile with previousBuffer := [] } } 0x39 (d.drop 1)).2,
        ← writeCommand_stripped, ← endGame_stripped]
      obtain ⟨e1, e2, e3, e4⟩ := ih (endGame (writeCommand (processCommand
        { s with currentFile := { s.currentFile with previousBuffer := [] } }
        0x39 (d.drop 1)).2 0x39 (d.drop 1) (processCommand
        { s with currentFile := { s.currentFile with previousBuffer := [] } }
        0x39 (d.drop 1)).1)) (d.drop (1 + (processCommand
        { s with currentFile := { s.currentFile with previousBuffer := [] } }
        0x39 (d.drop 1)).1))
      exact ⟨by rw [e1], by rw [e2], by rw [e3], e4⟩
    by_cases h36 : d.headD 0 = 0x36
    · rw [loopGo_s36 fuel s d hne hh h36 (by rwa [h36] at hst),
        loopGo_s36 fuel (stripped s) d hne hh h36
          (show ¬(d.length < lookupD (stripped s).currentFile.payloadSizes 0x36 + 1)
            from by rwa [h36] at hst)]
      simp only []
      have h0 : ({ stripped s with currentFile :=
          { (stripped s).currentFile with previousBuffer := [] } } : Writer)
          = stripped { s with currentFile :=
            { s.currentFile with previousBuffer := [] } } := rfl
      rw [h0,
        (processCommand_stripped { s with currentFile :=
          { s.currentFile with previousBuffer := [] } } 0x36 (d.drop 1)).1,
        (processCommand_stripped { s with currentFile :=
          { s.currentFile with previousBuffer := [] } } 0x36 (d.drop 1)).2,
        ← writeCommand_stripped]
      obtain ⟨e1, e2, e3, e4⟩ := ih (writeCommand (processCommand
        { s with currentFile := { s.currentFile with previousBuffer := [] } }
        0x36 (d.drop 1)).2 0x36 (d.drop 1) (processCommand
        { s with currentFile := { s.currentFile with previousBuffer := [] } }
        0x36 (d.drop 1)).1) (d.drop (1 + (processCommand
        { s with currentFile := { s.currentFile with previousBuffer := [] } }
        0x36 (d.drop 1)).1))
      exact ⟨by rw [e1], by rw [e2], by rw [e3], e4⟩
    · rw [loopGo_sdef fuel s d hne hh h35 h39 h36 hst,
        loopGo_sdef fuel (stripped s) d hne hh h35 h39 h36
          (show ¬(d.length < lookupD (stripped s).currentFile.payloadSizes
            (d.headD 0) + 1) from hst)]
      simp only []
      have h0 : ({ stripped s with currentFile :=
          { (stripped s).currentFile with previousBuffer := [] } } : Writer)
          = stripped { s with currentFile :=
            { s.currentFile with previousBuffer := [] } } := rfl
      rw [h0,
        (processCommand_stripped { s with currentFile :=
          { s.currentFile with previousBuffer := [] } } (d.headD 0) (d.drop 1)).1,
        (processCommand_stripped { s with currentFile :=
          { s.currentFile with previousBuffer := [] } } (d.headD 0) (d.drop 1)).2,
        ← writeCommand_stripped, ← hso_stripped]
      obtain ⟨e1, e2, e3, e4⟩ := ih (handleStatusOutput (writeCommand (processCommand
        { s with currentFile := { s.currentFile with previousBuffer := [] } }
        (d.headD 0) (d.drop 1)).2 (d.headD 0) (d.drop 1) (processCommand
        { s with currentFile := { s.currentFile with previousBuffer := [] } }
        (d.headD 0) (d.drop 1)).1) 200) (d.drop (1 + (processCommand
        { s with currentFile := { s.currentFile with previousBuffer := [] } }
        (d.headD 0) (d.drop 1)).1))
      refine ⟨by rw [e1], by rw [e2], ?_, e4⟩
      rw [e3]
      have : lookupD (stripped s).currentFile.payloadSizes (d.headD 0)
          = lookupD s.currentFile.payloadSizes (d.headD 0) := rfl
      rw [this]

@[simp] theorem prc_snd_previousBuffer (s : Writer) (v : List Nat) :
    (processReceiveCommands s v).2.currentFile.previousBuffer
      = s.currentFile.previousBuffer := rfl

@[simp] theorem ing_previousBuffer (s : Writer) :
    (initializeNewGame s).currentFile.previousBuffer = [] := rfl

theorem mem_shift (L : List Nat) (v q : Nat) (hq0 : q ≠ 0)
    (h : q ∈ (0 :: L.map (· + v))) : v ≤ q ∧ q - v ∈ L := by
  rcases List.mem_cons.mp h with h | h
  · exact absurd h hq0
  · simp only [List.mem_map] at h
    obtain ⟨m, hm, rfl⟩ := h
    constructor
    · omega
    · have : m + v - v = m := by omega
      rw [this]
      exact hm

theorem marks_shift (L : List Nat) (v q : Nat) (hv : 1 ≤ v) (hvq : v ≤ q) :
    ((0 :: L.map (· + v)).filter (fun m => decide (q ≤ m))).map (· - q)
      = (L.filter (fun m => decide (q - v ≤ m))).map (· - (q - v)) := by
  rw [List.filter_cons_of_neg (by simp; omega)]
  rw [List.map_filter]
  have hfc : List.filter ((fun m => decide (q ≤ m)) ∘ fun x => x + v) L
      = List.filter (fun m => decide (q - v ≤ m)) L :=
    List.filter_congr (fun m _ => by
      show decide (q ≤ m + v) = decide (q - v ≤ m)
      rw [decide_eq_decide]; omega)
  rw [hfc]
  rw [List.map_map]
  have hfe : ((fun m => m - q) ∘ fun m => m + v) = fun m => m - (q - v) := by
    funext m
    simp only [Function.comp]
    omega
  rw [hfe]

/-- Splitting a single-delivery parse at a step boundary `q` of its own run
(with the run well-formed and no retained tail at the start) yields a prefix
run over the first `q` bytes and a suffix run over the rest whose emitted
frames concatenate to the whole run's frames, whose final state equals the
whole run's, and whose suffix marks are the whole marks past `q`, shifted. -/
theorem loopGo_split : ∀ (fuel : Nat) (s : Writer) (d : List Nat) (q : Nat),
    d.length ≤ fuel →
    s.currentFile.previousBuffer = [] →
    q ≤ d.length →
    q ∈ (loopGo fuel s d).marks →
    (loopGo fuel s d).wf = true →
    (loopGo fuel s (d.take q)).st.currentFile.previousBuffer = [] ∧
    (loopGo fuel s (d.take q)).wf = true ∧
    (loopGo fuel (loopGo fuel s (d.take q)).st (d.drop q)).st
      = (loopGo fuel s d).st ∧
    (loopGo fuel s (d.take q)).evs
        ++ (loopGo fuel (loopGo fuel s (d.take q)).st (d.drop q)).evs
      = (loopGo fuel s d).evs ∧
    (loopGo fuel (loopGo fuel s (d.take q)).st (d.drop q)).marks
      = ((loopGo fuel s d).marks.filter (fun m => decide (q ≤ m))).map (· - q) ∧
    (loopGo fuel (loopGo fuel s (d.take q)).st (d.drop q)).wf = true := by
  intro fuel
  induction fuel with
  | zero =>
    intro s d q hf hprev hql hqm hwf
    have hd : d = [] := List.eq_nil_of_length_eq_zero (by omega)
    subst hd
    simp only [List.length_nil, Nat.le_zero] at hql
    subst hql
    exact ⟨hprev, rfl, rfl, rfl, rfl, rfl⟩
  | succ fuel ih =>
    intro s d q hf hprev hql hqm hwf
    by_cases hq0 : q = 0
    · subst hq0
      rw [List.take_zero, loopGo_nil, List.drop_zero]
      refine ⟨hprev, rfl, rfl, rfl, ?_, hwf⟩
      have hfm : ∀ L : List Nat,
          (L.filter (fun m => decide (0 ≤ m))).map (· - 0) = L := by
        intro L
        rw [List.filter_eq_self.mpr (fun a _ => by simp)]
        simp
      rw [hfm]
    have hne : d ≠ [] := by
      intro hx
      subst hx
      simp only [List.length_nil, Nat.le_zero] at hql
      exact hq0 hql
    have htne : d.take q ≠ [] := by
      intro hx
      have hlq := congrArg List.length hx
      simp only [List.length_take, List.length_nil] at hlq
      omega
    by_cases hh : d.take 5 = heloToken
    · -- keep-alive skip
      have h5 := length_ge5_of_helo d hh
      rw [loopGo_helo fuel s d hne hh] at hqm hwf ⊢
      simp only [] at hqm hwf ⊢
      obtain ⟨hvq, hq'⟩ := mem_shift _ 5 q hq0 hqm
      have hth : (d.take q).take 5 = heloToken := by
        rw [List.take_take, Nat.min_eq_left hvq]
        exact hh
      rw [loopGo_helo fuel s (d.take q) htne hth]
      simp only []
      rw [List.drop_take q 5 d]
      rw [show d.drop q = (d.drop 5).drop (q - 5) from by
        rw [List.drop_drop]; congr 1; omega]
      rw [loopGo_fuel_irrel (fuel + 1) fuel _ ((d.drop 5).drop (q - 5))
        (by simp; omega) (by simp; omega)]
      obtain ⟨i1, i2, i3, i4, i5, i6⟩ := ih s (d.drop 5) (q - 5)
        (by simp; omega) hprev (by simp; omega) hq' hwf
      refine ⟨i1, i2, i3, i4, ?_, i6⟩
      rw [marks_shift _ 5 q (by omega) hvq]
      exact i5
    by_cases hst : d.length < lookupD s.currentFile.payloadSizes (d.headD 0) + 1
    · -- stall retains the tail; its only mark is 0, excluded by q ≠ 0
      rw [loopGo_stall fuel s d hne hh hst] at hqm
      simp only [] at hqm
      exact absurd (by simpa using hqm) hq0
    by_cases h35 : d.headD 0 = 0x35
    · -- handshake step
      rw [loopGo_s35 fuel s d hne hh h35 (by rwa [h35] at hst)] at hqm hwf ⊢
      simp only [] at hqm hwf ⊢
      generalize hP : processReceiveCommands (initializeNewGame
        { s with currentFile := { s.currentFile with previousBuffer := [] } })
        (d.drop 1) = P at hqm hwf ⊢
      rw [Bool.and_eq_true] at hwf
      obtain ⟨hsw, hrwf⟩ := hwf
      obtain ⟨h3, hle⟩ := of_decide_eq_true hsw
      obtain ⟨hvq, hq'⟩ := mem_shift _ (1 + P.1) q hq0 hqm
      have hP1 : P.1 = (d.drop 1).getD 0 0 := by rw [← hP]; rfl
      have h3' : (d.drop 1).getD 0 0 % 3 = 1 := by rw [← hP1]; exact h3
      have hvq' : 1 + (d.drop 1).getD 0 0 ≤ q := by rw [← hP1]; exact hvq
      have hth := take5_take_ne d q hh hql
      have hthead : (d.take q).headD 0 = 0x35 := by
        rw [headD_take d q 0 (by omega)]
        exact h35
      have htst : ¬ ((d.take q).length
          < lookupD s.currentFile.payloadSizes 0x35 + 1) := by
        simp only [List.length_take]
        omega
      rw [loopGo_s35 fuel s (d.take q) htne hth hthead htst]
      simp only []
      rw [List.drop_take q 1 d]
      have hprc : processReceiveCommands (initializeNewGame
          { s with currentFile := { s.currentFile with previousBuffer := [] } })
          ((d.drop 1).take (q - 1)) = P := by
        rw [← hP]
        unfold processReceiveCommands
        simp only []
        rw [getD_take (d.drop 1) 0 (q - 1) 0 (by omega)]
        rw [rcBuild_take _ (d.drop 1) ((d.drop 1).getD 0 0) (q - 1)
          (by omega) h3']
      rw [hprc]
      have hle' : P.1 ≤ q - 1 := by omega
      have htt : ((d.drop 1).take (q - 1)).take P.1 = (d.drop 1).take P.1 := by
        rw [List.take_take, Nat.min_eq_left hle']
      rw [htt]
      have hwc : writeCommand P.2 0x35 ((d.drop 1).take (q - 1)) P.1
          = writeCommand P.2 0x35 (d.drop 1) P.1 := by
        unfold writeCommand
        split_ifs with ho
        · rw [htt]
        · rfl
      rw [hwc]
      rw [List.drop_take q (1 + P.1) d]
      rw [show d.drop q = (d.drop (1 + P.1)).drop (q - (1 + P.1)) from by
        rw [List.drop_drop]; congr 1; omega]
      rw [loopGo_fuel_irrel (fuel + 1) fuel _
        ((d.drop (1 + P.1)).drop (q - (1 + P.1)))
        (by simp; omega) (by simp; omega)]
      have hprev3 : ({ writeCommand P.2 0x35 (d.drop 1) P.1 with
          notifies := (writeCommand P.2 0x35 (d.drop 1) P.1).notifies + 1 }
          : Writer).currentFile.previousBuffer = [] := by
        rw [← hP]
        simp
      obtain ⟨i1, i2, i3, i4, i5, i6⟩ := ih _ (d.drop (1 + P.1)) (q - (1 + P.1))
        (by simp; omega) hprev3 (by simp; omega) hq' hrwf
      refine ⟨i1, ?_, i3, ?_, ?_, i6⟩
      · rw [Bool.and_eq_true]
        exact ⟨hsw, i2⟩
      · rw [List.cons_append, i4]
      · rw [marks_shift _ (1 + P.1) q (by omega) hvq]
        exact i5
    by_cases h39 : d.headD 0 = 0x39
    · -- game-end step
      rw [loopGo_s39 fuel s d hne hh h39 (by rwa [h39] at hst)] at hqm hwf ⊢
      simp only [] at hqm hwf ⊢
      generalize hP : processCommand
        { s with currentFile := { s.currentFile with previousBuffer := [] } }
        0x39 (d.drop 1) = P at hqm hwf ⊢
      obtain ⟨hvq, hq'⟩ := mem_shift _ (1 + P.1) q hq0 hqm
      have hP1 : P.1 = lookupD s.currentFile.payloadSizes 0x39 := by
        rw [← hP, processCommand_fst]
      have hth := take5_take_ne d q hh hql
      have hthead : (d.take q).headD 0 = 0x39 := by
        rw [headD_take d q 0 (by omega)]
        exact h39
      have htst : ¬ ((d.take q).length
          < lookupD s.currentFile.payloadSizes 0x39 + 1) := by
        simp only [List.length_take]
        omega
      rw [loopGo_s39 fuel s (d.take q) htne hth hthead htst]
      simp only []
      rw [List.drop_take q 1 d]
      have hps0 : lookupD ({ s with currentFile :=
          { s.currentFile with previousBuffer := [] } }
          : Writer).currentFile.payloadSizes 0x39
          = lookupD s.currentFile.payloadSizes 0x39 := rfl
      have hm' : lookupD ({ s with currentFile :=
          { s.currentFile with previousBuffer := [] } }
          : Writer).currentFile.payloadSizes 0x39 ≤ q - 1 := by
        rw [hps0]
        omega
      have hpc : processCommand
          { s with currentFile := { s.currentFile with previousBuffer := [] } }
          0x39 ((d.drop 1).take (q - 1)) = P := by
        rw [← hP]
        exact processCommand_take _ 0x39 (d.drop 1) (q - 1) hm'
          (fun hx => absurd hx (by decide))
      rw [hpc]
      have hle' : P.1 ≤ q - 1 := by omega
      have htt : ((d.drop 1).take (q - 1)).take P.1 = (d.drop 1).take P.1 := by
        rw [List.take_take, Nat.min_eq_left hle']
      rw [htt]
      have hwc : writeCommand P.2 0x39 ((d.drop 1).take (q - 1)) P.1
          = writeCommand P.2 0x39 (d.drop 1) P.1 := by
        unfold writeCommand
        split_ifs with ho
        · rw [htt]
        · rfl
      rw [hwc]
      rw [List.drop_take q (1 + P.1) d]
      rw [show d.drop q = (d.drop (1 + P.1)).drop (q - (1 + P.1)) from by
        rw [List.drop_drop]; congr 1; omega]
      rw [loopGo_fuel_irrel (fuel + 1) fuel _
        ((d.drop (1 + P.1)).drop (q - (1 + P.1)))
        (by simp; omega) (by simp; omega)]
      have hprev3 :
          (endGame (writeCommand P.2 0x39 (d.drop 1) P.1)).currentFile.previousBuffer
            = [] := by
        rw [endGame_currentFile]
        rfl
      obtain ⟨i1, i2, i3, i4, i5, i6⟩ := ih _ (d.drop (1 + P.1)) (q - (1 + P.1))
        (by simp; omega) hprev3 (by simp; omega) hq' hwf
      refine ⟨i1, i2, i3, ?_, ?_, i6⟩
      · rw [List.cons_append, i4]
      · rw [marks_shift _ (1 + P.1) q (by omega) hvq]
        exact i5
    by_cases h36 : d.headD 0 = 0x36
    · -- game-start step
      rw [loopGo_s36 fuel s d hne hh h36 (by rwa [h36] at hst)] at hqm hwf ⊢
      simp only [] at hqm hwf ⊢
      generalize hP : processCommand
        { s with currentFile := { s.currentFile with previousBuffer := [] } }
        0x36 (d.drop 1) = P at hqm hwf ⊢
      obtain ⟨hvq, hq'⟩ := mem_shift _ (1 + P.1) q hq0 hqm
      have hP1 : P.1 = lookupD s.currentFile.payloadSizes 0x36 := by
        rw [← hP, processCommand_fst]
      have hth := take5_take_ne d q hh hql
      have hthead : (d.take q).headD 0 = 0x36 := by
        rw [headD_take d q 0 (by omega)]
        exact h36
      have htst : ¬ ((d.take q).length
          < lookupD s.currentFile.payloadSizes 0x36 + 1) := by
        simp only [List.length_take]
        omega
      rw [loopGo_s36 fuel s (d.take q) htne hth hthead htst]
      simp only []
      rw [List.drop_take q 1 d]
      have hps0 : lookupD ({ s with currentFile :=
          { s.currentFile with previousBuffer := [] } }
          : Writer).currentFile.payloadSizes 0x36
          = lookupD s.currentFile.payloadSizes 0x36 := rfl
      have hm' : lookupD ({ s with currentFile :=
          { s.currentFile with previousBuffer := [] } }
          : Writer).currentFile.payloadSizes 0x36 ≤ q - 1 := by
        rw [hps0]
        omega
      have hpc : processCommand
          { s with currentFile := { s.currentFile with previousBuffer := [] } }
          0x36 ((d.drop 1).take (q - 1)) = P := by
        rw [← hP]
        exact processCommand_take _ 0x36 (d.drop 1) (q - 1) hm'
          (fun hx => absurd hx (by decide))
      rw [hpc]
      have hle' : P.1 ≤ q - 1 := by omega
      have htt : ((d.drop 1).take (q - 1)).take P.1 = (d.drop 1).take P.1 := by
        rw [List.take_take, Nat.min_eq_left hle']
      rw [htt]
      have hwc : writeCommand P.2 0x36 ((d.drop 1).take (q - 1)) P.1
          = writeCommand P.2 0x36 (d.drop 1) P.1 := by
        unfold writeCommand
        split_ifs with ho
        · rw [htt]
        · rfl
      rw [hwc]
      rw [List.drop_take q (1 + P.1) d]
      rw [show d.drop q = (d.drop (1 + P.1)).drop (q - (1 + P.1)) from by
        rw [List.drop_drop]; congr 1; omega]
      rw [loopGo_fuel_irrel (fuel + 1) fuel _
        ((d.drop (1 + P.1)).drop (q - (1 + P.1)))
        (by simp; omega) (by simp; omega)]
      have hprev3 :
          (writeCommand P.2 0x36 (d.drop 1) P.1).currentFile.previousBuffer
            = [] := by
        rw [← hP]
        simp
      obtain ⟨i1, i2, i3, i4, i5, i6⟩ := ih _ (d.drop (1 + P.1)) (q - (1 + P.1))
        (by simp; omega) hprev3 (by simp; omega) hq' hwf
      refine ⟨i1, i2, i3, ?_, ?_, i6⟩
      · rw [List.cons_append, i4]
      · rw [marks_shift _ (1 + P.1) q (by omega) hvq]
        exact i5
    · -- generic command step
      rw [loopGo_sdef fuel s d hne hh h35 h39 h36 hst] at hqm hwf ⊢
      simp only [] at hqm hwf ⊢
      generalize hP : processCommand
        { s with currentFile := { s.currentFile with previousBuffer := [] } }
        (d.headD 0) (d.drop 1) = P at hqm hwf ⊢
      rw [Bool.and_eq_true] at hwf
      obtain ⟨hsw, hrwf⟩ := hwf
      obtain ⟨hvq, hq'⟩ := mem_shift _ (1 + P.1) q hq0 hqm
      have hP1 : P.1 = lookupD s.currentFile.payloadSizes (d.headD 0) := by
        rw [← hP, processCommand_fst]
      have hth := take5_take_ne d q hh hql
      have hthead : (d.take q).headD 0 = d.headD 0 :=
        headD_take d q 0 (by omega)
      have h35' : (d.take q).headD 0 ≠ 0x35 := by rw [hthead]; exact h35
      have h39' : (d.take q).headD 0 ≠ 0x39 := by rw [hthead]; exact h39
      have h36' : (d.take q).headD 0 ≠ 0x36 := by rw [hthead]; exact h36
      have htst : ¬ ((d.take q).length
          < lookupD s.currentFile.payloadSizes ((d.take q).headD 0) + 1) := by
        rw [hthead]
        simp only [List.length_take]
        omega
      rw [loopGo_sdef fuel s (d.take q) htne hth h35' h39' h36' htst]
      simp only []
      rw [hthead]
      rw [List.drop_take q 1 d]
      have hps0 : lookupD ({ s with currentFile :=
          { s.currentFile with previousBuffer := [] } }
          : Writer).currentFile.payloadSizes (d.headD 0)
          = lookupD s.currentFile.payloadSizes (d.headD 0) := rfl
      have hm' : lookupD ({ s with currentFile :=
          { s.currentFile with previousBuffer := [] } }
          : Writer).currentFile.payloadSizes (d.headD 0) ≤ q - 1 := by
        rw [hps0]
        omega
      have h38' : d.headD 0 = 0x38 → lookupD ({ s with currentFile :=
          { s.currentFile with previousBuffer := [] } }
          : Writer).currentFile.payloadSizes (d.headD 0) = 0 ∨
          7 ≤ lookupD ({ s with currentFile :=
          { s.currentFile with previousBuffer := [] } }
          : Writer).currentFile.payloadSizes (d.headD 0) := by
        intro hx
        rw [hps0]
        rcases of_decide_eq_true hsw with h | h
        · exact absurd hx h
        · exact h
      have hpc : processCommand
          { s with currentFile := { s.currentFile with previousBuffer := [] } }
          (d.headD 0) ((d.drop 1).take (q - 1)) = P := by
        rw [← hP]
        exact processCommand_take _ (d.headD 0) (d.drop 1) (q - 1) hm' h38'
      rw [hpc]
      have hle' : P.1 ≤ q - 1 := by omega
      have htt : ((d.drop 1).take (q - 1)).take P.1 = (d.drop 1).take P.1 := by
        rw [List.take_take, Nat.min_eq_left hle']
      rw [htt]
      have hwc : writeCommand P.2 (d.headD 0) ((d.drop 1).take (q - 1)) P.1
          = writeCommand P.2 (d.headD 0) (d.drop 1) P.1 := by
        unfold writeCommand
        split_ifs with ho
        · rw [htt]
        · rfl
      rw [hwc]
      rw [List.drop_take q (1 + P.1) d]
      rw [show d.drop q = (d.drop (1 + P.1)).drop (q - (1 + P.1)) from by
        rw [List.drop_drop]; congr 1; omega]
      rw [loopGo_fuel_irrel (fuel + 1) fuel _
        ((d.drop (1 + P.1)).drop (q - (1 + P.1)))
        (by simp; omega) (by simp; omega)]
      have hprev3 :
          (handleStatusOutput (writeCommand P.2 (d.headD 0) (d.drop 1) P.1)
            200).currentFile.previousBuffer = [] := by
        rw [← hP]
        simp
      obtain ⟨i1, i2, i3, i4, i5, i6⟩ := ih _ (d.drop (1 + P.1)) (q - (1 + P.1))
        (by simp; omega) hprev3 (by simp; omega) hq' hrwf
      refine ⟨i1, ?_, i3, ?_, ?_, i6⟩
      · rw [Bool.and_eq_true]
        exact ⟨hsw, i2⟩
      · rw [List.cons_append, i4]
      · rw [marks_shift _ (1 + P.1) q (by omega) hvq]
        exact i5

/-- Two starting states agreeing modulo the relay-only fields produce equal
frames, marks and flags, and stripped-equal final states. -/
theorem loopGo_congr (fuel : Nat) (x y : Writer) (d : List Nat)
    (h : stripped x = stripped y) :
    (loopGo fuel x d).evs = (loopGo fuel y d).evs ∧
    (loopGo fuel x d).marks = (loopGo fuel y d).marks ∧
    (loopGo fuel x d).wf = (loopGo fuel y d).wf ∧
    stripped (loopGo fuel x d).st = stripped (loopGo fuel y d).st := by
  obtain ⟨a1, a2, a3, a4⟩ := loopGo_stripped fuel x d
  obtain ⟨b1, b2, b3, b4⟩ := loopGo_stripped fuel y d
  rw [h] at a1 a2 a3 a4
  exact ⟨a1.symm.trans b1, a2.symm.trans b2, a3.symm.trans b3, a4.symm.trans b4⟩

theorem stripped_previousBuffer (s : Writer) :
    (stripped s).currentFile.previousBuffer = s.currentFile.previousBuffer := rfl

/-- With no retained tail, a delivery's emitted frames are exactly the parse
loop's frames over the delivered bytes. -/
theorem handleData_evs (s : Writer) (d : List Nat)
    (hprev : s.currentFile.previousBuffer = []) :
    (handleData s d).2 = (loopGo d.length s d).evs := by
  unfold handleData
  simp only []
  rw [hprev]
  simp only [List.nil_append]

/-- Modulo the relay-only fields, `handleData`'s final state is the parse
loop's final state. -/
theorem handleData_stripped (s : Writer) (d : List Nat) :
    stripped (handleData s d).1
      = stripped (loopGo (s.currentFile.previousBuffer ++ d).length s
          (s.currentFile.previousBuffer ++ d)).st := rfl

theorem runChunks_acc : ∀ (chunks : List (List Nat)) (x : Writer)
    (acc : List Frame),
    chunks.foldl (fun p c =>
        let r := handleData p.1 c
        (r.1, p.2 ++ r.2)) (x, acc)
      = ((runChunks x chunks).1, acc ++ (runChunks x chunks).2) := by
  intro chunks
  induction chunks with
  | nil => intro x acc; simp [runChunks]
  | cons c rest ih =>
    intro x acc
    unfold runChunks
    simp only [List.foldl_cons]
    rw [ih, ih]
    simp

theorem runChunks_cons (s : Writer) (c : List Nat) (rest : List (List Nat)) :
    runChunks s (c :: rest)
      = ((runChunks (handleData s c).1 rest).1,
         (handleData s c).2 ++ (runChunks (handleData s c).1 rest).2) := by
  unfold runChunks
  simp only [List.foldl_cons]
  rw [runChunks_acc rest (handleData s c).1 ([] ++ (handleData s c).2),
      runChunks_acc rest (handleData s c).1 []]
  simp

/-! ## The stall/tail-retention path: splits strictly inside a frame -/

/-- Every parse run starts a step at offset 0. -/
theorem loopGo_marks_zero : ∀ (fuel : Nat) (s : Writer) (d : List Nat),
    0 ∈ (loopGo fuel s d).marks := by
  intro fuel s d
  cases fuel with
  | zero => exact List.mem_cons_self _ _
  | succ fuel =>
    by_cases hne : d = []
    · subst hne
      rw [loopGo_nil]
      exact List.mem_cons_self _ _
    by_cases hh : d.take 5 = heloToken
    · rw [loopGo_helo fuel s d hne hh]
      simp only []
      exact List.mem_cons_self _ _
    by_cases hst : d.length < lookupD s.currentFile.payloadSizes (d.headD 0) + 1
    · rw [loopGo_stall fuel s d hne hh hst]
      exact List.mem_cons_self _ _
    by_cases h35 : d.headD 0 = 0x35
    · rw [loopGo_s35 fuel s d hne hh h35 (by rwa [h35] at hst)]
      simp only []
      exact List.mem_cons_self _ _
    by_cases h39 : d.headD 0 = 0x39
    · rw [loopGo_s39 fuel s d hne hh h39 (by rwa [h39] at hst)]
      simp only []
      exact List.mem_cons_self _ _
    by_cases h36 : d.headD 0 = 0x36
    · rw [loopGo_s36 fuel s d hne hh h36 (by rwa [h36] at hst)]
      simp only []
      exact List.mem_cons_self _ _
    · rw [loopGo_sdef fuel s d hne hh h35 h39 h36 hst]
      simp only []
      exact List.mem_cons_self _ _

/-- The last step boundary of the parse at or before byte offset `b`. -/
def lastMark (ms : List Nat) (b : Nat) : Nat :=
  (ms.filter (fun m => decide (m ≤ b))).foldr max 0

theorem foldr_max_mem : ∀ (l : List Nat), l ≠ [] → l.foldr max 0 ∈ l := by
  intro l
  induction l with
  | nil => intro h; exact absurd rfl h
  | cons a t ih =>
    intro _
    simp only [List.foldr_cons]
    by_cases ht : t = []
    · subst ht
      simp
    · rcases Nat.le_total a (t.foldr max 0) with h | h
      · rw [Nat.max_eq_right h]
        exact List.mem_cons_of_mem _ (ih ht)
      · rw [Nat.max_eq_left h]
        exact List.mem_cons_self _ _

theorem foldr_max_ge : ∀ (l : List Nat) (x : Nat), x ∈ l → x ≤ l.foldr max 0 := by
  intro l
  induction l with
  | nil => intro x hx; simp at hx
  | cons a t ih =>
    intro x hx
    simp only [List.foldr_cons]
    rcases List.mem_cons.mp hx with h | h
    · subst h
      exact Nat.le_max_left _ _
    · exact le_trans (ih x h) (Nat.le_max_right _ _)

theorem foldr_max_map_add (L : Nat) : ∀ (l : List Nat), l ≠ [] →
    (l.map (· + L)).foldr max 0 = L + l.foldr max 0 := by
  intro l
  induction l with
  | nil => intro h; exact absurd rfl h
  | cons a t ih =>
    intro _
    by_cases ht : t = []
    · subst ht
      simp only [List.map_cons, List.map_nil, List.foldr_cons, List.foldr_nil]
      omega
    · simp only [List.map_cons, List.foldr_cons]
      rw [ih ht]
      omega

theorem foldr_max_map_sub (p : Nat) : ∀ (l : List Nat), l ≠ [] →
    (∀ x ∈ l, p ≤ x) →
    (l.map (· - p)).foldr max 0 = l.foldr max 0 - p := by
  intro l
  induction l with
  | nil => intro h; exact absurd rfl h
  | cons a t ih =>
    intro _ hb
    by_cases ht : t = []
    · subst ht
      simp only [List.map_cons, List.map_nil, List.foldr_cons, List.foldr_nil]
      omega
    · simp only [List.map_cons, List.foldr_cons]
      rw [ih ht (fun x hx => hb x (List.mem_cons_of_mem _ hx))]
      have hat := hb a (List.mem_cons_self _ _)
      have htt : p ≤ t.foldr max 0 := by
        have : ∃ x, x ∈ t := by
          cases t with
          | nil => exact absurd rfl ht
          | cons b u => exact ⟨b, List.mem_cons_self _ _⟩
        obtain ⟨x, hx⟩ := this
        exact le_trans (hb x (List.mem_cons_of_mem _ hx)) (foldr_max_ge t x hx)
      omega

theorem lastMark_le (ms : List Nat) (b : Nat) : lastMark ms b ≤ b := by
  unfold lastMark
  by_cases h : ms.filter (fun m => decide (m ≤ b)) = []
  · rw [h]
    exact Nat.zero_le b
  · have hm := foldr_max_mem _ h
    exact of_decide_eq_true (List.mem_filter.mp hm).2

theorem lastMark_mem (ms : List Nat) (b : Nat) (h0 : 0 ∈ ms) :
    lastMark ms b ∈ ms := by
  unfold lastMark
  have hne : ms.filter (fun m => decide (m ≤ b)) ≠ [] := by
    intro hx
    have h00 : (0 : Nat) ∈ ms.filter (fun m => decide (m ≤ b)) :=
      List.mem_filter.mpr ⟨h0, by simp⟩
    rw [hx] at h00
    simp at h00
  exact (List.mem_filter.mp (foldr_max_mem _ hne)).1

theorem lastMark_ge_of_mem (ms : List Nat) (b x : Nat) (hx : x ∈ ms)
    (hxb : x ≤ b) : x ≤ lastMark ms b :=
  foldr_max_ge _ x (List.mem_filter.mpr ⟨hx, by simpa using hxb⟩)

theorem lastMark_of_mem (ms : List Nat) (b : Nat) (h : b ∈ ms) :
    lastMark ms b = b := by
  have h1 := lastMark_ge_of_mem ms b b h (le_refl b)
  have h2 := lastMark_le ms b
  omega

theorem lastMark_shift_ge (M : List Nat) (L b : Nat) (h0 : 0 ∈ M)
    (hLb : L ≤ b) :
    lastMark (0 :: M.map (· + L)) b = L + lastMark M (b - L) := by
  unfold lastMark
  have hf : (0 :: M.map (· + L)).filter (fun m => decide (m ≤ b))
      = 0 :: (M.filter (fun m => decide (m ≤ b - L))).map (· + L) := by
    rw [List.filter_cons_of_pos (by simp)]
    congr 1
    rw [List.map_filter]
    congr 1
    exact List.filter_congr (fun m _ => by
      show decide (m + L ≤ b) = decide (m ≤ b - L)
      rw [decide_eq_decide]
      omega)
  rw [hf]
  simp only [List.foldr_cons]
  have hne : M.filter (fun m => decide (m ≤ b - L)) ≠ [] := by
    intro hx
    have h00 : (0 : Nat) ∈ M.filter (fun m => decide (m ≤ b - L)) :=
      List.mem_filter.mpr ⟨h0, by simp⟩
    rw [hx] at h00
    simp at h00
  rw [foldr_max_map_add L _ hne]
  omega

theorem lastMark_shift_lt (M : List Nat) (L b : Nat) (hb : b < L) :
    lastMark (0 :: M.map (· + L)) b = 0 := by
  unfold lastMark
  have hf : (0 :: M.map (· + L)).filter (fun m => decide (m ≤ b)) = [0] := by
    rw [List.filter_cons_of_pos (by simp)]
    have hnil : (M.map (· + L)).filter (fun m => decide (m ≤ b)) = [] := by
      rw [List.filter_eq_nil]
      intro a ha
      obtain ⟨x, _, rfl⟩ := List.mem_map.mp ha
      simp only [decide_eq_true_eq]
      omega
    rw [hnil]
  rw [hf]
  simp

theorem lastMark_singleton_zero (b : Nat) : lastMark [0] b = 0 := by
  unfold lastMark
  rw [List.filter_cons_of_pos (by simp), List.filter_nil]
  simp

theorem lastMark_filter_shift (ms : List Nat) (p g : Nat) (hp : p ∈ ms)
    (hpg : p ≤ g) :
    lastMark ((ms.filter (fun m => decide (p ≤ m))).map (· - p)) (g - p)
      = lastMark ms g - p := by
  unfold lastMark
  rw [List.map_filter]
  have hfc : List.filter ((fun m => decide (m ≤ g - p)) ∘ fun m => m - p)
        (ms.filter (fun m => decide (p ≤ m)))
      = List.filter (fun m => decide (m ≤ g))
        (ms.filter (fun m => decide (p ≤ m))) :=
    List.filter_congr (fun x hx => by
      have hpx : p ≤ x := of_decide_eq_true (List.mem_filter.mp hx).2
      show decide (x - p ≤ g - p) = decide (x ≤ g)
      rw [decide_eq_decide]
      omega)
  rw [hfc]
  have hF1ne : (ms.filter (fun m => decide (p ≤ m))).filter
      (fun m => decide (m ≤ g)) ≠ [] := by
    intro hx
    have hpp : p ∈ (ms.filter (fun m => decide (p ≤ m))).filter
        (fun m => decide (m ≤ g)) :=
      List.mem_filter.mpr ⟨List.mem_filter.mpr ⟨hp, by simp⟩, by simpa using hpg⟩
    rw [hx] at hpp
    simp at hpp
  rw [foldr_max_map_sub p _ hF1ne (fun x hx =>
    of_decide_eq_true (List.mem_filter.mp (List.mem_filter.mp hx).1).2)]
  congr 1
  have hF2ne : ms.filter (fun m => decide (m ≤ g)) ≠ [] := by
    intro hx
    have hpp : p ∈ ms.filter (fun m => decide (m ≤ g)) :=
      List.mem_filter.mpr ⟨hp, by simpa using hpg⟩
    rw [hx] at hpp
    simp at hpp
  have hle1 : ((ms.filter (fun m => decide (p ≤ m))).filter
        (fun m => decide (m ≤ g))).foldr max 0
      ≤ (ms.filter (fun m => decide (m ≤ g))).foldr max 0 := by
    have hm := foldr_max_mem _ hF1ne
    have hm1 := List.mem_filter.mp hm
    have hm2 := List.mem_filter.mp hm1.1
    exact foldr_max_ge _ _ (List.mem_filter.mpr ⟨hm2.1, hm1.2⟩)
  have hle2 : (ms.filter (fun m => decide (m ≤ g))).foldr max 0
      ≤ ((ms.filter (fun m => decide (p ≤ m))).filter
        (fun m => decide (m ≤ g))).foldr max 0 := by
    have hm := foldr_max_mem _ hF2ne
    have hm1 := List.mem_filter.mp hm
    have hpx : p ≤ (ms.filter (fun m => decide (m ≤ g))).foldr max 0 :=
      foldr_max_ge _ p (List.mem_filter.mpr ⟨hp, by simpa using hpg⟩)
    exact foldr_max_ge _ _ (List.mem_filter.mpr
      ⟨List.mem_filter.mpr ⟨hm1.1, by simpa using hpx⟩, hm1.2⟩)
  omega

/-- `t` is a retained tail for state `y`: delivering `t` alone parses
nothing and re-stalls, leaving `y` with `previousBuffer = t`.  The empty
tail satisfies this for every state whose retained buffer is empty. -/
def stalledTail (y : Writer) (t : List Nat) : Prop :=
  loopGo t.length y t
    = { st := { y with currentFile :=
          { y.currentFile with previousBuffer := t } }
        evs := [], marks := [0], wf := true }

/-- The parse loop never reads the incoming `previousBuffer` field: as long
as the data neither is empty nor starts with a keep-alive token, the first
iteration overwrites it (the stall branch stores the remaining data, every
dispatch branch clears it), so the whole run is unchanged. -/
theorem loopGo_prev_irrel (fuel : Nat) (y : Writer) (t d : List Nat)
    (hfu : 1 ≤ fuel) (hne : d ≠ []) (hh : d.take 5 ≠ heloToken) :
    loopGo fuel { y with currentFile :=
        { y.currentFile with previousBuffer := t } } d
      = loopGo fuel y d := by
  cases fuel with
  | zero => omega
  | succ fuel =>
    by_cases hst : d.length < lookupD y.currentFile.payloadSizes (d.headD 0) + 1
    · rw [loopGo_stall fuel y d hne hh hst,
        loopGo_stall fuel { y with currentFile :=
          { y.currentFile with previousBuffer := t } } d hne hh
          (show d.length < lookupD ({ y with currentFile :=
            { y.currentFile with previousBuffer := t } }
            : Writer).currentFile.payloadSizes (d.headD 0) + 1 from hst)]
    by_cases h35 : d.headD 0 = 0x35
    · rw [loopGo_s35 fuel y d hne hh h35 (by rwa [h35] at hst),
        loopGo_s35 fuel { y with currentFile :=
          { y.currentFile with previousBuffer := t } } d hne hh h35
          (show ¬(d.length < lookupD ({ y with currentFile :=
            { y.currentFile with previousBuffer := t } }
            : Writer).currentFile.payloadSizes 0x35 + 1)
            from by rwa [h35] at hst)]
    by_cases h39 : d.headD 0 = 0x39
    · rw [loopGo_s39 fuel y d hne hh h39 (by rwa [h39] at hst),
        loopGo_s39 fuel { y with currentFile :=
          { y.currentFile with previousBuffer := t } } d hne hh h39
          (show ¬(d.length < lookupD ({ y with currentFile :=
            { y.currentFile with previousBuffer := t } }
            : Writer).currentFile.payloadSizes 0x39 + 1)
            from by rwa [h39] at hst)]
    by_cases h36 : d.headD 0 = 0x36
    · rw [loopGo_s36 fuel y d hne hh h36 (by rwa [h36] at hst),
        loopGo_s36 fuel { y with currentFile :=
          { y.currentFile with previousBuffer := t } } d hne hh h36
          (show ¬(d.length < lookupD ({ y with currentFile :=
            { y.currentFile with previousBuffer := t } }
            : Writer).currentFile.payloadSizes 0x36 + 1)
            from by rwa [h36] at hst)]
    · rw [loopGo_sdef fuel y d hne hh h35 h39 h36 hst,
        loopGo_sdef fuel { y with currentFile :=
          { y.currentFile with previousBuffer := t } } d hne hh h35 h39 h36
          (show ¬(d.length < lookupD ({ y with currentFile :=
            { y.currentFile with previousBuffer := t } }
            : Writer).currentFile.payloadSizes (d.headD 0) + 1) from hst)]

theorem notmem_shift (M : List Nat) (L q : Nat)
    (h : q ∉ (0 :: M.map (· + L))) (hLq : L ≤ q) : q - L ∉ M := by
  intro hx
  apply h
  refine List.mem_cons_of_mem _ ?_
  have hq : q - L + L = q := by omega
  rw [← hq]
  exact List.mem_map_of_mem _ hx

/-- A delivery cut short inside a frame (fewer than `payloadSize + 1` bytes
from the frame's start) parses nothing and stalls, retaining the bytes. -/
theorem prefix_stall_pack (fuel : Nat) (s : Writer) (d : List Nat) (q : Nat)
    (hq1 : 1 ≤ q) (hql : q ≤ d.length)
    (hh : d.take 5 ≠ heloToken)
    (hstq : q < lookupD s.currentFile.payloadSizes (d.headD 0) + 1) :
    loopGo (fuel + 1) s (d.take q)
      = { st := { s with currentFile :=
            { s.currentFile with previousBuffer := d.take q } },
          evs := [], marks := [0], wf := true } ∧
    stalledTail s (d.take q) := by
  have htne : d.take q ≠ [] := by
    intro hx
    have hlq := congrArg List.length hx
    simp only [List.length_take, List.length_nil] at hlq
    omega
  have hth := take5_take_ne d q hh hql
  have hstq' : (d.take q).length
      < lookupD s.currentFile.payloadSizes ((d.take q).headD 0) + 1 := by
    rw [headD_take d q 0 (by omega), List.length_take]
    omega
  constructor
  · rw [loopGo_stall fuel s (d.take q) htne hth hstq']
  · unfold stalledTail
    have hlen : (d.take q).length = q := by
      rw [List.length_take]
      omega
    rw [hlen]
    obtain ⟨q', rfl⟩ : ∃ q', q = q' + 1 := ⟨q - 1, by omega⟩
    rw [loopGo_stall q' s (d.take (q' + 1)) htne hth hstq']

/-- Cutting a well-formed single-delivery run strictly inside a step — the
cut `q` not on a step boundary, and the step it interrupts (starting at the
last mark before `q`) being neither a keep-alive skip nor a handshake
frame — yields a prefix run that emits exactly the frames of the run
truncated at that last mark and then stalls, retaining the partial step's
bytes; the retained bytes re-stall from the mark state. -/
theorem loopGo_split_stall : ∀ (fuel : Nat) (s : Writer) (d : List Nat) (q : Nat),
    d.length ≤ fuel →
    s.currentFile.previousBuffer = [] →
    q ≤ d.length →
    (loopGo fuel s d).wf = true →
    q ∉ (loopGo fuel s d).marks →
    (d.drop (lastMark (loopGo fuel s d).marks q)).take 5 ≠ heloToken →
    (d.drop (lastMark (loopGo fuel s d).marks q)).headD 0 ≠ 0x35 →
    (loopGo fuel s (d.take q)).evs
        = (loopGo fuel s (d.take (lastMark (loopGo fuel s d).marks q))).evs ∧
    (loopGo fuel s (d.take q)).st
      = { (loopGo fuel s (d.take (lastMark (loopGo fuel s d).marks q))).st with
          currentFile :=
            { (loopGo fuel s
                (d.take (lastMark (loopGo fuel s d).marks q))).st.currentFile with
              previousBuffer :=
                (d.drop (lastMark (loopGo fuel s d).marks q)).take
                  (q - lastMark (loopGo fuel s d).marks q) } } ∧
    stalledTail (loopGo fuel s (d.take (lastMark (loopGo fuel s d).marks q))).st
      ((d.drop (lastMark (loopGo fuel s d).marks q)).take
        (q - lastMark (loopGo fuel s d).marks q)) := by
  intro fuel
  induction fuel with
  | zero =>
    intro s d q hf hprev hql hwf hqm hs5 hs35
    have hd : d = [] := List.eq_nil_of_length_eq_zero (by omega)
    subst hd
    simp only [List.length_nil, Nat.le_zero] at hql
    subst hql
    exact absurd (loopGo_marks_zero 0 s []) hqm
  | succ fuel ih =>
    intro s d q hf hprev hql hwf hqm hs5 hs35
    by_cases hq0 : q = 0
    · subst hq0
      exact absurd (loopGo_marks_zero (fuel + 1) s d) hqm
    have hne : d ≠ [] := by
      intro hx
      subst hx
      simp only [List.length_nil, Nat.le_zero] at hql
      exact hq0 hql
    by_cases hh : d.take 5 = heloToken
    · -- keep-alive front step
      have h5 := length_ge5_of_helo d hh
      have hmarks : (loopGo (fuel + 1) s d).marks
          = 0 :: (loopGo fuel s (d.drop 5)).marks.map (· + 5) := by
        rw [loopGo_helo fuel s d hne hh]
      by_cases hq5 : q < 5
      · -- cut strictly inside the token: excluded by the safety hypothesis
        have hm0 : lastMark (loopGo (fuel + 1) s d).marks q = 0 := by
          rw [hmarks]
          exact lastMark_shift_lt _ 5 q hq5
        rw [hm0, List.drop_zero] at hs5
        exact absurd hh hs5
      · push_neg at hq5
        have hm : lastMark (loopGo (fuel + 1) s d).marks q
            = 5 + lastMark (loopGo fuel s (d.drop 5)).marks (q - 5) := by
          rw [hmarks]
          exact lastMark_shift_ge _ 5 q (loopGo_marks_zero _ _ _) hq5
        rw [hm] at hs5 hs35 ⊢
        rw [← List.drop_drop] at hs5 hs35
        rw [hmarks] at hqm
        have hqm' := notmem_shift _ 5 q hqm hq5
        have hwfr : (loopGo fuel s (d.drop 5)).wf = true := by
          have h := hwf
          rw [loopGo_helo fuel s d hne hh] at h
          simp only [] at h
          exact h
        have hMle := lastMark_le (loopGo fuel s (d.drop 5)).marks (q - 5)
        obtain ⟨IH1, IH2, IH3⟩ := ih s (d.drop 5) (q - 5)
          (by simp; omega) hprev (by simp; omega) hwfr hqm' hs5 hs35
        generalize hM : lastMark (loopGo fuel s (d.drop 5)).marks (q - 5) = M
          at IH1 IH2 IH3 hMle ⊢
        -- prefix run at cut q
        have htne : d.take q ≠ [] := by
          intro hx
          have hlq := congrArg List.length hx
          simp only [List.length_take, List.length_nil] at hlq
          omega
        rw [loopGo_helo fuel s (d.take q) htne
          (by rw [List.take_take, Nat.min_eq_left hq5]; exact hh)]
        simp only []
        rw [List.drop_take q 5 d]
        -- prefix run at the mark 5 + M
        have htnem : d.take (5 + M) ≠ [] := by
          intro hx
          have hlq := congrArg List.length hx
          simp only [List.length_take, List.length_nil] at hlq
          omega
        rw [loopGo_helo fuel s (d.take (5 + M)) htnem
          (by rw [List.take_take, Nat.min_eq_left (by omega)]; exact hh)]
        simp only []
        rw [List.drop_take (5 + M) 5 d]
        rw [show 5 + M - 5 = M from by omega]
        have hXY : (d.drop (5 + M)).take (q - (5 + M))
            = ((d.drop 5).drop M).take (q - 5 - M) := by
          rw [List.drop_drop]
          congr 1
          omega
        rw [hXY]
        exact ⟨IH1, IH2, IH3⟩
    by_cases hst : d.length < lookupD s.currentFile.payloadSizes (d.headD 0) + 1
    · -- the whole run stalls at its very first step
      have hmarks : (loopGo (fuel + 1) s d).marks = [0] := by
        rw [loopGo_stall fuel s d hne hh hst]
      have hm0 : lastMark (loopGo (fuel + 1) s d).marks q = 0 := by
        rw [hmarks]
        exact lastMark_singleton_zero q
      rw [hm0]
      simp only [List.drop_zero, Nat.sub_zero]
      rw [List.take_zero, loopGo_nil]
      obtain ⟨hA, hT⟩ := prefix_stall_pack fuel s d q (by omega) hql hh
        (by omega)
      rw [hA]
      exact ⟨rfl, rfl, hT⟩
    by_cases h35 : d.headD 0 = 0x35
    · -- handshake front step
      have hstx : ¬ (d.length < lookupD s.currentFile.payloadSizes 0x35 + 1) := by
        rwa [h35] at hst
      have hmarks : (loopGo (fuel + 1) s d).marks
          = 0 :: (loopGo fuel
              { writeCommand (processReceiveCommands (initializeNewGame
                  { s with currentFile :=
                    { s.currentFile with previousBuffer := [] } })
                  (d.drop 1)).2 0x35 (d.drop 1)
                  (processReceiveCommands (initializeNewGame
                  { s with currentFile :=
                    { s.currentFile with previousBuffer := [] } })
                  (d.drop 1)).1 with
                notifies := (writeCommand (processReceiveCommands
                  (initializeNewGame { s with currentFile :=
                    { s.currentFile with previousBuffer := [] } })
                  (d.drop 1)).2 0x35 (d.drop 1)
                  (processReceiveCommands (initializeNewGame
                  { s with currentFile :=
                    { s.currentFile with previousBuffer := [] } })
                  (d.drop 1)).1).notifies + 1 }
              (d.drop (1 + (processReceiveCommands (initializeNewGame
                { s with currentFile :=
                  { s.currentFile with previousBuffer := [] } })
                (d.drop 1)).1))).marks.map
            (· + (1 + (processReceiveCommands (initializeNewGame
              { s with currentFile :=
                { s.currentFile with previousBuffer := [] } })
              (d.drop 1)).1)) := by
        rw [loopGo_s35 fuel s d hne hh h35 hstx]
      have hwfx := hwf
      rw [loopGo_s35 fuel s d hne hh h35 hstx] at hwfx
      simp only [] at hwfx
      rw [Bool.and_eq_true] at hwfx
      obtain ⟨hsw, hwfr⟩ := hwfx
      generalize hP : processReceiveCommands (initializeNewGame
        { s with currentFile := { s.currentFile with previousBuffer := [] } })
        (d.drop 1) = P at hmarks hwfr hsw
      obtain ⟨h3, hle⟩ := of_decide_eq_true hsw
      have hP1 : P.1 = (d.drop 1).getD 0 0 := by rw [← hP]; rfl
      have h3' : (d.drop 1).getD 0 0 % 3 = 1 := by rw [← hP1]; exact h3
      by_cases hqL : q < 1 + P.1
      · -- cut strictly inside the handshake frame: excluded by safety
        have hm0 : lastMark (loopGo (fuel + 1) s d).marks q = 0 := by
          rw [hmarks]
          exact lastMark_shift_lt _ _ q hqL
        rw [hm0, List.drop_zero] at hs35
        exact absurd h35 hs35
      · push_neg at hqL
        have hm : lastMark (loopGo (fuel + 1) s d).marks q
            = (1 + P.1) + lastMark (loopGo fuel
                { writeCommand P.2 0x35 (d.drop 1) P.1 with
                  notifies := (writeCommand P.2 0x35 (d.drop 1) P.1).notifies
                    + 1 } (d.drop (1 + P.1))).marks (q - (1 + P.1)) := by
          rw [hmarks]
          exact lastMark_shift_ge _ _ q (loopGo_marks_zero _ _ _) hqL
        rw [hm] at hs5 hs35 ⊢
        rw [← List.drop_drop] at hs5 hs35
        rw [hmarks] at hqm
        have hqm' := notmem_shift _ (1 + P.1) q hqm hqL
        have hprev3 : ({ writeCommand P.2 0x35 (d.drop 1) P.1 with
            notifies := (writeCommand P.2 0x35 (d.drop 1) P.1).notifies + 1 }
            : Writer).currentFile.previousBuffer = [] := by
          rw [← hP]
          simp
        have hMle := lastMark_le (loopGo fuel
          { writeCommand P.2 0x35 (d.drop 1) P.1 with
            notifies := (writeCommand P.2 0x35 (d.drop 1) P.1).notifies + 1 }
          (d.drop (1 + P.1))).marks (q - (1 + P.1))
        obtain ⟨IH1, IH2, IH3⟩ := ih _ (d.drop (1 + P.1)) (q - (1 + P.1))
          (by simp; omega) hprev3 (by simp; omega) hwfr hqm' hs5 hs35
        generalize hM : lastMark (loopGo fuel
          { writeCommand P.2 0x35 (d.drop 1) P.1 with
            notifies := (writeCommand P.2 0x35 (d.drop 1) P.1).notifies + 1 }
          (d.drop (1 + P.1))).marks (q - (1 + P.1)) = M
          at IH1 IH2 IH3 hMle ⊢
        -- front-step processing of the prefix at cut q
        have htne : d.take q ≠ [] := by
          intro hx
          have hlq := congrArg List.length hx
          simp only [List.length_take, List.length_nil] at hlq
          omega
        have hth := take5_take_ne d q hh hql
        have hthead : (d.take q).headD 0 = 0x35 := by
          rw [headD_take d q 0 (by omega)]
          exact h35
        have htst : ¬ ((d.take q).length
            < lookupD s.currentFile.payloadSizes 0x35 + 1) := by
          simp only [List.length_take]
          omega
        rw [loopGo_s35 fuel s (d.take q) htne hth hthead htst]
        simp only []
        rw [List.drop_take q 1 d]
        have hprc : processReceiveCommands (initializeNewGame
            { s with currentFile := { s.currentFile with previousBuffer := [] } })
            ((d.drop 1).take (q - 1)) = P := by
          rw [← hP]
          unfold processReceiveCommands
          simp only []
          rw [getD_take (d.drop 1) 0 (q - 1) 0 (by omega)]
          rw [rcBuild_take _ (d.drop 1) ((d.drop 1).getD 0 0) (q - 1)
            (by omega) h3']
        rw [hprc]
        have hle' : P.1 ≤ q - 1 := by omega
        have htt : ((d.drop 1).take (q - 1)).take P.1 = (d.drop 1).take P.1 := by
          rw [List.take_take, Nat.min_eq_left hle']
        rw [htt]
        have hwc : writeCommand P.2 0x35 ((d.drop 1).take (q - 1)) P.1
            = writeCommand P.2 0x35 (d.drop 1) P.1 := by
          unfold writeCommand
          split_ifs with ho
          · rw [htt]
          · rfl
        rw [hwc]
        rw [List.drop_take q (1 + P.1) d]
        -- front-step processing of the prefix at the mark (1 + P.1) + M
        have htnem : d.take ((1 + P.1) + M) ≠ [] := by
          intro hx
          have hlq := congrArg List.length hx
          simp only [List.length_take, List.length_nil] at hlq
          omega
        have hthm := take5_take_ne d ((1 + P.1) + M) hh (by omega)
        have htheadm : (d.take ((1 + P.1) + M)).headD 0 = 0x35 := by
          rw [headD_take d ((1 + P.1) + M) 0 (by omega)]
          exact h35
        have htstm : ¬ ((d.take ((1 + P.1) + M)).length
            < lookupD s.currentFile.payloadSizes 0x35 + 1) := by
          simp only [List.length_take]
          omega
        rw [loopGo_s35 fuel s (d.take ((1 + P.1) + M)) htnem hthm htheadm htstm]
        simp only []
        rw [List.drop_take ((1 + P.1) + M) 1 d]
        have hprcme : processReceiveCommands (initializeNewGame
            { s with currentFile := { s.currentFile with previousBuffer := [] } })
            ((d.drop 1).take ((1 + P.1) + M - 1))
            = processReceiveCommands (initializeNewGame
              { s with currentFile := { s.currentFile with previousBuffer := [] } })
              (d.drop 1) := by
          unfold processReceiveCommands
          simp only []
          rw [getD_take (d.drop 1) 0 ((1 + P.1) + M - 1) 0 (by omega)]
          rw [rcBuild_take _ (d.drop 1) ((d.drop 1).getD 0 0)
            ((1 + P.1) + M - 1) (by omega) h3']
        have hprcm : processReceiveCommands (initializeNewGame
            { s with currentFile := { s.currentFile with previousBuffer := [] } })
            ((d.drop 1).take ((1 + P.1) + M - 1)) = P := by
          rw [hprcme, hP]
        rw [hprcm]
        have hlem : P.1 ≤ (1 + P.1) + M - 1 := by omega
        have httm : ((d.drop 1).take ((1 + P.1) + M - 1)).take P.1
            = (d.drop 1).take P.1 := by
          rw [List.take_take, Nat.min_eq_left hlem]
        rw [httm]
        have hwcm : writeCommand P.2 0x35 ((d.drop 1).take ((1 + P.1) + M - 1)) P.1
            = writeCommand P.2 0x35 (d.drop 1) P.1 := by
          unfold writeCommand
          split_ifs with ho
          · rw [httm]
          · rfl
        rw [hwcm]
        rw [List.drop_take ((1 + P.1) + M) (1 + P.1) d]
        rw [show (1 + P.1) + M - (1 + P.1) = M from by omega]
        have hXY : (d.drop ((1 + P.1) + M)).take (q - ((1 + P.1) + M))
            = ((d.drop (1 + P.1)).drop M).take (q - (1 + P.1) - M) := by
          rw [List.drop_drop]
          congr 1
          omega
        rw [hXY]
        refine ⟨?_, IH2, IH3⟩
        rw [IH1]
    by_cases h39 : d.headD 0 = 0x39
    · -- game-end front step
      have hstx : ¬ (d.length < lookupD s.currentFile.payloadSizes 0x39 + 1) := by
        rwa [h39] at hst
      have hmarks : (loopGo (fuel + 1) s d).marks
          = 0 :: (loopGo fuel (endGame (writeCommand (processCommand
              { s with currentFile :=
                { s.currentFile with previousBuffer := [] } } 0x39
              (d.drop 1)).2 0x39 (d.drop 1) (processCommand
              { s with currentFile :=
                { s.currentFile with previousBuffer := [] } } 0x39
              (d.drop 1)).1))
              (d.drop (1 + (processCommand { s with currentFile :=
                { s.currentFile with previousBuffer := [] } } 0x39
                (d.drop 1)).1))).marks.map
            (· + (1 + (processCommand { s with currentFile :=
              { s.currentFile with previousBuffer := [] } } 0x39
              (d.drop 1)).1)) := by
        rw [loopGo_s39 fuel s d hne hh h39 hstx]
      have hwfx := hwf
      rw [loopGo_s39 fuel s d hne hh h39 hstx] at hwfx
      simp only [] at hwfx
      generalize hP : processCommand
        { s with currentFile := { s.currentFile with previousBuffer := [] } }
        0x39 (d.drop 1) = P at hmarks hwfx
      have hP1 : P.1 = lookupD s.currentFile.payloadSizes 0x39 := by
        rw [← hP, processCommand_fst]
      by_cases hqL : q < 1 + P.1
      · -- cut inside the frame: the prefix stalls, retaining the bytes
        have hm0 : lastMark (loopGo (fuel + 1) s d).marks q = 0 := by
          rw [hmarks]
          exact lastMark_shift_lt _ _ q hqL
        rw [hm0]
        simp only [List.drop_zero, Nat.sub_zero]
        rw [List.take_zero, loopGo_nil]
        obtain ⟨hA, hT⟩ := prefix_stall_pack fuel s d q (by omega) hql hh
          (by rw [h39]; omega)
        rw [hA]
        exact ⟨rfl, rfl, hT⟩
      · push_neg at hqL
        have hm : lastMark (loopGo (fuel + 1) s d).marks q
            = (1 + P.1) + lastMark (loopGo fuel
                (endGame (writeCommand P.2 0x39 (d.drop 1) P.1))
                (d.drop (1 + P.1))).marks (q - (1 + P.1)) := by
          rw [hmarks]
          exact lastMark_shift_ge _ _ q (loopGo_marks_zero _ _ _) hqL
        rw [hm] at hs5 hs35 ⊢
        rw [← List.drop_drop] at hs5 hs35
        rw [hmarks] at hqm
        have hqm' := notmem_shift _ (1 + P.1) q hqm hqL
        have hprev3 :
            (endGame (writeCommand P.2 0x39 (d.drop 1) P.1)).currentFile.previousBuffer
              = [] := by
          rw [endGame_currentFile]
          rfl
        have hMle := lastMark_le (loopGo fuel
          (endGame (writeCommand P.2 0x39 (d.drop 1) P.1))
          (d.drop (1 + P.1))).marks (q - (1 + P.1))
        obtain ⟨IH1, IH2, IH3⟩ := ih _ (d.drop (1 + P.1)) (q - (1 + P.1))
          (by simp; omega) hprev3 (by simp; omega) hwfx hqm' hs5 hs35
        generalize hM : lastMark (loopGo fuel
          (endGame (writeCommand P.2 0x39 (d.drop 1) P.1))
          (d.drop (1 + P.1))).marks (q - (1 + P.1)) = M
          at IH1 IH2 IH3 hMle ⊢
        have htne : d.take q ≠ [] := by
          intro hx
          have hlq := congrArg List.length hx
          simp only [List.length_take, List.length_nil] at hlq
          omega
        have hth := take5_take_ne d q hh hql
        have hthead : (d.take q).headD 0 = 0x39 := by
          rw [headD_take d q 0 (by omega)]
          exact h39
        have htst : ¬ ((d.take q).length
            < lookupD s.currentFile.payloadSizes 0x39 + 1) := by
          simp only [List.length_take]
          omega
        rw [loopGo_s39 fuel s (d.take q) htne hth hthead htst]
        simp only []
        rw [List.drop_take q 1 d]
        have hps0 : lookupD ({ s with currentFile :=
            { s.currentFile with previousBuffer := [] } }
            : Writer).currentFile.payloadSizes 0x39
            = lookupD s.currentFile.payloadSizes 0x39 := rfl
        have hm' : lookupD ({ s with currentFile :=
            { s.currentFile with previousBuffer := [] } }
            : Writer).currentFile.payloadSizes 0x39 ≤ q - 1 := by
          rw [hps0]
          omega
        have hpc : processCommand
            { s with currentFile := { s.currentFile with previousBuffer := [] } }
            0x39 ((d.drop 1).take (q - 1)) = P := by
          rw [← hP]
          exact processCommand_take _ 0x39 (d.drop 1) (q - 1) hm'
            (fun hx => absurd hx (by decide))
        rw [hpc]
        have hle' : P.1 ≤ q - 1 := by omega
        have htt : ((d.drop 1).take (q - 1)).take P.1 = (d.drop 1).take P.1 := by
          rw [List.take_take, Nat.min_eq_left hle']
        rw [htt]
        have hwc : writeCommand P.2 0x39 ((d.drop 1).take (q - 1)) P.1
            = writeCommand P.2 0x39 (d.drop 1) P.1 := by
          unfold writeCommand
          split_ifs with ho
          · rw [htt]
          · rfl
        rw [hwc]
        rw [List.drop_take q (1 + P.1) d]
        have htnem : d.take ((1 + P.1) + M) ≠ [] := by
          intro hx
          have hlq := congrArg List.length hx
          simp only [List.length_take, List.length_nil] at hlq
          omega
        have hthm := take5_take_ne d ((1 + P.1) + M) hh (by omega)
        have htheadm : (d.take ((1 + P.1) + M)).headD 0 = 0x39 := by
          rw [headD_take d ((1 + P.1) + M) 0 (by omega)]
          exact h39
        have htstm : ¬ ((d.take ((1 + P.1) + M)).length
            < lookupD s.currentFile.payloadSizes 0x39 + 1) := by
          simp only [List.length_take]
          omega
        rw [loopGo_s39 fuel s (d.take ((1 + P.1) + M)) htnem hthm htheadm htstm]
        simp only []
        rw [List.drop_take ((1 + P.1) + M) 1 d]
        have hmm' : lookupD ({ s with currentFile :=
            { s.currentFile with previousBuffer := [] } }
            : Writer).currentFile.payloadSizes 0x39 ≤ (1 + P.1) + M - 1 := by
          rw [hps0]
          omega
        have hpcm : processCommand
            { s with currentFile := { s.currentFile with previousBuffer := [] } }
            0x39 ((d.drop 1).take ((1 + P.1) + M - 1)) = P := by
          rw [processCommand_take _ 0x39 (d.drop 1) ((1 + P.1) + M - 1) hmm'
            (fun hx => absurd hx (by decide)), hP]
        rw [hpcm]
        have hlem : P.1 ≤ (1 + P.1) + M - 1 := by omega
        have httm : ((d.drop 1).take ((1 + P.1) + M - 1)).take P.1
            = (d.drop 1).take P.1 := by
          rw [List.take_take, Nat.min_eq_left hlem]
        rw [httm]
        have hwcm : writeCommand P.2 0x39 ((d.drop 1).take ((1 + P.1) + M - 1)) P.1
            = writeCommand P.2 0x39 (d.drop 1) P.1 := by
          unfold writeCommand
          split_ifs with ho
          · rw [httm]
          · rfl
        rw [hwcm]
        rw [List.drop_take ((1 + P.1) + M) (1 + P.1) d]
        rw [show (1 + P.1) + M - (1 + P.1) = M from by omega]
        have hXY : (d.drop ((1 + P.1) + M)).take (q - ((1 + P.1) + M))
            = ((d.drop (1 + P.1)).drop M).take (q - (1 + P.1) - M) := by
          rw [List.drop_drop]
          congr 1
          omega
        rw [hXY]
        refine ⟨?_, IH2, IH3⟩
        rw [IH1]
    by_cases h36 : d.headD 0 = 0x36
    · -- game-start front step
      have hstx : ¬ (d.length < lookupD s.currentFile.payloadSizes 0x36 + 1) := by
        rwa [h36] at hst
      have hmarks : (loopGo (fuel + 1) s d).marks
          = 0 :: (loopGo fuel (writeCommand (processCommand
              { s with currentFile :=
                { s.currentFile with previousBuffer := [] } } 0x36
              (d.drop 1)).2 0x36 (d.drop 1) (processCommand
              { s with currentFile :=
                { s.currentFile with previousBuffer := [] } } 0x36
              (d.drop 1)).1)
              (d.drop (1 + (processCommand { s with currentFile :=
                { s.currentFile with previousBuffer := [] } } 0x36
                (d.drop 1)).1))).marks.map
            (· + (1 + (processCommand { s with currentFile :=
              { s.currentFile with previousBuffer := [] } } 0x36
              (d.drop 1)).1)) := by
        rw [loopGo_s36 fuel s d hne hh h36 hstx]
      have hwfx := hwf
      rw [loopGo_s36 fuel s d hne hh h36 hstx] at hwfx
      simp only [] at hwfx
      generalize hP : processCommand
        { s with currentFile := { s.currentFile with previousBuffer := [] } }
        0x36 (d.drop 1) = P at hmarks hwfx
      have hP1 : P.1 = lookupD s.currentFile.payloadSizes 0x36 := by
        rw [← hP, processCommand_fst]
      by_cases hqL : q < 1 + P.1
      · have hm0 : lastMark (loopGo (fuel + 1) s d).marks q = 0 := by
          rw [hmarks]
          exact lastMark_shift_lt _ _ q hqL
        rw [hm0]
        simp only [List.drop_zero, Nat.sub_zero]
        rw [List.take_zero, loopGo_nil]
        obtain ⟨hA, hT⟩ := prefix_stall_pack fuel s d q (by omega) hql hh
          (by rw [h36]; omega)
        rw [hA]
        exact ⟨rfl, rfl, hT⟩
      · push_neg at hqL
        have hm : lastMark (loopGo (fuel + 1) s d).marks q
            = (1 + P.1) + lastMark (loopGo fuel
                (writeCommand P.2 0x36 (d.drop 1) P.1)
                (d.drop (1 + P.1))).marks (q - (1 + P.1)) := by
          rw [hmarks]
          exact lastMark_shift_ge _ _ q (loopGo_marks_zero _ _ _) hqL
        rw [hm] at hs5 hs35 ⊢
        rw [← List.drop_drop] at hs5 hs35
        rw [hmarks] at hqm
        have hqm' := notmem_shift _ (1 + P.1) q hqm hqL
        have hprev3 :
            (writeCommand P.2 0x36 (d.drop 1) P.1).currentFile.previousBuffer
              = [] := by
          rw [← hP]
          simp
        have hMle := lastMark_le (loopGo fuel
          (writeCommand P.2 0x36 (d.drop 1) P.1)
          (d.drop (1 + P.1))).marks (q - (1 + P.1))
        obtain ⟨IH1, IH2, IH3⟩ := ih _ (d.drop (1 + P.1)) (q - (1 + P.1))
          (by simp; omega) hprev3 (by simp; omega) hwfx hqm' hs5 hs35
        generalize hM : lastMark (loopGo fuel
          (writeCommand P.2 0x36 (d.drop 1) P.1)
          (d.drop (1 + P.1))).marks (q - (1 + P.1)) = M
          at IH1 IH2 IH3 hMle ⊢
        have htne : d.take q ≠ [] := by
          intro hx
          have hlq := congrArg List.length hx
          simp only [List.length_take, List.length_nil] at hlq
          omega
        have hth := take5_take_ne d q hh hql
        have hthead : (d.take q).headD 0 = 0x36 := by
          rw [headD_take d q 0 (by omega)]
          exact h36
        have htst : ¬ ((d.take q).length
            < lookupD s.currentFile.payloadSizes 0x36 + 1) := by
          simp only [List.length_take]
          omega
        rw [loopGo_s36 fuel s (d.take q) htne hth hthead htst]
        simp only []
        rw [List.drop_take q 1 d]
        have hps0 : lookupD ({ s with currentFile :=
            { s.currentFile with previousBuffer := [] } }
            : Writer).currentFile.payloadSizes 0x36
            = lookupD s.currentFile.payloadSizes 0x36 := rfl
        have hm' : lookupD ({ s with currentFile :=
            { s.currentFile with previousBuffer := [] } }
            : Writer).currentFile.payloadSizes 0x36 ≤ q - 1 := by
          rw [hps0]
          omega
        have hpc : processCommand
            { s with currentFile := { s.currentFile with previousBuffer := [] } }
            0x36 ((d.drop 1).take (q - 1)) = P := by
          rw [← hP]
          exact processCommand_take _ 0x36 (d.drop 1) (q - 1) hm'
            (fun hx => absurd hx (by decide))
        rw [hpc]
        have hle' : P.1 ≤ q - 1 := by omega
        have htt : ((d.drop 1).take (q - 1)).take P.1 = (d.drop 1).take P.1 := by
          rw [List.take_take, Nat.min_eq_left hle']
        rw [htt]
        have hwc : writeCommand P.2 0x36 ((d.drop 1).take (q - 1)) P.1
            = writeCommand P.2 0x36 (d.drop 1) P.1 := by
          unfold writeCommand
          split_ifs with ho
          · rw [htt]
          · rfl
        rw [hwc]
        rw [List.drop_take q (1 + P.1) d]
        have htnem : d.take ((1 + P.1) + M) ≠ [] := by
          intro hx
          have hlq := congrArg List.length hx
          simp only [List.length_take, List.length_nil] at hlq
          omega
        have hthm := take5_take_ne d ((1 + P.1) + M) hh (by omega)
        have htheadm : (d.take ((1 + P.1) + M)).headD 0 = 0x36 := by
          rw [headD_take d ((1 + P.1) + M) 0 (by omega)]
          exact h36
        have htstm : ¬ ((d.take ((1 + P.1) + M)).length
            < lookupD s.currentFile.payloadSizes 0x36 + 1) := by
          simp only [List.length_take]
          omega
        rw [loopGo_s36 fuel s (d.take ((1 + P.1) + M)) htnem hthm htheadm htstm]
        simp only []
        rw [List.drop_take ((1 + P.1) + M) 1 d]
        have hmm' : lookupD ({ s with currentFile :=
            { s.currentFile with previousBuffer := [] } }
            : Writer).currentFile.payloadSizes 0x36 ≤ (1 + P.1) + M - 1 := by
          rw [hps0]
          omega
        have hpcm : processCommand
            { s with currentFile := { s.currentFile with previousBuffer := [] } }
            0x36 ((d.drop 1).take ((1 + P.1) + M - 1)) = P := by
          rw [processCommand_take _ 0x36 (d.drop 1) ((1 + P.1) + M - 1) hmm'
            (fun hx => absurd hx (by decide)), hP]
        rw [hpcm]
        have hlem : P.1 ≤ (1 + P.1) + M - 1 := by omega
        have httm : ((d.drop 1).take ((1 + P.1) + M - 1)).take P.1
            = (d.drop 1).take P.1 := by
          rw [List.take_take, Nat.min_eq_left hlem]
        rw [httm]
        have hwcm : writeCommand P.2 0x36 ((d.drop 1).take ((1 + P.1) + M - 1)) P.1
            = writeCommand P.2 0x36 (d.drop 1) P.1 := by
          unfold writeCommand
          split_ifs with ho
          · rw [httm]
          · rfl
        rw [hwcm]
        rw [List.drop_take ((1 + P.1) + M) (1 + P.1) d]
        rw [show (1 + P.1) + M - (1 + P.1) = M from by omega]
        have hXY : (d.drop ((1 + P.1) + M)).take (q - ((1 + P.1) + M))
            = ((d.drop (1 + P.1)).drop M).take (q - (1 + P.1) - M) := by
          rw [List.drop_drop]
          congr 1
          omega
        rw [hXY]
        refine ⟨?_, IH2, IH3⟩
        rw [IH1]
    · -- generic-command front step
      have hmarks : (loopGo (fuel + 1) s d).marks
          = 0 :: (loopGo fuel (handleStatusOutput (writeCommand (processCommand
              { s with currentFile :=
                { s.currentFile with previousBuffer := [] } } (d.headD 0)
              (d.drop 1)).2 (d.headD 0) (d.drop 1) (processCommand
              { s with currentFile :=
                { s.currentFile with previousBuffer := [] } } (d.headD 0)
              (d.drop 1)).1) 200)
              (d.drop (1 + (processCommand { s with currentFile :=
                { s.currentFile with previousBuffer := [] } } (d.headD 0)
                (d.drop 1)).1))).marks.map
            (· + (1 + (processCommand { s with currentFile :=
              { s.currentFile with previousBuffer := [] } } (d.headD 0)
              (d.drop 1)).1)) := by
        rw [loopGo_sdef fuel s d hne hh h35 h39 h36 hst]
      have hwfx := hwf
      rw [loopGo_sdef fuel s d hne hh h35 h39 h36 hst] at hwfx
      simp only [] at hwfx
      rw [Bool.and_eq_true] at hwfx
      obtain ⟨hsw, hwfr⟩ := hwfx
      generalize hP : processCommand
        { s with currentFile := { s.currentFile with previousBuffer := [] } }
        (d.headD 0) (d.drop 1) = P at hmarks hwfr
      have hP1 : P.1 = lookupD s.currentFile.payloadSizes (d.headD 0) := by
        rw [← hP, processCommand_fst]
      by_cases hqL : q < 1 + P.1
      · have hm0 : lastMark (loopGo (fuel + 1) s d).marks q = 0 := by
          rw [hmarks]
          exact lastMark_shift_lt _ _ q hqL
        rw [hm0]
        simp only [List.drop_zero, Nat.sub_zero]
        rw [List.take_zero, loopGo_nil]
        obtain ⟨hA, hT⟩ := prefix_stall_pack fuel s d q (by omega) hql hh
          (by omega)
        rw [hA]
        exact ⟨rfl, rfl, hT⟩
      · push_neg at hqL
        have hm : lastMark (loopGo (fuel + 1) s d).marks q
            = (1 + P.1) + lastMark (loopGo fuel
                (handleStatusOutput (writeCommand P.2 (d.headD 0) (d.drop 1) P.1)
                  200)
                (d.drop (1 + P.1))).marks (q - (1 + P.1)) := by
          rw [hmarks]
          exact lastMark_shift_ge _ _ q (loopGo_marks_zero _ _ _) hqL
        rw [hm] at hs5 hs35 ⊢
        rw [← List.drop_drop] at hs5 hs35
        rw [hmarks] at hqm
        have hqm' := notmem_shift _ (1 + P.1) q hqm hqL
        have hprev3 :
            (handleStatusOutput (writeCommand P.2 (d.headD 0) (d.drop 1) P.1)
              200).currentFile.previousBuffer = [] := by
          rw [← hP]
          simp
        have hMle := lastMark_le (loopGo fuel
          (handleStatusOutput (writeCommand P.2 (d.headD 0) (d.drop 1) P.1) 200)
          (d.drop (1 + P.1))).marks (q - (1 + P.1))
        obtain ⟨IH1, IH2, IH3⟩ := ih _ (d.drop (1 + P.1)) (q - (1 + P.1))
          (by simp; omega) hprev3 (by simp; omega) hwfr hqm' hs5 hs35
        generalize hM : lastMark (loopGo fuel
          (handleStatusOutput (writeCommand P.2 (d.headD 0) (d.drop 1) P.1) 200)
          (d.drop (1 + P.1))).marks (q - (1 + P.1)) = M
          at IH1 IH2 IH3 hMle ⊢
        have htne : d.take q ≠ [] := by
          intro hx
          have hlq := congrArg List.length hx
          simp only [List.length_take, List.length_nil] at hlq
          omega
        have hth := take5_take_ne d q hh hql
        have hthead : (d.take q).headD 0 = d.headD 0 :=
          headD_take d q 0 (by omega)
        have h35' : (d.take q).headD 0 ≠ 0x35 := by rw [hthead]; exact h35
        have h39' : (d.take q).headD 0 ≠ 0x39 := by rw [hthead]; exact h39
        have h36' : (d.take q).headD 0 ≠ 0x36 := by rw [hthead]; exact h36
        have htst : ¬ ((d.take q).length
            < lookupD s.currentFile.payloadSizes ((d.take q).headD 0) + 1) := by
          rw [hthead]
          simp only [List.length_take]
          omega
        rw [loopGo_sdef fuel s (d.take q) htne hth h35' h39' h36' htst]
        simp only []
        rw [hthead]
        rw [List.drop_take q 1 d]
        have hps0 : lookupD ({ s with currentFile :=
            { s.currentFile with previousBuffer := [] } }
            : Writer).currentFile.payloadSizes (d.headD 0)
            = lookupD s.currentFile.payloadSizes (d.headD 0) := rfl
        have hm' : lookupD ({ s with currentFile :=
            { s.currentFile with previousBuffer := [] } }
            : Writer).currentFile.payloadSizes (d.headD 0) ≤ q - 1 := by
          rw [hps0]
          omega
        have h38' : d.headD 0 = 0x38 → lookupD ({ s with currentFile :=
            { s.currentFile with previousBuffer := [] } }
            : Writer).currentFile.payloadSizes (d.headD 0) = 0 ∨
            7 ≤ lookupD ({ s with currentFile :=
            { s.currentFile with previousBuffer := [] } }
            : Writer).currentFile.payloadSizes (d.headD 0) := by
          intro hx
          rw [hps0]
          rcases of_decide_eq_true hsw with h | h
          · exact absurd hx h
          · exact h
        have hpc : processCommand
            { s with currentFile := { s.currentFile with previousBuffer := [] } }
            (d.headD 0) ((d.drop 1).take (q - 1)) = P := by
          rw [← hP]
          exact processCommand_take _ (d.headD 0) (d.drop 1) (q - 1) hm' h38'
        rw [hpc]
        have hle' : P.1 ≤ q - 1 := by omega
        have htt : ((d.drop 1).take (q - 1)).take P.1 = (d.drop 1).take P.1 := by
          rw [List.take_take, Nat.min_eq_left hle']
        rw [htt]
        have hwc : writeCommand P.2 (d.headD 0) ((d.drop 1).take (q - 1)) P.1
            = writeCommand P.2 (d.headD 0) (d.drop 1) P.1 := by
          unfold writeCommand
          split_ifs with ho
          · rw [htt]
          · rfl
        rw [hwc]
        rw [List.drop_take q (1 + P.1) d]
        have htnem : d.take ((1 + P.1) + M) ≠ [] := by
          intro hx
          have hlq := congrArg List.length hx
          simp only [List.length_take, List.length_nil] at hlq
          omega
        have hthm := take5_take_ne d ((1 + P.1) + M) hh (by omega)
        have htheadm : (d.take ((1 + P.1) + M)).headD 0 = d.headD 0 :=
          headD_take d ((1 + P.1) + M) 0 (by omega)
        have h35m : (d.take ((1 + P.1) + M)).headD 0 ≠ 0x35 := by
          rw [htheadm]; exact h35
        have h39m : (d.take ((1 + P.1) + M)).headD 0 ≠ 0x39 := by
          rw [htheadm]; exact h39
        have h36m : (d.take ((1 + P.1) + M)).headD 0 ≠ 0x36 := by
          rw [htheadm]; exact h36
        have htstm : ¬ ((d.take ((1 + P.1) + M)).length
            < lookupD s.currentFile.payloadSizes
              ((d.take ((1 + P.1) + M)).headD 0) + 1) := by
          rw [htheadm]
          simp only [List.length_take]
          omega
        rw [loopGo_sdef fuel s (d.take ((1 + P.1) + M)) htnem hthm h35m h39m
          h36m htstm]
        simp only []
        rw [htheadm]
        rw [List.drop_take ((1 + P.1) + M) 1 d]
        have hmm' : lookupD ({ s with currentFile :=
            { s.currentFile with previousBuffer := [] } }
            : Writer).currentFile.payloadSizes (d.headD 0)
            ≤ (1 + P.1) + M - 1 := by
          rw [hps0]
          omega
        have hpcm : processCommand
            { s with currentFile := { s.currentFile with previousBuffer := [] } }
            (d.headD 0) ((d.drop 1).take ((1 + P.1) + M - 1)) = P := by
          rw [processCommand_take _ (d.headD 0) (d.drop 1) ((1 + P.1) + M - 1)
            hmm' h38', hP]
        rw [hpcm]
        have hlem : P.1 ≤ (1 + P.1) + M - 1 := by omega
        have httm : ((d.drop 1).take ((1 + P.1) + M - 1)).take P.1
            = (d.drop 1).take P.1 := by
          rw [List.take_take, Nat.min_eq_left hlem]
        rw [httm]
        have hwcm : writeCommand P.2 (d.headD 0)
            ((d.drop 1).take ((1 + P.1) + M - 1)) P.1
            = writeCommand P.2 (d.headD 0) (d.drop 1) P.1 := by
          unfold writeCommand
          split_ifs with ho
          · rw [httm]
          · rfl
        rw [hwcm]
        rw [List.drop_take ((1 + P.1) + M) (1 + P.1) d]
        rw [show (1 + P.1) + M - (1 + P.1) = M from by omega]
        have hXY : (d.drop ((1 + P.1) + M)).take (q - ((1 + P.1) + M))
            = ((d.drop (1 + P.1)).drop M).take (q - (1 + P.1) - M) := by
          rw [List.drop_drop]
          congr 1
          omega
        rw [hXY]
        refine ⟨?_, IH2, IH3⟩
        rw [IH1]

/-- Re-indexing a boundary-safety fact past a step boundary `p` of the run:
membership / safety relative to the whole run becomes membership / safety
relative to the suffix run's marks (the whole marks past `p`, shifted). -/
theorem safety_transfer (ms : List Nat) (D : List Nat) (p g : Nat)
    (hp : p ∈ ms) (hpg : p ≤ g)
    (hg : g ∈ ms ∨
      ((D.drop (lastMark ms g)).take 5 ≠ heloToken ∧
       (D.drop (lastMark ms g)).headD 0 ≠ 0x35)) :
    g - p ∈ (ms.filter (fun m => decide (p ≤ m))).map (· - p) ∨
      (((D.drop p).drop (lastMark
          ((ms.filter (fun m => decide (p ≤ m))).map (· - p)) (g - p))).take 5
            ≠ heloToken ∧
       ((D.drop p).drop (lastMark
          ((ms.filter (fun m => decide (p ≤ m))).map (· - p)) (g - p))).headD 0
            ≠ 0x35) := by
  have hshift := lastMark_filter_shift ms p g hp hpg
  rcases hg with hg | hg
  · left
    exact List.mem_map.mpr ⟨g, List.mem_filter.mpr ⟨hg, by simpa using hpg⟩, rfl⟩
  · right
    rw [hshift, List.drop_drop]
    have hplm : p ≤ lastMark ms g := lastMark_ge_of_mem ms g p hp hpg
    rw [show p + (lastMark ms g - p) = lastMark ms g from by omega]
    exact hg

theorem handleData_evs_gen (S : Writer) (c t : List Nat)
    (h : S.currentFile.previousBuffer = t) :
    (handleData S c).2 = (loopGo (t ++ c).length S (t ++ c)).evs := by
  unfold handleData
  simp only []
  rw [h]

/-- One chunked delivery step: a state agreeing (modulo the relay-only
fields) with the reference mark-state carrying retained tail `t` emits the
frames of the reference parse of `t ++ c` and reaches its state, again
modulo the relay-only fields. -/
theorem first_window (y S : Writer) (t c : List Nat)
    (hy : y.currentFile.previousBuffer = [])
    (hS : stripped S = stripped { y with currentFile :=
      { y.currentFile with previousBuffer := t } })
    (h5 : t ≠ [] → (t ++ c).take 5 ≠ heloToken) :
    (handleData S c).2 = (loopGo (t ++ c).length y (t ++ c)).evs ∧
    stripped (handleData S c).1
      = stripped (loopGo (t ++ c).length y (t ++ c)).st := by
  have hSp : S.currentFile.previousBuffer = t := by
    have h := congrArg (fun w => w.currentFile.previousBuffer) hS
    simp only [] at h
    rw [stripped_previousBuffer, stripped_previousBuffer] at h
    exact h.trans rfl
  obtain ⟨g1, g2, g3, g4⟩ := loopGo_congr (t ++ c).length S
    { y with currentFile := { y.currentFile with previousBuffer := t } }
    (t ++ c) hS
  by_cases ht : t = []
  · subst ht
    have hyy : ({ y with currentFile :=
        { y.currentFile with previousBuffer := ([] : List Nat) } } : Writer)
        = y := by
      rw [← hy]
    constructor
    · rw [handleData_evs_gen S c [] hSp, g1, hyy]
    · rw [handleData_stripped, hSp, g4, hyy]
  · have hpi := loopGo_prev_irrel (t ++ c).length y t (t ++ c)
      (by
        cases t with
        | nil => exact absurd rfl ht
        | cons a u => simp only [List.length_append, List.length_cons]; omega)
      (fun hx => ht (List.append_eq_nil.mp hx).1)
      (h5 ht)
    constructor
    · rw [handleData_evs_gen S c t hSp, g1, hpi]
    · rw [handleData_stripped, hSp, g4, hpi]

/-- The chunked-delivery simulation, generalized over a pending retained
tail `t`: the chunked run from a state agreeing (modulo relay-only fields)
with reference state `y` carrying tail `t` emits exactly the frames of the
single reference parse of `t ++ concatenation`, provided that parse is
well-formed and every internal chunk boundary either falls on one of its
step boundaries or interrupts a step that is neither a keep-alive skip nor
a handshake frame. -/
theorem chunked_gen : ∀ (chunks : List (List Nat)) (y S : Writer) (t : List Nat),
    y.currentFile.previousBuffer = [] →
    stripped S = stripped { y with currentFile :=
      { y.currentFile with previousBuffer := t } } →
    stalledTail y t →
    (t ≠ [] → (t ++ concatChunks chunks).take 5 ≠ heloToken) →
    (loopGo (t ++ concatChunks chunks).length y (t ++ concatChunks chunks)).wf
      = true →
    (∀ b ∈ (innerBounds chunks).map (· + t.length),
      b ∈ (loopGo (t ++ concatChunks chunks).length y
          (t ++ concatChunks chunks)).marks ∨
      (((t ++ concatChunks chunks).drop (lastMark
          (loopGo (t ++ concatChunks chunks).length y
            (t ++ concatChunks chunks)).marks b)).take 5 ≠ heloToken ∧
       ((t ++ concatChunks chunks).drop (lastMark
          (loopGo (t ++ concatChunks chunks).length y
            (t ++ concatChunks chunks)).marks b)).headD 0 ≠ 0x35)) →
    (runChunks S chunks).2
        = (loopGo (t ++ concatChunks chunks).length y
            (t ++ concatChunks chunks)).evs ∧
    stripped (runChunks S chunks).1
        = stripped (loopGo (t ++ concatChunks chunks).length y
            (t ++ concatChunks chunks)).st := by
  intro chunks
  induction chunks with
  | nil =>
    intro y S t hy hS hT h5 hwf hb
    have htt : t ++ concatChunks ([] : List (List Nat)) = t := by
      simp [concatChunks]
    rw [htt]
    unfold stalledTail at hT
    constructor
    · show ([] : List Frame) = _
      rw [hT]
    · show stripped S = _
      rw [hT]
      exact hS
  | cons c rest ih =>
    intro y S t hy hS hT h5 hwf hb
    have htc5 : t ≠ [] → (t ++ c).take 5 ≠ heloToken := by
      intro ht
      have h0 := take5_take_ne (t ++ concatChunks (c :: rest)) (t ++ c).length
        (h5 ht)
        (by
          rw [show t ++ concatChunks (c :: rest)
            = (t ++ c) ++ concatChunks rest from
            (List.append_assoc t c (concatChunks rest)).symm]
          simp only [List.length_append]
          omega)
      rw [show t ++ concatChunks (c :: rest)
          = (t ++ c) ++ concatChunks rest from
          (List.append_assoc t c (concatChunks rest)).symm,
        List.take_left] at h0
      exact h0
    have hfw := first_window y S t c hy hS htc5
    cases rest with
    | nil =>
      have hcc : t ++ concatChunks [c] = t ++ c := by
        simp [concatChunks]
      rw [hcc]
      constructor
      · show [] ++ (handleData S c).2 = _
        rw [List.nil_append]
        exact hfw.1
      · show stripped (handleData S c).1 = _
        exact hfw.2
    | cons c2 rest2 =>
      have hD : t ++ concatChunks (c :: c2 :: rest2)
          = (t ++ c) ++ concatChunks (c2 :: rest2) :=
        (List.append_assoc t c (concatChunks (c2 :: rest2))).symm
      rw [hD] at hwf ⊢
      have hqb := hb (c.length + t.length) (by
        rw [show innerBounds (c :: c2 :: rest2)
          = c.length :: (innerBounds (c2 :: rest2)).map (· + c.length) from rfl]
        exact List.mem_map_of_mem _ (List.mem_cons_self _ _))
      rw [hD] at hqb
      rw [show c.length + t.length = (t ++ c).length from by
        rw [List.length_append]; omega] at hqb
      by_cases hqmark : (t ++ c).length
          ∈ (loopGo ((t ++ c) ++ concatChunks (c2 :: rest2)).length y
            ((t ++ c) ++ concatChunks (c2 :: rest2))).marks
      · -- the boundary is a step boundary of the reference parse
        obtain ⟨i1, i2, i3, i4, i5, i6⟩ := loopGo_split
          ((t ++ c) ++ concatChunks (c2 :: rest2)).length y
          ((t ++ c) ++ concatChunks (c2 :: rest2)) (t ++ c).length
          (le_refl _) hy (by simp only [List.length_append]; omega) hqmark hwf
        rw [List.take_left] at i1 i2 i3 i4 i5 i6
        rw [List.drop_left] at i3 i4 i5 i6
        have hA : loopGo ((t ++ c) ++ concatChunks (c2 :: rest2)).length y
              (t ++ c)
            = loopGo (t ++ c).length y (t ++ c) :=
          loopGo_fuel_irrel _ _ y (t ++ c)
            (by simp only [List.length_append]; omega) (le_refl _)
        rw [hA] at i1 i2 i3 i4 i5 i6
        have hB : loopGo ((t ++ c) ++ concatChunks (c2 :: rest2)).length
              (loopGo (t ++ c).length y (t ++ c)).st
              (concatChunks (c2 :: rest2))
            = loopGo (concatChunks (c2 :: rest2)).length
              (loopGo (t ++ c).length y (t ++ c)).st
              (concatChunks (c2 :: rest2)) :=
          loopGo_fuel_irrel _ _ _ _
            (by simp only [List.length_append]; omega) (le_refl _)
        rw [hB] at i3 i4 i5 i6
        have hS1 : stripped (handleData S c).1
            = stripped { (loopGo (t ++ c).length y (t ++ c)).st with
                currentFile :=
                  { (loopGo (t ++ c).length y (t ++ c)).st.currentFile with
                    previousBuffer := ([] : List Nat) } } := by
          rw [hfw.2]
          congr 1
          rw [← i1]
        have hT1 : stalledTail (loopGo (t ++ c).length y (t ++ c)).st [] := by
          unfold stalledTail
          have he : ({ (loopGo (t ++ c).length y (t ++ c)).st with
              currentFile :=
                { (loopGo (t ++ c).length y (t ++ c)).st.currentFile with
                  previousBuffer := ([] : List Nat) } } : Writer)
              = (loopGo (t ++ c).length y (t ++ c)).st := by
            rw [← i1]
          rw [he]
          rfl
        have hwf' : (loopGo ([] ++ concatChunks (c2 :: rest2)).length
            (loopGo (t ++ c).length y (t ++ c)).st
            ([] ++ concatChunks (c2 :: rest2))).wf = true := by
          simp only [List.nil_append]
          exact i6
        have hb' : ∀ b ∈ (innerBounds (c2 :: rest2)).map
              (· + ([] : List Nat).length),
            b ∈ (loopGo ([] ++ concatChunks (c2 :: rest2)).length
                (loopGo (t ++ c).length y (t ++ c)).st
                ([] ++ concatChunks (c2 :: rest2))).marks ∨
            ((([] ++ concatChunks (c2 :: rest2)).drop (lastMark
                (loopGo ([] ++ concatChunks (c2 :: rest2)).length
                  (loopGo (t ++ c).length y (t ++ c)).st
                  ([] ++ concatChunks (c2 :: rest2))).marks b)).take 5
                  ≠ heloToken ∧
             (([] ++ concatChunks (c2 :: rest2)).drop (lastMark
                (loopGo ([] ++ concatChunks (c2 :: rest2)).length
                  (loopGo (t ++ c).length y (t ++ c)).st
                  ([] ++ concatChunks (c2 :: rest2))).marks b)).headD 0
                  ≠ 0x35) := by
          intro b hbm
          simp only [List.nil_append]
          obtain ⟨b0, hb0, rfl⟩ := List.mem_map.mp hbm
          rw [show b0 + ([] : List Nat).length = b0 from by simp]
          have hgb := hb ((b0 + c.length) + t.length) (by
            rw [show innerBounds (c :: c2 :: rest2)
              = c.length :: (innerBounds (c2 :: rest2)).map (· + c.length)
              from rfl]
            exact List.mem_map_of_mem _
              (List.mem_cons_of_mem _ (List.mem_map_of_mem _ hb0)))
          rw [hD] at hgb
          rw [show (b0 + c.length) + t.length = (t ++ c).length + b0 from by
            rw [List.length_append]; omega] at hgb
          have htr := safety_transfer
            (loopGo ((t ++ c) ++ concatChunks (c2 :: rest2)).length y
              ((t ++ c) ++ concatChunks (c2 :: rest2))).marks
            ((t ++ c) ++ concatChunks (c2 :: rest2))
            (t ++ c).length ((t ++ c).length + b0) hqmark (by omega) hgb
          rw [← i5] at htr
          rw [List.drop_left] at htr
          rw [show (t ++ c).length + b0 - (t ++ c).length = b0 from by omega]
            at htr
          exact htr
        obtain ⟨j1, j2⟩ := ih (loopGo (t ++ c).length y (t ++ c)).st
          (handleData S c).1 [] i1 hS1 hT1 (fun hx => absurd rfl hx) hwf' hb'
        simp only [List.nil_append] at j1 j2
        rw [runChunks_cons]
        constructor
        · show (handleData S c).2 ++ _ = _
          rw [hfw.1, j1]
          exact i4
        · show stripped (runChunks (handleData S c).1 (c2 :: rest2)).1 = _
          rw [j2, i3]
      · -- the boundary interrupts a frame: the stall/tail-retention path
        rcases hqb with hqb | hsafe
        · exact absurd hqb hqmark
        obtain ⟨G1, G3, G4⟩ := loopGo_split_stall
          ((t ++ c) ++ concatChunks (c2 :: rest2)).length y
          ((t ++ c) ++ concatChunks (c2 :: rest2)) (t ++ c).length
          (le_refl _) hy (by simp only [List.length_append]; omega) hwf hqmark
          hsafe.1 hsafe.2
        have hm_mem : lastMark (loopGo ((t ++ c)
              ++ concatChunks (c2 :: rest2)).length y
              ((t ++ c) ++ concatChunks (c2 :: rest2))).marks (t ++ c).length
            ∈ (loopGo ((t ++ c) ++ concatChunks (c2 :: rest2)).length y
              ((t ++ c) ++ concatChunks (c2 :: rest2))).marks :=
          lastMark_mem _ _ (loopGo_marks_zero _ _ _)
        have hm_le : lastMark (loopGo ((t ++ c)
              ++ concatChunks (c2 :: rest2)).length y
              ((t ++ c) ++ concatChunks (c2 :: rest2))).marks (t ++ c).length
            ≤ (t ++ c).length :=
          lastMark_le _ _
        generalize hMv : lastMark (loopGo ((t ++ c)
            ++ concatChunks (c2 :: rest2)).length y
            ((t ++ c) ++ concatChunks (c2 :: rest2))).marks (t ++ c).length = m
          at G1 G3 G4 hm_mem hm_le hsafe
        obtain ⟨j1, j2, j3, j4, j5, j6⟩ := loopGo_split
          ((t ++ c) ++ concatChunks (c2 :: rest2)).length y
          ((t ++ c) ++ concatChunks (c2 :: rest2)) m
          (le_refl _) hy
          (by
            have hx := hm_le
            simp only [List.length_append] at hx ⊢
            omega)
          hm_mem hwf
        rw [List.take_left] at G1 G3
        have hA : loopGo ((t ++ c) ++ concatChunks (c2 :: rest2)).length y
              (t ++ c)
            = loopGo (t ++ c).length y (t ++ c) :=
          loopGo_fuel_irrel _ _ y (t ++ c)
            (by simp only [List.length_append]; omega) (le_refl _)
        rw [hA] at G1 G3
        have hBm : loopGo ((t ++ c) ++ concatChunks (c2 :: rest2)).length
              (loopGo ((t ++ c) ++ concatChunks (c2 :: rest2)).length y
                (((t ++ c) ++ concatChunks (c2 :: rest2)).take m)).st
              (((t ++ c) ++ concatChunks (c2 :: rest2)).drop m)
            = loopGo (((t ++ c) ++ concatChunks (c2 :: rest2)).drop m).length
              (loopGo ((t ++ c) ++ concatChunks (c2 :: rest2)).length y
                (((t ++ c) ++ concatChunks (c2 :: rest2)).take m)).st
              (((t ++ c) ++ concatChunks (c2 :: rest2)).drop m) :=
          loopGo_fuel_irrel _ _ _ _
            (by simp only [List.length_drop]; omega) (le_refl _)
        rw [hBm] at j3 j4 j5 j6
        have htE : (((t ++ c) ++ concatChunks (c2 :: rest2)).drop m).take
              ((t ++ c).length - m) ++ concatChunks (c2 :: rest2)
            = ((t ++ c) ++ concatChunks (c2 :: rest2)).drop m := by
          have h1 : (((t ++ c) ++ concatChunks (c2 :: rest2)).drop m).drop
              ((t ++ c).length - m) = concatChunks (c2 :: rest2) := by
            rw [List.drop_drop]
            rw [show m + ((t ++ c).length - m) = (t ++ c).length from by omega]
            exact List.drop_left _ _
          have h2 := List.take_append_drop ((t ++ c).length - m)
            (((t ++ c) ++ concatChunks (c2 :: rest2)).drop m)
          rw [h1] at h2
          exact h2
        have ht'len : ((((t ++ c) ++ concatChunks (c2 :: rest2)).drop m).take
              ((t ++ c).length - m)).length = (t ++ c).length - m := by
          have hx := hm_le
          simp only [List.length_take, List.length_drop, List.length_append]
            at hx ⊢
          omega
        have hS1 : stripped (handleData S c).1
            = stripped { (loopGo ((t ++ c)
                ++ concatChunks (c2 :: rest2)).length y
                (((t ++ c) ++ concatChunks (c2 :: rest2)).take m)).st with
                currentFile :=
                  { (loopGo ((t ++ c) ++ concatChunks (c2 :: rest2)).length y
                      (((t ++ c) ++ concatChunks (c2 :: rest2)).take m)).st.currentFile with
                    previousBuffer :=
                      (((t ++ c) ++ concatChunks (c2 :: rest2)).drop m).take
                        ((t ++ c).length - m) } } := by
          rw [hfw.2, G3]
        have h5' : (((t ++ c) ++ concatChunks (c2 :: rest2)).drop m).take
              ((t ++ c).length - m) ≠ [] →
            ((((t ++ c) ++ concatChunks (c2 :: rest2)).drop m).take
              ((t ++ c).length - m) ++ concatChunks (c2 :: rest2)).take 5
              ≠ heloToken := by
          intro _
          rw [htE]
          exact hsafe.1
        have hwf' : (loopGo ((((t ++ c)
              ++ concatChunks (c2 :: rest2)).drop m).take
                ((t ++ c).length - m) ++ concatChunks (c2 :: rest2)).length
              (loopGo ((t ++ c) ++ concatChunks (c2 :: rest2)).length y
                (((t ++ c) ++ concatChunks (c2 :: rest2)).take m)).st
              ((((t ++ c) ++ concatChunks (c2 :: rest2)).drop m).take
                ((t ++ c).length - m) ++ concatChunks (c2 :: rest2))).wf
            = true := by
          rw [htE]
          exact j6
        have hb' : ∀ b ∈ (innerBounds (c2 :: rest2)).map
              (· + ((((t ++ c) ++ concatChunks (c2 :: rest2)).drop m).take
                ((t ++ c).length - m)).length),
            b ∈ (loopGo ((((t ++ c)
                ++ concatChunks (c2 :: rest2)).drop m).take
                  ((t ++ c).length - m) ++ concatChunks (c2 :: rest2)).length
                (loopGo ((t ++ c) ++ concatChunks (c2 :: rest2)).length y
                  (((t ++ c) ++ concatChunks (c2 :: rest2)).take m)).st
                ((((t ++ c) ++ concatChunks (c2 :: rest2)).drop m).take
                  ((t ++ c).length - m) ++ concatChunks (c2 :: rest2))).marks ∨
            ((((((t ++ c) ++ concatChunks (c2 :: rest2)).drop m).take
                  ((t ++ c).length - m) ++ concatChunks (c2 :: rest2)).drop
                (lastMark (loopGo ((((t ++ c)
                  ++ concatChunks (c2 :: rest2)).drop m).take
                    ((t ++ c).length - m) ++ concatChunks (c2 :: rest2)).length
                  (loopGo ((t ++ c) ++ concatChunks (c2 :: rest2)).length y
                    (((t ++ c) ++ concatChunks (c2 :: rest2)).take m)).st
                  ((((t ++ c) ++ concatChunks (c2 :: rest2)).drop m).take
                    ((t ++ c).length - m)
                    ++ concatChunks (c2 :: rest2))).marks b)).take 5
                  ≠ heloToken ∧
             ((((((t ++ c) ++ concatChunks (c2 :: rest2)).drop m).take
                  ((t ++ c).length - m) ++ concatChunks (c2 :: rest2)).drop
                (lastMark (loopGo ((((t ++ c)
                  ++ concatChunks (c2 :: rest2)).drop m).take
                    ((t ++ c).length - m) ++ concatChunks (c2 :: rest2)).length
                  (loopGo ((t ++ c) ++ concatChunks (c2 :: rest2)).length y
                    (((t ++ c) ++ concatChunks (c2 :: rest2)).take m)).st
                  ((((t ++ c) ++ concatChunks (c2 :: rest2)).drop m).take
                    ((t ++ c).length - m)
                    ++ concatChunks (c2 :: rest2))).marks b)).headD 0
                  ≠ 0x35)) := by
          intro b hbm
          rw [htE]
          obtain ⟨b0, hb0, rfl⟩ := List.mem_map.mp hbm
          rw [ht'len]
          have hgb := hb ((b0 + c.length) + t.length) (by
            rw [show innerBounds (c :: c2 :: rest2)
              = c.length :: (innerBounds (c2 :: rest2)).map (· + c.length)
              from rfl]
            exact List.mem_map_of_mem _
              (List.mem_cons_of_mem _ (List.mem_map_of_mem _ hb0)))
          rw [hD] at hgb
          rw [show (b0 + c.length) + t.length = (t ++ c).length + b0 from by
            rw [List.length_append]; omega] at hgb
          have htr := safety_transfer
            (loopGo ((t ++ c) ++ concatChunks (c2 :: rest2)).length y
              ((t ++ c) ++ concatChunks (c2 :: rest2))).marks
            ((t ++ c) ++ concatChunks (c2 :: rest2))
            m ((t ++ c).length + b0) hm_mem (by omega) hgb
          rw [← j5] at htr
          rw [show (t ++ c).length + b0 - m = b0 + ((t ++ c).length - m)
            from by omega] at htr
          exact htr
        obtain ⟨k1, k2⟩ := ih
          (loopGo ((t ++ c) ++ concatChunks (c2 :: rest2)).length y
            (((t ++ c) ++ concatChunks (c2 :: rest2)).take m)).st
          (handleData S c).1
          ((((t ++ c) ++ concatChunks (c2 :: rest2)).drop m).take
            ((t ++ c).length - m))
          j1 hS1 G4 h5' hwf' hb'
        rw [htE] at k1 k2
        rw [runChunks_cons]
        constructor
        · show (handleData S c).2 ++ _ = _
          rw [hfw.1, G1, k1]
          exact j4
        · show stripped (runChunks (handleData S c).1 (c2 :: rest2)).1 = _
          rw [k2, j3]

/-- C1 (amended): chunk-boundary invariance of stream reassembly holds
conditionally, not universally.  Starting from a state with no retained
partial-byte tail, feeding consecutive sub-deliveries through `handleData`
sequentially (with the retained partial-byte tail carried between calls)
emits the identical Frame sequence as feeding the concatenated bytes in one
single delivery, PROVIDED the single-delivery parse is well-formed (each
processed handshake declares a length `≡ 1 mod 3` at least the table's
current handshake entry, and each processed frame-update's table entry is 0
or at least 7) and no internal chunk boundary falls strictly inside a
keep-alive token or strictly inside a handshake frame of that parse: each
boundary either lies on a step boundary (`marks`), or the step it
interrupts — the one starting at the last mark at or before it — neither
matches the keep-alive token nor carries the handshake command, in which
case the interrupted frame's bytes are retained by the stall path and
re-parsed whole on a later delivery.  Splits inside table-sized frames are
therefore covered.  Without the provisos the property fails: see the
counterexample, where a keep-alive token split across two deliveries parses
as five spurious frames. -/
theorem C1_chunk_invariance_amended (s : Writer) (chunks : List (List Nat))
    (hprev : s.currentFile.previousBuffer = [])
    (hb : ∀ b ∈ innerBounds chunks,
      b ∈ (loopGo (concatChunks chunks).length s (concatChunks chunks)).marks ∨
      (((concatChunks chunks).drop (lastMark
          (loopGo (concatChunks chunks).length s
            (concatChunks chunks)).marks b)).take 5 ≠ heloToken ∧
       ((concatChunks chunks).drop (lastMark
          (loopGo (concatChunks chunks).length s
            (concatChunks chunks)).marks b)).headD 0 ≠ 0x35))
    (hwf : (loopGo (concatChunks chunks).length s
      (concatChunks chunks)).wf = true) :
    (runChunks s chunks).2 = (handleData s (concatChunks chunks)).2 := by
  have hyy : ({ s with currentFile :=
      { s.currentFile with previousBuffer := ([] : List Nat) } } : Writer)
      = s := by
    rw [← hprev]
  have hT : stalledTail s ([] : List Nat) := by
    unfold stalledTail
    rw [hyy]
    rfl
  have hwf' : (loopGo (([] : List Nat) ++ concatChunks chunks).length s
      (([] : List Nat) ++ concatChunks chunks)).wf = true := by
    simp only [List.nil_append]
    exact hwf
  have hb' : ∀ b ∈ (innerBounds chunks).map (· + ([] : List Nat).length),
      b ∈ (loopGo (([] : List Nat) ++ concatChunks chunks).length s
          (([] : List Nat) ++ concatChunks chunks)).marks ∨
      (((([] : List Nat) ++ concatChunks chunks).drop (lastMark
          (loopGo (([] : List Nat) ++ concatChunks chunks).length s
            (([] : List Nat) ++ concatChunks chunks)).marks b)).take 5
            ≠ heloToken ∧
       ((([] : List Nat) ++ concatChunks chunks).drop (lastMark
          (loopGo (([] : List Nat) ++ concatChunks chunks).length s
            (([] : List Nat) ++ concatChunks chunks)).marks b)).headD 0
            ≠ 0x35) := by
    intro b hbm
    simp only [List.nil_append]
    obtain ⟨b0, hb0, rfl⟩ := List.mem_map.mp hbm
    rw [show b0 + ([] : List Nat).length = b0 from by simp]
    exact hb b0 hb0
  obtain ⟨h1, h2⟩ := chunked_gen chunks s s [] hprev (by rw [hyy]) hT
    (fun hx => absurd rfl hx) hwf' hb'
  simp only [List.nil_append] at h1
  rw [h1, handleData_evs s (concatChunks chunks) hprev]

theorem C1_witness :
    initWriter.currentFile.previousBuffer = [] ∧
    (∀ b ∈ innerBounds [[0x35, 4, 0x3A, 0, 3, 0x3A, 1], [2, 3]],
      b ∈ (loopGo (concatChunks [[0x35, 4, 0x3A, 0, 3, 0x3A, 1], [2, 3]]).length
          initWriter
          (concatChunks [[0x35, 4, 0x3A, 0, 3, 0x3A, 1], [2, 3]])).marks ∨
      (((concatChunks [[0x35, 4, 0x3A, 0, 3, 0x3A, 1], [2, 3]]).drop (lastMark
          (loopGo (concatChunks [[0x35, 4, 0x3A, 0, 3, 0x3A, 1], [2, 3]]).length
            initWriter
            (concatChunks [[0x35, 4, 0x3A, 0, 3, 0x3A, 1], [2, 3]])).marks
          b)).take 5 ≠ heloToken ∧
       ((concatChunks [[0x35, 4, 0x3A, 0, 3, 0x3A, 1], [2, 3]]).drop (lastMark
          (loopGo (concatChunks [[0x35, 4, 0x3A, 0, 3, 0x3A, 1], [2, 3]]).length
            initWriter
            (concatChunks [[0x35, 4, 0x3A, 0, 3, 0x3A, 1], [2, 3]])).marks
          b)).headD 0 ≠ 0x35)) ∧
    (loopGo (concatChunks [[0x35, 4, 0x3A, 0, 3, 0x3A, 1], [2, 3]]).length
      initWriter (concatChunks [[0x35, 4, 0x3A, 0, 3, 0x3A, 1], [2, 3]])).wf
      = true ∧
    7 ∉ (loopGo (concatChunks [[0x35, 4, 0x3A, 0, 3, 0x3A, 1], [2, 3]]).length
      initWriter (concatChunks [[0x35, 4, 0x3A, 0, 3, 0x3A, 1], [2, 3]])).marks ∧
    (runChunks initWriter [[0x35, 4, 0x3A, 0, 3, 0x3A, 1], [2, 3]]).2
      = (handleData initWriter
          (concatChunks [[0x35, 4, 0x3A, 0, 3, 0x3A, 1], [2, 3]])).2 :=
  ⟨by decide, by decide, by decide, by decide,
    C1_chunk_invariance_amended initWriter [[0x35, 4, 0x3A, 0, 3, 0x3A, 1], [2, 3]]
      (by decide) (by decide) (by decide)⟩

end Slp
